import Mathlib

/-!
The default binder of `fiber-impl` (`default.go`).

A shallow embedding of the reflective default binder: the tag resolvers
(`GetTagDefFunc`, `GetSubTagDefFunc`), the record walker (`mapping`) and the
type converter (`setWithProperType` and its helpers), followed by theorems
about them.

Modelling conventions.

* A Go value reached through `reflect` is a `Value`; it carries exactly the
  type information the binder reads (`Kind`, the element type of pointers and
  sequences, the field descriptors of a struct).
* Mutation in place is explicit state passing: every setter returns the new
  value together with its result.
* `reflect` marks a value obtained through an unexported embedded field as
  read-only; that flag is the `ro` argument, and a setter called on such a
  value panics.  A panic is the `Fault.panic` outcome.
* Library routines with no counterpart in this repository (float, duration and
  calendar parsing, document decoding, Unicode lower-casing) are the fields of
  `Lib`; every theorem holds for each choice of them.
* A struct type may refer to itself only through a pointer.  Such a reference
  is `GoType.ptrNamed`, resolved in a table of declared struct types
  (`Decls`); every other type is written in place.  The walker `mapping`
  recurses without a bound in Go, so it takes a fuel argument and returns
  `none` when the fuel runs out.
-/

namespace FiberImpl

/-! ## Types -/

/-- The kinds of `reflect.Kind`. -/
inductive Kind
  | Invalid | Bool | Int | Int8 | Int16 | Int32 | Int64
  | Uint | Uint8 | Uint16 | Uint32 | Uint64 | Uintptr
  | Float32 | Float64 | Complex64 | Complex128
  | Array | Chan | Func | Interface | Map | Ptr | Slice | String | Struct | UnsafePointer
  deriving DecidableEq, Repr

/-- The signed integer kinds. -/
inductive IntKind
  | Int | Int8 | Int16 | Int32 | Int64
  deriving DecidableEq, Repr

/-- The unsigned integer kinds that have a converter. -/
inductive UintKind
  | Uint | Uint8 | Uint16 | Uint32 | Uint64
  deriving DecidableEq, Repr

/-- The floating-point kinds. -/
inductive FloatKind
  | Float32 | Float64
  deriving DecidableEq, Repr

/-- The kinds for which `setWithProperType` has no case. -/
inductive OtherKind
  | Uintptr | Complex64 | Complex128 | Chan | Func | Interface | UnsafePointer
  deriving DecidableEq, Repr

/-- Size in bits of `int` and `uint` (`strconv.IntSize`) on a 64-bit platform. -/
def IntSize : Nat := 64

def IntKind.toKind : IntKind → Kind
  | .Int => .Int | .Int8 => .Int8 | .Int16 => .Int16 | .Int32 => .Int32 | .Int64 => .Int64

def UintKind.toKind : UintKind → Kind
  | .Uint => .Uint | .Uint8 => .Uint8 | .Uint16 => .Uint16 | .Uint32 => .Uint32
  | .Uint64 => .Uint64

def FloatKind.toKind : FloatKind → Kind
  | .Float32 => .Float32 | .Float64 => .Float64

def OtherKind.toKind : OtherKind → Kind
  | .Uintptr => .Uintptr | .Complex64 => .Complex64 | .Complex128 => .Complex128
  | .Chan => .Chan | .Func => .Func | .Interface => .Interface
  | .UnsafePointer => .UnsafePointer

/-- Width in bits of a signed integer kind. -/
def IntKind.bits : IntKind → Nat
  | .Int => IntSize | .Int8 => 8 | .Int16 => 16 | .Int32 => 32 | .Int64 => 64

/-- Width in bits of an unsigned integer kind. -/
def UintKind.bits : UintKind → Nat
  | .Uint => IntSize | .Uint8 => 8 | .Uint16 => 16 | .Uint32 => 32 | .Uint64 => 64

/-- A struct tag (`reflect.StructTag`) in its conventional form, as the list of
its `key:"value"` pairs in the order written. -/
abbrev StructTag := List (String × String)

/-- The value of the first pair with the given key, `""` when there is none
(`reflect.StructTag.Get`). -/
def StructTag.Get (tag : StructTag) (key : String) : String :=
  match tag.find? (fun p => p.1 = key) with
  | some p => p.2
  | none => ""

/-- The part of `reflect.StructField` the binder reads.  A field is unexported
exactly when `PkgPath` is not empty. -/
structure StructField where
  Name : String
  PkgPath : String
  Tag : StructTag
  Anonymous : Bool
  deriving DecidableEq, Repr

/-- The test `sf.PkgPath != ""`: the field is unexported. -/
def StructField.unexported (sf : StructField) : Bool := sf.PkgPath ≠ ""

mutual
/-- Go types.  `duration` is `time.Duration` (kind `Int64`) and `time` is
`time.Time` (kind `Struct`), the two types the converter singles out by a type
switch.  `ptrNamed n` is `*n` for the declared struct type `n`. -/
inductive GoType
  | bool
  | int (k : IntKind)
  | uint (k : UintKind)
  | float (k : FloatKind)
  | string
  | duration
  | time
  | map
  | other (k : OtherKind)
  | ptr (elem : GoType)
  | ptrNamed (name : String)
  | slice (elem : GoType)
  | array (len : Nat) (elem : GoType)
  | struct (fields : TypeFields)
  deriving DecidableEq, Repr
/-- The fields of a struct type, in declaration order. -/
inductive TypeFields
  | nil
  | cons (sf : StructField) (t : GoType) (rest : TypeFields)
  deriving DecidableEq, Repr
end

/-- The table of declared struct types, by name. -/
abbrev Decls := String → TypeFields

/-- The element type of a pointer: written in place, or a declared struct. -/
inductive PtrElem
  | inline (t : GoType)
  | declared (name : String)
  deriving DecidableEq, Repr

/-- A time zone (`*time.Location`). -/
inductive Location
  | UTC
  | Local
  | zone (name : String)
  deriving DecidableEq, Repr

/-- An instant (`time.Time`): seconds and nanoseconds since the Unix epoch, and
the location it is presented in. -/
structure Time where
  sec : Int
  nsec : Int
  loc : Location
  deriving DecidableEq, Repr

/-- The two errors of `strconv.NumError`. -/
inductive NumErr
  | ErrSyntax
  | ErrRange
  deriving DecidableEq, Repr

/-- The errors the binder can return. -/
inductive GoError
  | errUnknownType
  | notValid (vs : List String) (typ : GoType)
  | numError (fn : String) (num : String) (err : NumErr)
  | library (pkg : String) (msg : String)
  deriving DecidableEq, Repr

/-- What stops a call: an error returned to the caller, or a run-time panic. -/
inductive Fault
  | error (e : GoError)
  | panic (msg : String)
  deriving DecidableEq, Repr

mutual
/-- Go values as `reflect` presents them. -/
inductive Value
  | bool (b : Bool)
  | int (k : IntKind) (i : Int)
  | uint (k : UintKind) (n : Nat)
  | float (k : FloatKind) (bits : Nat)
  | string (s : String)
  | duration (d : Int)
  | time (t : Time)
  | map (entries : List (String × String))
  | other (k : OtherKind) (payload : Nat)
  | ptrNil (elem : PtrElem)
  | ptrTo (elem : PtrElem) (pointee : Value)
  | slice (elem : GoType) (elems : Values)
  | array (elem : GoType) (elems : Values)
  | struct (fields : Fields)
  deriving DecidableEq, Repr
/-- The fields of a struct value with their descriptors, in declaration order. -/
inductive Fields
  | nil
  | cons (sf : StructField) (v : Value) (rest : Fields)
  deriving DecidableEq, Repr
/-- The elements of an array or slice. -/
inductive Values
  | nil
  | cons (v : Value) (rest : Values)
  deriving DecidableEq, Repr
end

/-- An argument of type `any`: the nil interface, or a dynamic value (whose
dynamic type is `Value.Type`). -/
inductive AnyValue
  | nil
  | iface (val : Value)
  deriving DecidableEq, Repr

def Values.replicate : Nat → Value → Values
  | 0, _ => .nil
  | n + 1, v => .cons v (Values.replicate n v)

def Values.length : Values → Nat
  | .nil => 0
  | .cons _ rest => rest.length + 1

/-- The zero instant `time.Time{}`: 1 January of year 1, 00:00:00 UTC. -/
def Time.zero : Time := ⟨-62135596800, 0, .UTC⟩

mutual
/-- The zero value of a type (`reflect.Zero`). -/
def Zero : GoType → Value
  | .bool => .bool false
  | .int k => .int k 0
  | .uint k => .uint k 0
  | .float k => .float k 0
  | .string => .string ""
  | .duration => .duration 0
  | .time => .time Time.zero
  | .map => .map []
  | .other k => .other k 0
  | .ptr elem => .ptrNil (.inline elem)
  | .ptrNamed name => .ptrNil (.declared name)
  | .slice elem => .slice elem .nil
  | .array len elem => .array elem (Values.replicate len (Zero elem))
  | .struct fields => .struct (zeroFields fields)
/-- The zero values of the fields of a struct type. -/
def zeroFields : TypeFields → Fields
  | .nil => .nil
  | .cons sf t rest => .cons sf (Zero t) (zeroFields rest)
end

/-- The pointee of `reflect.New(t)`: a fresh zero value of the element type. -/
def New (decls : Decls) : PtrElem → Value
  | .inline t => Zero t
  | .declared name => .struct (zeroFields (decls name))

/-- Kind of a type (`reflect.Type.Kind`). -/
def GoType.Kind : GoType → Kind
  | .bool => .Bool
  | .int k => k.toKind
  | .uint k => k.toKind
  | .float k => k.toKind
  | .string => .String
  | .duration => .Int64
  | .time => .Struct
  | .map => .Map
  | .other k => k.toKind
  | .ptr _ => .Ptr
  | .ptrNamed _ => .Ptr
  | .slice _ => .Slice
  | .array _ _ => .Array
  | .struct _ => .Struct

/-- Kind of a value (`reflect.Value.Kind`). -/
def Value.Kind : Value → Kind
  | .bool _ => .Bool
  | .int k _ => k.toKind
  | .uint k _ => k.toKind
  | .float k _ => k.toKind
  | .string _ => .String
  | .duration _ => .Int64
  | .time _ => .Struct
  | .map _ => .Map
  | .other k _ => k.toKind
  | .ptrNil _ => .Ptr
  | .ptrTo _ _ => .Ptr
  | .slice _ _ => .Slice
  | .array _ _ => .Array
  | .struct _ => .Struct

/-- Length of an array or slice (`reflect.Value.Len`). -/
def Value.Len : Value → Nat
  | .slice _ xs => xs.length
  | .array _ xs => xs.length
  | _ => 0

/-- Type of a pointer with the given element. -/
def PtrElem.ptrType : PtrElem → GoType
  | .inline t => .ptr t
  | .declared name => .ptrNamed name

mutual
/-- Type of a value (`reflect.Value.Type`). -/
def Value.Type : Value → GoType
  | .bool _ => .bool
  | .int k _ => .int k
  | .uint k _ => .uint k
  | .float k _ => .float k
  | .string _ => .string
  | .duration _ => .duration
  | .time _ => .time
  | .map _ => .map
  | .other k _ => .other k
  | .ptrNil elem => elem.ptrType
  | .ptrTo elem _ => elem.ptrType
  | .slice elem _ => .slice elem
  | .array elem xs => .array xs.length elem
  | .struct fields => .struct fields.Types
/-- The field descriptors and field types of a struct value. -/
def Fields.Types : Fields → TypeFields
  | .nil => .nil
  | .cons sf v rest => .cons sf v.Type rest.Types
end

/-! ## Library routines -/

/-- The library routines the converter calls that are not modelled in full. -/
structure Lib where
  /-- The call `strconv.ParseFloat(s, bitSize)`: the bits of the parsed float64. -/
  parseFloat : String → Nat → Except GoError Nat
  /-- Conversion of a float64 to the nearest float32, on their bits. -/
  narrow32 : Nat → Nat
  /-- The call `time.ParseDuration(s)`, in nanoseconds. -/
  parseDuration : String → Except GoError Int
  /-- The call `time.LoadLocation(name)`. -/
  loadLocation : String → Except GoError Location
  /-- The call `time.ParseInLocation(layout, value, loc)`. -/
  parseInLocation : String → String → Location → Except GoError Time
  /-- The call `json.Unmarshal(data, &v)` for a struct `v`: the fields after
  decoding, and the error. -/
  jsonStruct : String → Fields → Fields × Option GoError
  /-- The call `json.Unmarshal(data, &m)` for a map `m`. -/
  jsonMap : String → List (String × String) → List (String × String) × Option GoError
  /-- The call `strings.ToLower(s)`. -/
  toLower : String → String

/-- The error `strconv` builds for a malformed numeral. -/
def syntaxError (fn str : String) : GoError := .numError fn str .ErrSyntax

/-- The error `strconv` builds for a numeral out of range. -/
def rangeError (fn str : String) : GoError := .numError fn str .ErrRange

/-- The digit loop of `strconv.ParseUint` in base 10: `n` is the value read so
far, `cutoff` the least number whose tenfold exceeds the largest uint64, and
`maxVal` the largest value of the requested width. -/
def parseUintLoop (s0 : String) (cutoff maxVal : Nat) : List Char → Nat → Nat × Option GoError
  | [], n => (n, none)
  | c :: cs, n =>
    if '0' ≤ c ∧ c ≤ '9' then
      let d := c.toNat - '0'.toNat
      if n ≥ cutoff then (maxVal, some (rangeError "ParseUint" s0))
      else
        let n1 := n * 10 + d
        if n1 ≥ 2 ^ 64 ∨ n1 > maxVal then (maxVal, some (rangeError "ParseUint" s0))
        else parseUintLoop s0 cutoff maxVal cs n1
    else (0, some (syntaxError "ParseUint" s0))

/-- The call `strconv.ParseUint(s, 10, bitSize)`; `bitSize = 0` stands for
`IntSize`. -/
def ParseUint (s : String) (bitSize : Nat) : Nat × Option GoError :=
  if s = "" then (0, some (syntaxError "ParseUint" s))
  else
    let bitSize := if bitSize = 0 then IntSize else bitSize
    let cutoff := (2 ^ 64 - 1) / 10 + 1
    let maxVal := 2 ^ bitSize - 1
    parseUintLoop s cutoff maxVal s.data 0

/-- The call `strconv.ParseInt(s, 10, bitSize)`. -/
def ParseInt (s : String) (bitSize : Nat) : Int × Option GoError :=
  match s.data with
  | [] => (0, some (syntaxError "ParseInt" s))
  | c :: cs =>
    let neg := decide (c = '-')
    let rest := if c = '+' ∨ c = '-' then cs else c :: cs
    match ParseUint (String.mk rest) bitSize with
    | (_, some (.numError _ _ .ErrSyntax)) => (0, some (syntaxError "ParseInt" s))
    | (un, _) =>
      let bitSize := if bitSize = 0 then IntSize else bitSize
      let cutoff := 2 ^ (bitSize - 1)
      if !neg ∧ un ≥ cutoff then ((cutoff : Int) - 1, some (rangeError "ParseInt" s))
      else if neg ∧ un > cutoff then (-(cutoff : Int), some (rangeError "ParseInt" s))
      else (if neg then -(un : Int) else (un : Int), none)

/-- The call `strconv.ParseBool(str)`. -/
def ParseBool (str : String) : Bool × Option GoError :=
  if str = "1" ∨ str = "t" ∨ str = "T" ∨ str = "true" ∨ str = "TRUE" ∨ str = "True" then
    (true, none)
  else if str = "0" ∨ str = "f" ∨ str = "F" ∨ str = "false" ∨ str = "FALSE"
      ∨ str = "False" then
    (false, none)
  else (false, some (syntaxError "ParseBool" str))

/-- The call `time.Unix(sec, nsec)`: nanoseconds outside `[0, 1e9)` are carried
into the seconds. -/
def Time.Unix (sec nsec : Int) : Time :=
  if nsec < 0 ∨ nsec ≥ 1000000000 then
    let n := nsec.tdiv 1000000000
    let sec := sec + n
    let nsec := nsec - n * 1000000000
    if nsec < 0 then ⟨sec - 1, nsec + 1000000000, .Local⟩ else ⟨sec, nsec, .Local⟩
  else ⟨sec, nsec, .Local⟩

/-- The layout `time.RFC3339`. -/
def RFC3339 : String := "2006-01-02T15:04:05Z07:00"

/-- One second (`time.Second`) as a `time.Duration`, in nanoseconds. -/
def Second : Int := 1000000000

/-! ## Reflective setters -/

/-- The panic of a setter called on a value reached through an unexported
embedded field. -/
def panicRO : Fault := .panic "reflect: value obtained using unexported field"

/-- The panic of a setter called on a value of another kind. -/
def panicKind : Fault := .panic "reflect: call of Value method on a value of another kind"

/-- The panic of `Value.Index` past the end. -/
def panicIndex : Fault := .panic "reflect: index out of range"

/-- Truncation of an integer to a signed two's-complement width. -/
def wrapInt (bits : Nat) (x : Int) : Int :=
  (x + 2 ^ (bits - 1)) % 2 ^ bits - 2 ^ (bits - 1)

/-- The call `v.SetInt(x)`. -/
def Value.SetInt (ro : Bool) (v : Value) (x : Int) : Value × Option Fault :=
  if ro then (v, some panicRO)
  else match v with
    | .int k _ => (.int k (wrapInt k.bits x), none)
    | .duration _ => (.duration (wrapInt 64 x), none)
    | _ => (v, some panicKind)

/-- The call `v.SetUint(x)`. -/
def Value.SetUint (ro : Bool) (v : Value) (x : Nat) : Value × Option Fault :=
  if ro then (v, some panicRO)
  else match v with
    | .uint k _ => (.uint k (x % 2 ^ k.bits), none)
    | _ => (v, some panicKind)

/-- The call `v.SetBool(x)`. -/
def Value.SetBool (ro : Bool) (v : Value) (x : Bool) : Value × Option Fault :=
  if ro then (v, some panicRO)
  else match v with
    | .bool _ => (.bool x, none)
    | _ => (v, some panicKind)

/-- The call `v.SetFloat(x)`. -/
def Value.SetFloat (lib : Lib) (ro : Bool) (v : Value) (x : Nat) : Value × Option Fault :=
  if ro then (v, some panicRO)
  else match v with
    | .float .Float32 _ => (.float .Float32 (lib.narrow32 x), none)
    | .float .Float64 _ => (.float .Float64 x, none)
    | _ => (v, some panicKind)

/-- The call `v.SetString(x)`. -/
def Value.SetString (ro : Bool) (v : Value) (x : String) : Value × Option Fault :=
  if ro then (v, some panicRO)
  else match v with
    | .string _ => (.string x, none)
    | _ => (v, some panicKind)

/-- The call `v.Set(x)` for an `x` of the type of `v`. -/
def Value.Set (ro : Bool) (v : Value) (x : Value) : Value × Option Fault :=
  if ro then (v, some panicRO) else (x, none)

/-! ## Tag resolvers -/

/-- The resolver type `DefFunc`. -/
abbrev DefFunc := StructField → String

def DefFunc.hasDefault (df : DefFunc) (field : StructField) : Bool :=
  let tagStr := df field
  !(tagStr = "" || tagStr = "-")

def DefFunc.ignore (df : DefFunc) (field : StructField) : Bool :=
  let tagStr := df field
  tagStr = "-"

def GetTagDefFunc (tag : String) : DefFunc :=
  fun sf => sf.Tag.Get tag

/-- Index of the first occurrence of `sep` in `str` (`strings.Index`), on the
characters of the two strings. -/
def stringsIndex : List Char → List Char → Option Nat
  | [], sep => if sep = [] then some 0 else none
  | c :: cs, sep =>
    if sep.isPrefixOf (c :: cs) then some 0
    else (stringsIndex cs sep).map (· + 1)

def head (str sep : String) : String × String :=
  match stringsIndex str.data sep.data with
  | none => (str, "")
  | some idx => (String.mk (str.data.take idx), String.mk (str.data.drop (idx + sep.data.length)))

/-- The loop of `GetSubTagDefFunc`; every round removes at least one character
of `opts`, so `fuel = len(opts)` rounds are enough. -/
def subTagLoop (defKey : String) : Nat → String → String
  | 0, _ => ""
  | fuel + 1, opts =>
    if opts.data.length > 0 then
      let (opt, opts) := head opts ","
      let (k, v) := head opt "="
      if k = defKey then v else subTagLoop defKey fuel opts
    else ""

def GetSubTagDefFunc (tag defKey : String) : DefFunc :=
  fun sf =>
    let tagValue := sf.Tag.Get tag
    let (tagValue, opts) := head tagValue ","
    if tagValue = "" then ""
    else subTagLoop defKey opts.data.length opts

/-! ## The type converter -/

def setIntField (val : String) (bitSize : Nat) (ro : Bool) (field : Value) :
    Value × Option Fault :=
  let val := if val = "" then "0" else val
  match ParseInt val bitSize with
  | (intVal, none) => Value.SetInt ro field intVal
  | (_, some err) => (field, some (.error err))

def setUintField (val : String) (bitSize : Nat) (ro : Bool) (field : Value) :
    Value × Option Fault :=
  let val := if val = "" then "0" else val
  match ParseUint val bitSize with
  | (uintVal, none) => Value.SetUint ro field uintVal
  | (_, some err) => (field, some (.error err))

def setBoolField (val : String) (ro : Bool) (field : Value) : Value × Option Fault :=
  let val := if val = "" then "false" else val
  match ParseBool val with
  | (boolVal, none) => Value.SetBool ro field boolVal
  | (_, some err) => (field, some (.error err))

def setFloatField (lib : Lib) (val : String) (bitSize : Nat) (ro : Bool) (field : Value) :
    Value × Option Fault :=
  let val := if val = "" then "0.0" else val
  match lib.parseFloat val bitSize with
  | .ok floatVal => Value.SetFloat lib ro field floatVal
  | .error err => (field, some (.error err))

def setTimeField (lib : Lib) (val : String) (structField : StructField) (ro : Bool)
    (value : Value) : Value × Option Fault :=
  let timeFormat := structField.Tag.Get "time_format"
  let timeFormat := if timeFormat = "" then RFC3339 else timeFormat
  let tf := lib.toLower timeFormat
  if tf = "unix" ∨ tf = "unixnano" then
    match ParseInt val 64 with
    | (_, some err) => (value, some (.error err))
    | (tv, none) =>
      let d : Int := if tf = "unixnano" then Second else 1
      let t := Time.Unix (tv.tdiv d) (tv.tmod d)
      Value.Set ro value (.time t)
  else if val = "" then Value.Set ro value (.time Time.zero)
  else
    let l := if (ParseBool (structField.Tag.Get "time_utc")).1 then Location.UTC
      else Location.Local
    let locTag := structField.Tag.Get "time_location"
    match (if locTag ≠ "" then lib.loadLocation locTag else .ok l) with
    | .error err => (value, some (.error err))
    | .ok l =>
      match lib.parseInLocation timeFormat val l with
      | .error err => (value, some (.error err))
      | .ok t => Value.Set ro value (.time t)

def setTimeDuration (lib : Lib) (val : String) (ro : Bool) (value : Value) :
    Value × Option Fault :=
  match lib.parseDuration val with
  | .error err => (value, some (.error err))
  | .ok d => Value.Set ro value (.duration d)

/-- The call `json.Unmarshal([]byte(val), value.Addr().Interface())`. -/
def jsonUnmarshal (lib : Lib) (val : String) (ro : Bool) (value : Value) :
    Value × Option Fault :=
  if ro then (value, some panicRO)
  else match value with
    | .struct fields =>
      let r := lib.jsonStruct val fields
      (.struct r.1, r.2.map Fault.error)
    | .map entries =>
      let r := lib.jsonMap val entries
      (.map r.1, r.2.map Fault.error)
    | v => (v, some (.error (.library "json" "unsupported target")))

def setWithProperType (lib : Lib) (val : String) (ro : Bool) (value : Value)
    (field : StructField) : Value × Option Fault :=
  match value.Kind with
  | .Int => setIntField val 0 ro value
  | .Int8 => setIntField val 8 ro value
  | .Int16 => setIntField val 16 ro value
  | .Int32 => setIntField val 32 ro value
  | .Int64 =>
    if ro then (value, some panicRO)
    else match value with
      | .duration _ => setTimeDuration lib val ro value
      | _ => setIntField val 64 ro value
  | .Uint => setUintField val 0 ro value
  | .Uint8 => setUintField val 8 ro value
  | .Uint16 => setUintField val 16 ro value
  | .Uint32 => setUintField val 32 ro value
  | .Uint64 => setUintField val 64 ro value
  | .Bool => setBoolField val ro value
  | .Float32 => setFloatField lib val 32 ro value
  | .Float64 => setFloatField lib val 64 ro value
  | .String => Value.SetString ro value val
  | .Struct =>
    if ro then (value, some panicRO)
    else match value with
      | .time _ => setTimeField lib val field ro value
      | _ => jsonUnmarshal lib val ro value
  | .Map => jsonUnmarshal lib val ro value
  | _ => (value, some (.error .errUnknownType))

/-- The loop of `setArray` over the elements `value.Index(i)`. -/
def setArrayLoop (lib : Lib) (field : StructField) (ro : Bool) :
    List String → Values → Values × Option Fault
  | [], xs => (xs, none)
  | _ :: _, .nil => (.nil, some panicIndex)
  | s :: rest, .cons x xs =>
    match setWithProperType lib s ro x field with
    | (x1, some err) => (.cons x1 xs, some err)
    | (x1, none) =>
      let r := setArrayLoop lib field ro rest xs
      (.cons x1 r.1, r.2)

def setArray (lib : Lib) (vals : List String) (ro : Bool) (value : Value)
    (field : StructField) : Value × Option Fault :=
  match value with
  | .array elem xs =>
    let r := setArrayLoop lib field ro vals xs
    (.array elem r.1, r.2)
  | .slice elem xs =>
    let r := setArrayLoop lib field ro vals xs
    (.slice elem r.1, r.2)
  | v => (v, some panicKind)

/-- The call `reflect.MakeSlice(typ, len, len)`. -/
def MakeSlice (typ : GoType) (len : Nat) : Value :=
  match typ with
  | .slice elem => .slice elem (Values.replicate len (Zero elem))
  | t => Zero t

def setSlice (lib : Lib) (vals : List String) (ro : Bool) (value : Value)
    (field : StructField) : Value × Option Fault :=
  let slice := MakeSlice value.Type vals.length
  match setArray lib vals false slice field with
  | (_, some err) => (value, some err)
  | (slice, none) => Value.Set ro value slice

/-- The record `setOptions`. -/
structure setOptions where
  isDefaultExists : Bool
  defaultValue : String
  deriving DecidableEq, Repr

/-- The result of visiting a value: the value afterwards, whether a default was
set, and the error. -/
structure Visit where
  value : Value
  isSet : Bool
  err : Option Fault
  deriving DecidableEq, Repr

def setDefault (lib : Lib) (ro : Bool) (value : Value) (field : StructField)
    (opt : setOptions) : Visit :=
  if !opt.isDefaultExists then ⟨value, false, none⟩
  else match value.Kind with
    | .Slice =>
      let r := setSlice lib [opt.defaultValue] ro value field
      ⟨r.1, true, r.2⟩
    | .Array =>
      let vs := [opt.defaultValue]
      if vs.length ≠ value.Len then
        ⟨value, false, some (.error (.notValid vs value.Type))⟩
      else
        let r := setArray lib vs ro value field
        ⟨r.1, true, r.2⟩
    | _ =>
      let r := setWithProperType lib opt.defaultValue ro value field
      ⟨r.1, true, r.2⟩

def tryToSetValue (lib : Lib) (ro : Bool) (value : Value) (field : StructField)
    (defFn : DefFunc) : Visit :=
  let setOpt : setOptions :=
    if defFn.hasDefault field then ⟨true, defFn field⟩ else ⟨false, ""⟩
  setDefault lib ro value field setOpt

/-! ## The record walker -/

/-- The result of the field loop of `mapping`: the fields afterwards, whether a
default was set, and the error. -/
structure FieldsVisit where
  fields : Fields
  isSet : Bool
  err : Option Fault
  deriving DecidableEq, Repr

/-- The loop `for i := 0; i < value.NumField(); i++` of `mapping`, with the
recursive call as `visit`.  A field obtained through an unexported embedded
field descriptor is read-only. -/
def fieldLoop (visit : Bool → Value → StructField → Option Visit) :
    Fields → Bool → Option FieldsVisit
  | .nil, isSet => some ⟨.nil, isSet, none⟩
  | .cons sf v rest, isSet =>
    if sf.unexported && !sf.Anonymous then
      match fieldLoop visit rest isSet with
      | none => none
      | some r => some ⟨.cons sf v r.fields, r.isSet, r.err⟩
    else
      match visit sf.unexported v sf with
      | none => none
      | some ⟨v1, _, some err⟩ => some ⟨.cons sf v1 rest, false, some err⟩
      | some ⟨v1, ok, none⟩ =>
        match fieldLoop visit rest (isSet || ok) with
        | none => none
        | some r => some ⟨.cons sf v1 r.fields, r.isSet, r.err⟩

/-- The walker `mapping`.  The result is `none` when `fuel` nested calls do not
reach the end of the walk.  A fresh pointee from `reflect.New` is not
read-only; the pointee of an existing pointer inherits the flag.  The fields of
a `time.Time` are all unexported and not embedded, so the field loop skips each
of them: an instant that got no direct assignment is returned as it is. -/
def mapping (lib : Lib) (decls : Decls) (defFn : DefFunc) :
    Nat → Bool → Value → StructField → Option Visit
  | 0, _, _, _ => none
  | fuel + 1, ro, value, field =>
    if defFn.ignore field then some ⟨value, false, none⟩
    else match value with
      | .ptrNil elem =>
        match mapping lib decls defFn fuel false (New decls elem) field with
        | none => none
        | some ⟨_, _, some err⟩ => some ⟨value, false, some err⟩
        | some ⟨pointee, isSet, none⟩ =>
          if isSet then
            let r := Value.Set ro value (.ptrTo elem pointee)
            match r.2 with
            | some p => some ⟨r.1, false, some p⟩
            | none => some ⟨r.1, isSet, none⟩
          else some ⟨value, isSet, none⟩
      | .ptrTo elem pointee =>
        match mapping lib decls defFn fuel ro pointee field with
        | none => none
        | some ⟨pointee1, _, some err⟩ => some ⟨.ptrTo elem pointee1, false, some err⟩
        | some ⟨pointee1, isSet, none⟩ => some ⟨.ptrTo elem pointee1, isSet, none⟩
      | _ =>
        let vKind := value.Kind
        let r : Visit :=
          if vKind ≠ .Struct ∨ !field.Anonymous then tryToSetValue lib ro value field defFn
          else ⟨value, false, none⟩
        match r.err with
        | some err => some ⟨r.value, false, some err⟩
        | none =>
          if r.isSet then some ⟨r.value, true, none⟩
          else match r.value with
            | .struct fields =>
              match fieldLoop (mapping lib decls defFn fuel) fields false with
              | none => none
              | some l =>
                match l.err with
                | some err => some ⟨.struct l.fields, false, some err⟩
                | none => some ⟨.struct l.fields, l.isSet, none⟩
            | v => some ⟨v, false, none⟩

/-- The variable `emptyField`: the zero `reflect.StructField`. -/
def emptyField : StructField := ⟨"", "", [], false⟩

def errUnknownType : GoError := .errUnknownType

/-- The panic of a method call on the nil `reflect.Type`. -/
def panicNilType : Fault := .panic "runtime error: invalid memory address or nil pointer dereference"

/-- The result of an entry point: the argument afterwards and what was
returned (`none` for a nil error). -/
structure Outcome where
  arg : AnyValue
  err : Option Fault
  deriving DecidableEq, Repr

/-- The call `reflect.ValueOf(ptr).IsNil()` for a pointer. -/
def Value.IsNil : Value → Bool
  | .ptrNil _ => true
  | _ => false

/-- The function `checkNonNilPointer`; the type of the nil interface is the nil
`reflect.Type`, whose `Kind` method cannot be called. -/
def checkNonNilPointer : AnyValue → Except Fault Bool
  | .nil => .error panicNilType
  | .iface val => .ok (val.Type.Kind = .Ptr && !val.IsNil)

def findCoreType : GoType → Kind
  | .ptr elem => findCoreType elem
  | .ptrNamed _ => .Struct
  | t => t.Kind

def mappingByPtr (lib : Lib) (decls : Decls) (fuel : Nat) (ptr : Value) (defFn : DefFunc) :
    Option (Value × Option Fault) :=
  match mapping lib decls defFn fuel false ptr emptyField with
  | none => none
  | some r => some (r.value, r.err)

def mapFormByTag (lib : Lib) (decls : Decls) (fuel : Nat) (ptr : AnyValue) (defFn : DefFunc) :
    Option Outcome :=
  match checkNonNilPointer ptr with
  | .error p => some ⟨ptr, some p⟩
  | .ok false => some ⟨ptr, some (.error errUnknownType)⟩
  | .ok true =>
    match ptr with
    | .nil => some ⟨ptr, some (.error errUnknownType)⟩
    | .iface val =>
      if findCoreType val.Type = .Struct then
        match mappingByPtr lib decls fuel val defFn with
        | none => none
        | some r => some ⟨.iface r.1, r.2⟩
      else some ⟨ptr, some (.error errUnknownType)⟩

def MapFormDefault (lib : Lib) (decls : Decls) (fuel : Nat) (ptr : AnyValue) : Option Outcome :=
  mapFormByTag lib decls fuel ptr (GetSubTagDefFunc "form" "default")

def MapDefault (lib : Lib) (decls : Decls) (fuel : Nat) (ptr : AnyValue) : Option Outcome :=
  mapFormByTag lib decls fuel ptr (GetTagDefFunc "default")

/-! ## Notions used in the statements -/

/-- The pointer `&v` to a value. -/
def Value.Addr (v : Value) : Value := .ptrTo (.inline v.Type) v

/-- An instance of the library for evaluating the binder on concrete records:
lower-casing is the one of ASCII letters, and every parser and decoder reports
an error and leaves its target as it is. -/
def Lib.rejecting : Lib where
  parseFloat := fun s _ => .error (syntaxError "ParseFloat" s)
  narrow32 := fun x => x
  parseDuration := fun s => .error (.library "time" s)
  loadLocation := fun s => .error (.library "time" s)
  parseInLocation := fun _ s _ => .error (.library "time" s)
  jsonStruct := fun s fs => (fs, some (.library "json" s))
  jsonMap := fun s m => (m, some (.library "json" s))
  toLower := fun s => String.mk (s.data.map Char.toLower)

/-- The empty table of declared struct types. -/
def Decls.empty : Decls := fun _ => .nil

/-- The `bitSize` argument `setWithProperType` passes for a signed kind. -/
def IntKind.bitSize : IntKind → Nat
  | .Int => 0 | .Int8 => 8 | .Int16 => 16 | .Int32 => 32 | .Int64 => 64

/-- The `bitSize` argument `setWithProperType` passes for an unsigned kind. -/
def UintKind.bitSize : UintKind → Nat
  | .Uint => 0 | .Uint8 => 8 | .Uint16 => 16 | .Uint32 => 32 | .Uint64 => 64

/-- A text, a signed or unsigned integer, or a sequence of text. -/
def Value.isTextIntSeq : Value → Bool
  | .string _ => true
  | .int _ _ => true
  | .uint _ _ => true
  | .slice .string _ => true
  | _ => false

/-- Every field the walker visits is exported and holds a text, an integer or
a sequence of text. -/
def Fields.leafRecord : Fields → Bool
  | .nil => true
  | .cons sf v rest =>
    ((sf.unexported && !sf.Anonymous) || (!sf.unexported && v.isTextIntSeq)) && rest.leafRecord

/-- The default of every visited integer field that declares one is a base-10
numeral within the width of the field. -/
def Fields.intDefaultsParse (defFn : DefFunc) : Fields → Bool
  | .nil => true
  | .cons sf v rest =>
    (match v with
      | .int k _ =>
        (sf.unexported && !sf.Anonymous) || !defFn.hasDefault sf
          || (ParseInt (defFn sf) k.bitSize).2.isNone
      | .uint k _ =>
        (sf.unexported && !sf.Anonymous) || !defFn.hasDefault sf
          || (ParseUint (defFn sf) k.bitSize).2.isNone
      | _ => true) && Fields.intDefaultsParse defFn rest

/-- The conversion of a declared default as the specification words it: a text
verbatim, an integer parsed in base 10, a sequence as the one-element sequence
of the text.  A field with no declared default keeps its value. -/
def leafDefault (defFn : DefFunc) (sf : StructField) (v : Value) : Value :=
  if defFn.hasDefault sf then
    match v with
    | .string _ => .string (defFn sf)
    | .int k _ => .int k (ParseInt (defFn sf) k.bitSize).1
    | .uint k _ => .uint k (ParseUint (defFn sf) k.bitSize).1
    | .slice .string _ => .slice .string (.cons (.string (defFn sf)) .nil)
    | v => v
  else v

/-- The record of leaf fields after binding, as the specification words it. -/
def Fields.leafDefaults (defFn : DefFunc) : Fields → Fields
  | .nil => .nil
  | .cons sf v rest =>
    .cons sf (if sf.unexported && !sf.Anonymous then v else leafDefault defFn sf v)
      (Fields.leafDefaults defFn rest)

/-- The two resolvers give the same text on every field of the record. -/
def Fields.sameDefaults (d1 d2 : DefFunc) : Fields → Bool
  | .nil => true
  | .cons sf _ rest => decide (d1 sf = d2 sf) && Fields.sameDefaults d1 d2 rest

/-- The struct type `User` of `main.go`. -/
def userFields : TypeFields :=
  .cons ⟨"Id", "", [("params", "id"), ("json", "id")], false⟩ .string <|
  .cons ⟨"Name", "", [("form", "name,default=Rohit"), ("default", "Rohit"),
    ("validate", "required"), ("json", "name")], false⟩ .string <|
  .cons ⟨"Email", "", [("form", "email,default=rohit@example.com"),
    ("default", "rohit@example.com"), ("validate", "required"), ("json", "email")], false⟩
    .string <|
  .cons ⟨"Age", "", [("form", "age,default=18"), ("default", "18"), ("validate", "max=100"),
    ("json", "age")], false⟩ (.int .Int) <|
  .cons ⟨"Items", "", [("form", "items,default=initiated"), ("default", "initiated"),
    ("validate", "omitempty,dive,oneofarray=initiated ringing answered completed"),
    ("json", "items")], false⟩ (.slice .string) .nil

/-- The type `User`. -/
def User : GoType := .struct userFields

mutual
/-- No field of the type that the walker visits declares a default. -/
def GoType.noDefault (df : DefFunc) : GoType → Bool
  | .ptr elem => elem.noDefault df
  | .struct fields => fields.noDefault df
  | _ => true
/-- No field of the list that the walker visits declares a default, at any
depth. -/
def TypeFields.noDefault (df : DefFunc) : TypeFields → Bool
  | .nil => true
  | .cons sf t rest =>
    ((sf.unexported && !sf.Anonymous) || (!df.hasDefault sf && t.noDefault df))
      && rest.noDefault df
end

mutual
/-- No field of the value that the walker visits declares a default; for a nil
pointer this is about the fields of its element type. -/
def Value.noDefault (df : DefFunc) : Value → Bool
  | .ptrNil (.inline t) => t.noDefault df
  | .ptrTo _ pointee => pointee.noDefault df
  | .struct fields => fields.noDefault df
  | _ => true
/-- No visited field of the list declares a default, at any depth. -/
def Fields.noDefault (df : DefFunc) : Fields → Bool
  | .nil => true
  | .cons sf v rest =>
    ((sf.unexported && !sf.Anonymous) || (!df.hasDefault sf && v.noDefault df))
      && rest.noDefault df
end

mutual
/-- The type mentions no declared struct type, so it does not refer to itself. -/
def GoType.closed : GoType → Bool
  | .ptr elem => elem.closed
  | .ptrNamed _ => false
  | .struct fields => fields.closed
  | _ => true
/-- No field type of the list mentions a declared struct type. -/
def TypeFields.closed : TypeFields → Bool
  | .nil => true
  | .cons _ t rest => t.closed && rest.closed
end

mutual
/-- Static depth of a type: the pointers and structs nested on the deepest path. -/
def GoType.depth : GoType → Nat
  | .ptr elem => elem.depth + 1
  | .struct fields => fields.depth + 1
  | _ => 0
/-- Largest depth of a field type of the list. -/
def TypeFields.depth : TypeFields → Nat
  | .nil => 0
  | .cons _ t rest => max t.depth rest.depth
end

mutual
/-- The value mentions no declared struct type where the walker goes. -/
def Value.closed : Value → Bool
  | .ptrNil (.inline t) => t.closed
  | .ptrNil (.declared _) => false
  | .ptrTo _ pointee => pointee.closed
  | .struct fields => fields.closed
  | _ => true
/-- No field value of the list mentions a declared struct type. -/
def Fields.closed : Fields → Bool
  | .nil => true
  | .cons _ v rest => v.closed && rest.closed
end

mutual
/-- Depth of a value: as for its type, a nil pointer counting with the depth of
its element type. -/
def Value.depth : Value → Nat
  | .ptrNil (.inline t) => t.depth + 1
  | .ptrTo _ pointee => pointee.depth + 1
  | .struct fields => fields.depth + 1
  | _ => 0
/-- Largest depth of a field value of the list. -/
def Fields.depth : Fields → Nat
  | .nil => 0
  | .cons _ v rest => max v.depth rest.depth
end

/-- The struct type `MyRequest` of `main.go`; none of its fields declares a
default. -/
def MyRequest : GoType :=
  .struct (.cons ⟨"MyField", "", [("json", "myField"), ("form", "myField")], false⟩
    (.ptr .bool) .nil)

/-- The declaration `type Node struct { Next *Node }` of a list node. -/
def nodeDecls : Decls := fun name =>
  if name = "Node" then .cons ⟨"Next", "", [], false⟩ (.ptrNamed "Node") .nil else .nil

/-- The list node `Node{Next: nil}`. -/
def nodeValue : Value := .struct (.cons ⟨"Next", "", [], false⟩ (.ptrNil (.declared "Node")) .nil)

/-- The record type `struct { A string; B int }` with the defaults `x` on `A`
and `bad` on `B`: the default of `A` converts, the one of `B` does not. -/
def halfBound : GoType :=
  .struct (.cons ⟨"A", "", [("default", "x")], false⟩ .string
    (.cons ⟨"B", "", [("default", "bad")], false⟩ (.int .Int) .nil))

/-- The record type `struct { P *halfBound }`. -/
def halfBoundOwner : GoType :=
  .struct (.cons ⟨"P", "", [], false⟩ (.ptr halfBound) .nil)

/-- A leaf the converter assigns from the default text alone: a scalar, a
duration, an instant, or a sequence. -/
def Value.isLeaf : Value → Bool
  | .bool _ => true
  | .int _ _ => true
  | .uint _ _ => true
  | .float _ _ => true
  | .string _ => true
  | .duration _ => true
  | .time _ => true
  | .slice _ _ => true
  | _ => false

/-- Decoding a document once more into the result of decoding it changes
nothing, neither the target nor the error.  The binder relies on the document
decoder for structs and maps that declare a default of their own. -/
def Lib.decodeIdempotent (lib : Lib) : Prop :=
  (∀ s fs, lib.jsonStruct s (lib.jsonStruct s fs).1 = lib.jsonStruct s fs) ∧
  (∀ s m, lib.jsonMap s (lib.jsonMap s m).1 = lib.jsonMap s m)

/-! ## Properties of a visit function -/

/-- A visit that reports neither a set default nor an error leaves the value as it was. -/
def VisitFrame (visit : Bool → Value → StructField → Option Visit) : Prop :=
  ∀ ro v f v1, visit ro v f = some ⟨v1, false, none⟩ → v1 = v

/-- The visit leaves a value without defaults as it was, if it returns. -/
def VisitNoop (df : DefFunc) (visit : Bool → Value → StructField → Option Visit) : Prop :=
  ∀ ro v f, df.hasDefault f = false → v.noDefault df = true →
    visit ro v f = none ∨ visit ro v f = some ⟨v, false, none⟩

/-- The visit returns on every closed value of depth below `n`. -/
def VisitTotal (n : Nat) (visit : Bool → Value → StructField → Option Visit) : Prop :=
  ∀ ro v f, v.closed = true → v.depth < n → ∃ r, visit ro v f = some r

/-- Visiting the result of a visit once more gives the same result. -/
def VisitIdem (visit : Bool → Value → StructField → Option Visit) : Prop :=
  ∀ ro v f r, visit ro v f = some r → visit ro r.value f = some r

end FiberImpl


namespace FiberImpl

/-! ## The sub-key resolver in the words of the specification -/

/-- The text before the first occurrence of `sep`; the whole text when `sep`
does not occur. -/
def textBefore (sep : Char) : List Char → List Char
  | [] => []
  | c :: cs => if c = sep then [] else c :: textBefore sep cs

/-- The text after the first occurrence of `sep`; empty when `sep` does not
occur. -/
def textAfter (sep : Char) : List Char → List Char
  | [] => []
  | c :: cs => if c = sep then cs else textAfter sep cs

/-- The segments of a text split on commas; a text without a comma is its only
segment. -/
def commaSegments : List Char → List (List Char)
  | [] => [[]]
  | c :: cs =>
    if c = ',' then [] :: commaSegments cs
    else match commaSegments cs with
      | [] => [[c]]
      | seg :: segs => (c :: seg) :: segs

/-- From the specification: the result of the embedded sub-key resolver on the
text of a tag.  Empty when the leading segment is empty; otherwise the text
after the first `=` of the first later segment whose text before its first `=`
is `key`, and empty when no later segment is such. -/
def subKeySpec (tagText key : String) : String :=
  match commaSegments tagText.data with
  | [] => ""
  | lead :: later =>
    if lead = [] then ""
    else match later.find? (fun seg => textBefore '=' seg = key.data) with
      | some seg => String.mk (textAfter '=' seg)
      | none => ""

end FiberImpl


namespace FiberImpl

/-! ## Base-10 numerals in the words of the specification -/

/-- A base-10 digit. -/
def isDigit (c : Char) : Bool := decide ('0' ≤ c ∧ c ≤ '9')

/-- A non-empty run of base-10 digits. -/
def isDigits (cs : List Char) : Bool := !cs.isEmpty && cs.all isDigit

/-- The number a run of base-10 digits denotes, most significant digit first. -/
def digitsValue (cs : List Char) : Nat :=
  cs.foldl (fun n c => 10 * n + (c.toNat - '0'.toNat)) 0

/-- From the specification: the text is an unsigned base-10 numeral. -/
def isUnsignedNumeral (s : String) : Bool := isDigits s.data

/-- The value of an unsigned base-10 numeral. -/
def unsignedValue (s : String) : Nat := digitsValue s.data

/-- From the specification: the text is an optionally signed base-10 numeral,
a run of digits after at most one `+` or `-`. -/
def isSignedNumeral (s : String) : Bool :=
  match s.data with
  | [] => false
  | c :: cs => if c = '+' ∨ c = '-' then isDigits cs else isDigits (c :: cs)

/-- The value of an optionally signed base-10 numeral. -/
def signedValue (s : String) : Int :=
  match s.data with
  | [] => 0
  | c :: cs =>
    if c = '-' then -(digitsValue cs : Int)
    else if c = '+' then (digitsValue cs : Int)
    else (digitsValue (c :: cs) : Int)

end FiberImpl


namespace FiberImpl

/-! ## Calendar dates -/

/-- The number of days from 1970-01-01 to a date of the proleptic Gregorian
calendar. -/
def civilDays (y m d : Int) : Int :=
  let y1 := if m ≤ 2 then y - 1 else y
  let era := y1 / 400
  let yoe := y1 - era * 400
  let mp := if m > 2 then m - 3 else m + 9
  let doy := (153 * mp + 2) / 5 + d - 1
  let doe := yoe * 365 + yoe / 4 - yoe / 100 + doy
  era * 146097 + doe - 719468

/-- The seconds from the Unix epoch to a UTC date and time of day. -/
def civilSeconds (y m d hh mm ss : Int) : Int :=
  civilDays y m d * 86400 + hh * 3600 + mm * 60 + ss

end FiberImpl


namespace FiberImpl

/-! ## Records with unexported and embedded fields -/

/-- The result `mapping` builds from the outcome of the field loop of a
record. -/
def Visit.ofLoop (l : FieldsVisit) : Visit :=
  match l.err with
  | some err => ⟨.struct l.fields, false, some err⟩
  | none => ⟨.struct l.fields, l.isSet, none⟩

/-- The second list of fields has the descriptors of the first, in the same
order, and the same value in every field that is unexported and not
embedded. -/
def Fields.keepsPrivate : Fields → Fields → Bool
  | .nil, .nil => true
  | .cons sf v rest, .cons sf1 v1 rest1 =>
    decide (sf = sf1) && ((!(sf.unexported && !sf.Anonymous)) || decide (v = v1))
      && Fields.keepsPrivate rest rest1
  | _, _ => false

/-- The record `type inner struct { Name string; Age int; secret string }` with
the defaults `anon`, `7` and `hidden`, holding `Name = ""`, `Age = 0`,
`secret = "s"`. -/
def innerFields : Fields :=
  .cons ⟨"Name", "", [("default", "anon")], false⟩ (.string "") <|
  .cons ⟨"Age", "", [("default", "7")], false⟩ (.int .Int 0) <|
  .cons ⟨"secret", "main", [("default", "hidden")], false⟩ (.string "s") .nil

/-- The descriptor of the embedded field `inner`, of an unexported type. -/
def innerField : StructField := ⟨"inner", "main", [], true⟩

end FiberImpl


namespace FiberImpl

/-! ## Fields bound one by one -/

/-- From the specification: every visited field of a record bound on its own,
in declaration order, each from the value it holds in the record, with the
logical OR of the results; a field that is unexported and not embedded is
passed over. -/
def Fields.eachBound (visit : Bool → Value → StructField → Option Visit) :
    Fields → Option (Fields × Bool)
  | .nil => some (.nil, false)
  | .cons sf v rest =>
    if sf.unexported && !sf.Anonymous then
      (Fields.eachBound visit rest).map (fun p => (.cons sf v p.1, p.2))
    else
      match visit sf.unexported v sf, Fields.eachBound visit rest with
      | some r, some p => some (.cons sf r.value p.1, r.isSet || p.2)
      | _, _ => none

/-- The record `type S struct { Name string; Age int }` with the defaults `anon`
and `7`, holding zero values. -/
def subFields : Fields :=
  .cons ⟨"Name", "", [("default", "anon")], false⟩ (.string "") <|
  .cons ⟨"Age", "", [("default", "7")], false⟩ (.int .Int 0) .nil

end FiberImpl


namespace FiberImpl

/-! ## Embedded records -/

/-- A record type, or a chain of pointers to one. -/
def GoType.isRecordChain : GoType → Bool
  | .struct _ => true
  | .time => true
  | .ptr elem => elem.isRecordChain
  | .ptrNamed _ => true
  | _ => false

/-- A record, or a chain of pointers that ends in a record or in a nil pointer
of such a type. -/
def Value.isRecordChain : Value → Bool
  | .struct _ => true
  | .time _ => true
  | .ptrTo _ pointee => pointee.isRecordChain
  | .ptrNil (.inline t) => t.isRecordChain
  | .ptrNil (.declared _) => true
  | _ => false

/-- The fields with the descriptor of the first one replaced. -/
def Fields.withHead (sf : StructField) : Fields → Fields
  | .nil => .nil
  | .cons _ v rest => .cons sf v rest

end FiberImpl


namespace FiberImpl

/-! ## Induction principles and unfolding lemmas -/

theorem Fields_induct {P : Fields → Prop} (hnil : P .nil)
    (hcons : ∀ sf v rest, P rest → P (.cons sf v rest)) : ∀ fs, P fs
  | .nil => hnil
  | .cons sf v rest => hcons sf v rest (Fields_induct hnil hcons rest)

theorem Values_induct {P : Values → Prop} (hnil : P .nil)
    (hcons : ∀ v rest, P rest → P (.cons v rest)) : ∀ vs, P vs
  | .nil => hnil
  | .cons v rest => hcons v rest (Values_induct hnil hcons rest)

theorem TypeFields_induct {P : TypeFields → Prop} (hnil : P .nil)
    (hcons : ∀ sf t rest, P rest → P (.cons sf t rest)) : ∀ fs, P fs
  | .nil => hnil
  | .cons sf t rest => hcons sf t rest (TypeFields_induct hnil hcons rest)

/-- A value is a nil pointer, a pointer to a value, or not a pointer. -/
theorem Value.ptr_cases (v : Value) :
    (∃ elem, v = .ptrNil elem) ∨ (∃ elem p, v = .ptrTo elem p) ∨ v.Kind ≠ .Ptr := by
  cases v <;> first
    | exact Or.inl ⟨_, rfl⟩
    | exact Or.inr (Or.inl ⟨_, _, rfl⟩)
    | (refine Or.inr (Or.inr ?_); rename_i k _; cases k <;> simp [Value.Kind, IntKind.toKind,
        UintKind.toKind, FloatKind.toKind, OtherKind.toKind])
    | (refine Or.inr (Or.inr ?_); simp [Value.Kind])

theorem fieldLoop_nil (visit : Bool → Value → StructField → Option Visit) (b : Bool) :
    fieldLoop visit .nil b = some ⟨.nil, b, none⟩ := rfl

theorem fieldLoop_cons_skip (visit : Bool → Value → StructField → Option Visit) (b : Bool)
    (sf : StructField) (v : Value) (rest : Fields)
    (h : (sf.unexported && !sf.Anonymous) = true) :
    fieldLoop visit (.cons sf v rest) b =
      (fieldLoop visit rest b).map (fun r => ⟨.cons sf v r.fields, r.isSet, r.err⟩) := by
  rw [fieldLoop, if_pos h]
  cases fieldLoop visit rest b <;> rfl

theorem fieldLoop_cons_visit (visit : Bool → Value → StructField → Option Visit) (b : Bool)
    (sf : StructField) (v : Value) (rest : Fields)
    (h : (sf.unexported && !sf.Anonymous) = false) :
    fieldLoop visit (.cons sf v rest) b =
      match visit sf.unexported v sf with
      | none => none
      | some ⟨v1, _, some err⟩ => some ⟨.cons sf v1 rest, false, some err⟩
      | some ⟨v1, ok, none⟩ =>
        (fieldLoop visit rest (b || ok)).map
          (fun r => ⟨.cons sf v1 r.fields, r.isSet, r.err⟩) := by
  rw [fieldLoop, if_neg (by simp [h])]
  cases visit sf.unexported v sf with
  | none => rfl
  | some r =>
    obtain ⟨v1, ok, e⟩ := r
    cases e with
    | some err => rfl
    | none =>
      simp only
      cases fieldLoop visit rest (b || ok) <;> rfl

theorem mapping_zero (lib : Lib) (decls : Decls) (defFn : DefFunc) (ro : Bool)
    (value : Value) (field : StructField) :
    mapping lib decls defFn 0 ro value field = none := by
  rw [mapping]

theorem mapping_ignore (lib : Lib) (decls : Decls) (defFn : DefFunc) (fuel : Nat) (ro : Bool)
    (value : Value) (field : StructField) (h : defFn.ignore field = true) :
    mapping lib decls defFn (fuel + 1) ro value field = some ⟨value, false, none⟩ := by
  simp [mapping, h]

theorem mapping_ptrNil (lib : Lib) (decls : Decls) (defFn : DefFunc) (fuel : Nat) (ro : Bool)
    (elem : PtrElem) (field : StructField) (h : defFn.ignore field = false) :
    mapping lib decls defFn (fuel + 1) ro (.ptrNil elem) field =
      match mapping lib decls defFn fuel false (New decls elem) field with
        | none => none
        | some ⟨_, _, some err⟩ => some ⟨.ptrNil elem, false, some err⟩
        | some ⟨pointee, isSet, none⟩ =>
          if isSet then
            if ro then some ⟨.ptrNil elem, false, some panicRO⟩
            else some ⟨.ptrTo elem pointee, true, none⟩
          else some ⟨.ptrNil elem, false, none⟩ := by
  rw [mapping]
  simp only [h]
  cases hm : mapping lib decls defFn fuel false (New decls elem) field with
  | none => simp
  | some r =>
    obtain ⟨v, s, e⟩ := r
    cases e <;> cases s <;> cases ro <;> simp [Value.Set]

theorem mapping_ptrTo (lib : Lib) (decls : Decls) (defFn : DefFunc) (fuel : Nat) (ro : Bool)
    (elem : PtrElem) (p : Value) (field : StructField) (h : defFn.ignore field = false) :
    mapping lib decls defFn (fuel + 1) ro (.ptrTo elem p) field =
      match mapping lib decls defFn fuel ro p field with
        | none => none
        | some ⟨p1, _, some err⟩ => some ⟨.ptrTo elem p1, false, some err⟩
        | some ⟨p1, isSet, none⟩ => some ⟨.ptrTo elem p1, isSet, none⟩ := by
  rw [mapping]
  simp only [h]
  rfl

/-- What `mapping` does with the result `r` of the direct assignment, for a
value that is not a pointer. -/
theorem mapping_nonPtr (lib : Lib) (decls : Decls) (defFn : DefFunc) (fuel : Nat) (ro : Bool)
    (value : Value) (field : StructField) (h : defFn.ignore field = false)
    (hk : value.Kind ≠ .Ptr) (r : Visit)
    (hr : (if value.Kind ≠ .Struct ∨ !field.Anonymous then
          tryToSetValue lib ro value field defFn else ⟨value, false, none⟩ : Visit) = r) :
    mapping lib decls defFn (fuel + 1) ro value field =
      match r.err with
        | some err => some ⟨r.value, false, some err⟩
        | none =>
          if r.isSet then some ⟨r.value, true, none⟩
          else match r.value with
            | .struct fields =>
              match fieldLoop (mapping lib decls defFn fuel) fields false with
              | none => none
              | some l =>
                match l.err with
                | some err => some ⟨.struct l.fields, false, some err⟩
                | none => some ⟨.struct l.fields, l.isSet, none⟩
            | v => some ⟨v, false, none⟩ := by
  rw [mapping]
  · simp only [h]
    subst hr
    rfl
  · intro elem he; subst he; exact hk rfl
  · intro elem p he; subst he; exact hk rfl

/-! ## The frame of an unset visit -/

theorem setDefault_notSet (lib : Lib) (ro : Bool) (value : Value) (field : StructField)
    (opt : setOptions) (hs : (setDefault lib ro value field opt).isSet = false)
    (he : (setDefault lib ro value field opt).err = none) :
    setDefault lib ro value field opt = ⟨value, false, none⟩ := by
  obtain ⟨ex, d⟩ := opt
  cases ex with
  | false => simp [setDefault]
  | true =>
    cases hk : value.Kind <;> simp [setDefault, hk] at hs he ⊢
    by_cases hl : 1 = value.Len <;> simp [hl] at hs he

theorem tryToSetValue_notSet (lib : Lib) (ro : Bool) (value : Value) (field : StructField)
    (defFn : DefFunc) (hs : (tryToSetValue lib ro value field defFn).isSet = false)
    (he : (tryToSetValue lib ro value field defFn).err = none) :
    tryToSetValue lib ro value field defFn = ⟨value, false, none⟩ :=
  setDefault_notSet lib ro value field _ hs he

theorem tryToSetValue_noDefault (lib : Lib) (ro : Bool) (value : Value) (field : StructField)
    (defFn : DefFunc) (h : defFn.hasDefault field = false) :
    tryToSetValue lib ro value field defFn = ⟨value, false, none⟩ := by
  simp [tryToSetValue, h, setDefault]

theorem fieldLoop_frame (visit : Bool → Value → StructField → Option Visit)
    (hv : VisitFrame visit) :
    ∀ (fs : Fields) (b : Bool) (fs1 : Fields),
      fieldLoop visit fs b = some ⟨fs1, false, none⟩ → fs1 = fs ∧ b = false := by
  intro fs
  induction fs using Fields_induct with
  | hnil => intro b fs1 h; simp [fieldLoop] at h; simp [h]
  | hcons sf v rest ih =>
    intro b fs1 h
    cases hskip : (sf.unexported && !sf.Anonymous) with
    | true =>
      rw [fieldLoop_cons_skip _ _ _ _ _ hskip] at h
      cases hr : fieldLoop visit rest b with
      | none => simp [hr] at h
      | some r =>
        obtain ⟨rf, rs, re⟩ := r
        simp [hr] at h
        obtain ⟨h1, h2, h3⟩ := h
        subst h2 h3
        obtain ⟨e1, e2⟩ := ih b rf hr
        subst e1 h1
        exact ⟨rfl, e2⟩
    | false =>
      rw [fieldLoop_cons_visit _ _ _ _ _ hskip] at h
      cases hvis : visit sf.unexported v sf with
      | none => simp [hvis] at h
      | some r =>
        obtain ⟨v1, ok, e⟩ := r
        cases e with
        | some err => simp [hvis] at h
        | none =>
          simp only [hvis] at h
          cases hr : fieldLoop visit rest (b || ok) with
          | none => simp [hr] at h
          | some r =>
            obtain ⟨rf, rs, re⟩ := r
            simp [hr] at h
            obtain ⟨h1, h2, h3⟩ := h
            subst h2 h3
            obtain ⟨e1, e2⟩ := ih (b || ok) rf hr
            simp at e2
            obtain ⟨hb, hok⟩ := e2
            subst hb hok e1 h1
            have := hv _ _ _ _ hvis
            subst this
            exact ⟨rfl, rfl⟩

theorem mapping_frame (lib : Lib) (decls : Decls) (defFn : DefFunc) :
    ∀ fuel, VisitFrame (mapping lib decls defFn fuel) := by
  intro fuel
  induction fuel with
  | zero => intro ro v f v1 h; simp [mapping_zero] at h
  | succ fuel ih =>
    intro ro v f v1 h
    cases hig : defFn.ignore f with
    | true =>
      rw [mapping_ignore _ _ _ _ _ _ _ hig] at h
      simp at h; exact h.symm
    | false =>
      rcases v.ptr_cases with ⟨elem, rfl⟩ | ⟨elem, p, rfl⟩ | hk
      · rw [mapping_ptrNil _ _ _ _ _ _ _ hig] at h
        cases hm : mapping lib decls defFn fuel false (New decls elem) f with
        | none => simp [hm] at h
        | some r =>
          obtain ⟨z, s, e⟩ := r
          cases e <;> cases s <;> cases ro <;> simp [hm] at h <;> exact h.symm
      · rw [mapping_ptrTo _ _ _ _ _ _ _ _ hig] at h
        cases hm : mapping lib decls defFn fuel ro p f with
        | none => simp [hm] at h
        | some r =>
          obtain ⟨z, s, e⟩ := r
          cases e with
          | some err => simp [hm] at h
          | none =>
            simp [hm] at h
            obtain ⟨h1, h2⟩ := h
            subst h2
            have := ih _ _ _ _ hm
            subst this
            exact h1.symm
      · rw [mapping_nonPtr _ _ _ _ _ _ _ hig hk _ rfl] at h
        generalize hr : (if v.Kind ≠ .Struct ∨ !f.Anonymous then
          tryToSetValue lib ro v f defFn else ⟨v, false, none⟩ : Visit) = r at h
        have hrv : r.err = none → r.isSet = false → r = ⟨v, false, none⟩ := by
          intro he hs
          subst hr
          split
          · rename_i hc
            simp only [hc, if_true] at he hs
            exact tryToSetValue_notSet _ _ _ _ _ hs he
          · rfl
        obtain ⟨rv, rs, re⟩ := r
        cases re with
        | some err => simp at h
        | none =>
          cases rs with
          | true => simp at h
          | false =>
            have := hrv rfl rfl
            simp at this
            subst this
            simp only at h
            cases rv with
            | struct fields =>
              simp only [Bool.false_eq_true, if_false] at h
              cases hl : fieldLoop (mapping lib decls defFn fuel) fields false with
              | none => simp [hl] at h
              | some l =>
                obtain ⟨lf, ls, le⟩ := l
                cases le with
                | some err => simp [hl] at h
                | none =>
                  simp [hl] at h
                  obtain ⟨h1, h2⟩ := h
                  subst h2
                  obtain ⟨e1, -⟩ := fieldLoop_frame _ ih _ _ _ hl
                  subst e1
                  exact h1.symm
            | _ => simp at h; exact h.symm

end FiberImpl


namespace FiberImpl

/-! ## Leaf records (C1) -/

theorem ParseInt_range (s : String) (bitSize : Nat) (n : Int)
    (h : ParseInt s bitSize = (n, none)) :
    -(2 ^ ((if bitSize = 0 then IntSize else bitSize) - 1) : Int) ≤ n ∧
      n < (2 ^ ((if bitSize = 0 then IntSize else bitSize) - 1) : Int) := by
  unfold ParseInt at h
  cases hs : s.data with
  | nil => simp [hs] at h
  | cons c cs =>
    simp only [hs] at h
    generalize ParseUint _ bitSize = pu at h
    generalize (if bitSize = 0 then IntSize else bitSize) = B at h ⊢
    obtain ⟨un, e⟩ := pu
    have hcast : ((2 : Int) ^ (B - 1)) = ((2 ^ (B - 1) : Nat) : Int) := by simp
    rw [hcast]
    have hP : 0 < 2 ^ (B - 1) := Nat.pow_pos (by norm_num)
    generalize (2 ^ (B - 1) : Nat) = P at h hP ⊢
    split at h
    · simp at h
    · rename_i un1 e1 _ _
      by_cases hneg : c = '-'
      · by_cases hc : un1 > P
        · simp [hneg, hc] at h
        · simp [hneg, hc] at h
          subst h
          omega
      · by_cases hc : un1 ≥ P
        · simp [hneg, hc] at h
        · simp [hneg, hc] at h
          subst h
          omega

theorem wrapInt_id (bits : Nat) (hb : 0 < bits) (x : Int)
    (h1 : -(2 ^ (bits - 1) : Int) ≤ x) (h2 : x < (2 ^ (bits - 1) : Int)) :
    wrapInt bits x = x := by
  unfold wrapInt
  have hpow : (2 : Int) ^ bits = 2 * 2 ^ (bits - 1) := by
    obtain ⟨k, rfl⟩ : ∃ k, bits = k + 1 := ⟨bits - 1, by omega⟩
    simp [pow_succ, mul_comm]
  rw [Int.emod_eq_of_lt (by omega) (by omega)]
  omega

theorem IntKind_bits_eq (k : IntKind) :
    k.bits = (if k.bitSize = 0 then IntSize else k.bitSize) := by
  cases k <;> simp [IntKind.bits, IntKind.bitSize, IntSize]

theorem IntKind_bits_pos (k : IntKind) : 0 < k.bits := by
  cases k <;> simp [IntKind.bits, IntSize]

theorem setWithProperType_int (lib : Lib) (val : String) (k : IntKind) (i : Int)
    (field : StructField) (hval : val ≠ "") :
    setWithProperType lib val false (.int k i) field =
      match ParseInt val k.bitSize with
      | (n, none) => (.int k (wrapInt k.bits n), none)
      | (_, some err) => (.int k i, some (.error err)) := by
  cases k <;> simp [setWithProperType, Value.Kind, IntKind.toKind, setIntField, hval,
    IntKind.bitSize, Value.SetInt] <;> split <;> simp_all

theorem parseUintLoop_le (s0 : String) (cutoff maxVal : Nat) :
    ∀ (cs : List Char) (n m : Nat), n ≤ maxVal →
      parseUintLoop s0 cutoff maxVal cs n = (m, none) → m ≤ maxVal := by
  intro cs
  induction cs with
  | nil => intro n m hn h; simp [parseUintLoop] at h; omega
  | cons c cs ih =>
    intro n m hn h
    rw [parseUintLoop] at h
    split at h
    · simp only at h
      split at h
      · simp at h
      · split at h
        · simp at h
        · rename_i h1
          exact ih _ m (by omega) h
    · simp at h

theorem ParseUint_range (s : String) (bitSize : Nat) (n : Nat)
    (h : ParseUint s bitSize = (n, none)) :
    n < 2 ^ (if bitSize = 0 then IntSize else bitSize) := by
  unfold ParseUint at h
  split at h
  · simp at h
  · simp only at h
    have := parseUintLoop_le _ _ _ _ _ _ (Nat.zero_le _) h
    have hpos : 0 < 2 ^ (if bitSize = 0 then IntSize else bitSize) := Nat.pow_pos (by norm_num)
    omega

theorem UintKind_bits_eq (k : UintKind) :
    k.bits = (if k.bitSize = 0 then IntSize else k.bitSize) := by
  cases k <;> simp [UintKind.bits, UintKind.bitSize, IntSize]

theorem setWithProperType_uint (lib : Lib) (val : String) (k : UintKind) (i : Nat)
    (field : StructField) (hval : val ≠ "") :
    setWithProperType lib val false (.uint k i) field =
      match ParseUint val k.bitSize with
      | (n, none) => (.uint k (n % 2 ^ k.bits), none)
      | (_, some err) => (.uint k i, some (.error err)) := by
  cases k <;> simp [setWithProperType, Value.Kind, UintKind.toKind, setUintField, hval,
    UintKind.bitSize, Value.SetUint] <;> split <;> simp_all
end FiberImpl

namespace FiberImpl

theorem hasDefault_ne_empty (defFn : DefFunc) (sf : StructField)
    (h : defFn.hasDefault sf = true) : defFn sf ≠ "" := by
  simp [DefFunc.hasDefault] at h
  exact h.1

theorem ignore_hasDefault (defFn : DefFunc) (sf : StructField)
    (h : defFn.ignore sf = true) : defFn.hasDefault sf = false := by
  simp [DefFunc.ignore] at h
  simp [DefFunc.hasDefault, h]

/-- A visited leaf holding a text, an integer or a sequence of text. -/
theorem mapping_leaf (lib : Lib) (decls : Decls) (defFn : DefFunc) (fuel : Nat)
    (v : Value) (sf : StructField) (hv : v.isTextIntSeq = true)
    (hp : ∀ k i, v = .int k i → defFn.hasDefault sf = true →
      (ParseInt (defFn sf) k.bitSize).2 = none)
    (hpu : ∀ k i, v = .uint k i → defFn.hasDefault sf = true →
      (ParseUint (defFn sf) k.bitSize).2 = none) :
    mapping lib decls defFn (fuel + 1) false v sf =
      some ⟨leafDefault defFn sf v, defFn.hasDefault sf, none⟩ := by
  cases hig : defFn.ignore sf with
  | true =>
    rw [mapping_ignore _ _ _ _ _ _ _ hig]
    simp [leafDefault, ignore_hasDefault _ _ hig]
  | false =>
    have hk : v.Kind ≠ .Ptr := by
      cases v <;> simp [Value.isTextIntSeq] at hv <;> simp [Value.Kind]
      · rename_i k _; cases k <;> simp [IntKind.toKind]
      · rename_i k _; cases k <;> simp [UintKind.toKind]
    have hks : v.Kind ≠ .Struct := by
      cases v <;> simp [Value.isTextIntSeq] at hv <;> simp [Value.Kind]
      · rename_i k _; cases k <;> simp [IntKind.toKind]
      · rename_i k _; cases k <;> simp [UintKind.toKind]
    rw [mapping_nonPtr _ _ _ _ _ _ _ hig hk _ rfl]
    simp only [hks, ne_eq, not_false_eq_true, true_or, if_true]
    cases hd : defFn.hasDefault sf with
    | false =>
      rw [tryToSetValue_noDefault _ _ _ _ _ hd]
      cases v <;> simp [Value.isTextIntSeq] at hv <;> simp [leafDefault, hd]
    | true =>
      have hne := hasDefault_ne_empty _ _ hd
      cases v with
      | string s =>
        simp [tryToSetValue, hd, setDefault, Value.Kind, setWithProperType, Value.SetString,
          leafDefault]
      | int k i =>
        have hpi := hp k i rfl hd
        have hkk : (Value.int k i).Kind ≠ .Slice ∧ (Value.int k i).Kind ≠ .Array := by
          cases k <;> simp [Value.Kind, IntKind.toKind]
        cases hpr : ParseInt (defFn sf) k.bitSize with
        | mk n e =>
          rw [hpr] at hpi
          simp only at hpi
          subst hpi
          have hr := ParseInt_range _ _ _ hpr
          rw [← IntKind_bits_eq] at hr
          have hw := wrapInt_id k.bits (IntKind_bits_pos k) n hr.1 hr.2
          have hset := setWithProperType_int lib (defFn sf) k i sf hne
          rw [hpr] at hset
          simp only [hw] at hset
          have hsd : setDefault lib false (.int k i) sf ⟨true, defFn sf⟩ =
              ⟨.int k n, true, none⟩ := by
            unfold setDefault
            simp only [Bool.not_true, Bool.false_eq_true, if_false]
            split
            · rename_i h; exact absurd h hkk.1
            · rename_i h; exact absurd h hkk.2
            · simp [hset]
          simp [tryToSetValue, hd, hsd, leafDefault, hpr]
      | uint k i =>
        have hpi := hpu k i rfl hd
        have hkk : (Value.uint k i).Kind ≠ .Slice ∧ (Value.uint k i).Kind ≠ .Array := by
          cases k <;> simp [Value.Kind, UintKind.toKind]
        cases hpr : ParseUint (defFn sf) k.bitSize with
        | mk n e =>
          rw [hpr] at hpi
          simp only at hpi
          subst hpi
          have hr := ParseUint_range _ _ _ hpr
          rw [← UintKind_bits_eq] at hr
          have hw : n % 2 ^ k.bits = n := Nat.mod_eq_of_lt hr
          have hset := setWithProperType_uint lib (defFn sf) k i sf hne
          rw [hpr] at hset
          simp only [hw] at hset
          have hsd : setDefault lib false (.uint k i) sf ⟨true, defFn sf⟩ =
              ⟨.uint k n, true, none⟩ := by
            unfold setDefault
            simp only [Bool.not_true, Bool.false_eq_true, if_false]
            split
            · rename_i h; exact absurd h hkk.1
            · rename_i h; exact absurd h hkk.2
            · simp [hset]
          simp [tryToSetValue, hd, hsd, leafDefault, hpr]
      | slice elem xs =>
        cases elem <;> simp [Value.isTextIntSeq] at hv
        simp [tryToSetValue, hd, setDefault, Value.Kind, setSlice, MakeSlice, Value.Type,
          Values.replicate, Zero, setArray, setArrayLoop, setWithProperType, Value.SetString,
          Value.Set, leafDefault]
      | _ => simp [Value.isTextIntSeq] at hv

end FiberImpl

namespace FiberImpl

theorem fieldLoop_leafRecord (lib : Lib) (decls : Decls) (defFn : DefFunc) (fuel : Nat) :
    ∀ (fs : Fields) (b : Bool), fs.leafRecord = true → fs.intDefaultsParse defFn = true →
      ∃ s, fieldLoop (mapping lib decls defFn (fuel + 1)) fs b =
        some ⟨fs.leafDefaults defFn, s, none⟩ := by
  intro fs
  induction fs using Fields_induct with
  | hnil => intro b _ _; exact ⟨b, rfl⟩
  | hcons sf v rest ih =>
    intro b hl hp
    simp only [Fields.leafRecord, Bool.and_eq_true] at hl
    simp only [Fields.intDefaultsParse, Bool.and_eq_true] at hp
    cases hskip : (sf.unexported && !sf.Anonymous) with
    | true =>
      obtain ⟨s, hs⟩ := ih b hl.2 hp.2
      refine ⟨s, ?_⟩
      rw [fieldLoop_cons_skip _ _ _ _ _ hskip, hs]
      simp [Fields.leafDefaults, hskip]
    | false =>
      have hv : sf.unexported = false ∧ v.isTextIntSeq = true := by
        have := hl.1
        simp [hskip] at this
        exact this
      have hpv : ∀ k i, v = .int k i → defFn.hasDefault sf = true →
          (ParseInt (defFn sf) k.bitSize).2 = none := by
        intro k i hvi hd
        have := hp.1
        subst hvi
        simp [hskip, hd] at this
        exact this
      have hpu : ∀ k i, v = .uint k i → defFn.hasDefault sf = true →
          (ParseUint (defFn sf) k.bitSize).2 = none := by
        intro k i hvi hd
        have := hp.1
        subst hvi
        simp [hskip, hd] at this
        exact this
      obtain ⟨s, hs⟩ := ih (b || defFn.hasDefault sf) hl.2 hp.2
      refine ⟨s, ?_⟩
      rw [fieldLoop_cons_visit _ _ _ _ _ hskip, hv.1, mapping_leaf _ _ _ _ _ _ hv.2 hpv hpu]
      simp only [hs]
      simp [Fields.leafDefaults, hskip]

theorem leafDefault_Type (defFn : DefFunc) (sf : StructField) (v : Value) :
    (leafDefault defFn sf v).Type = v.Type := by
  unfold leafDefault
  split
  · split <;> simp [Value.Type, Values.length]
  · rfl

theorem leafDefaults_Types (defFn : DefFunc) :
    ∀ fs : Fields, (fs.leafDefaults defFn).Types = fs.Types := by
  intro fs
  induction fs using Fields_induct with
  | hnil => rfl
  | hcons sf v rest ih =>
    simp only [Fields.leafDefaults, Fields.Types, ih]
    split <;> simp [leafDefault_Type]

/-- Binding a record of leaves through `mapFormByTag`, for a resolver that
finds nothing on the root descriptor. -/
theorem mapFormByTag_leafRecord (lib : Lib) (decls : Decls) (defFn : DefFunc) (fuel : Nat)
    (fs : Fields) (hroot : defFn emptyField = "") (hl : fs.leafRecord = true)
    (hp : fs.intDefaultsParse defFn = true) :
    mapFormByTag lib decls (fuel + 3) (.iface (Value.struct fs).Addr) defFn =
      some ⟨.iface (Value.struct (fs.leafDefaults defFn)).Addr, none⟩ := by
  have hig : defFn.ignore emptyField = false := by simp [DefFunc.ignore, hroot]
  have hd : defFn.hasDefault emptyField = false := by simp [DefFunc.hasDefault, hroot]
  obtain ⟨s, hs⟩ := fieldLoop_leafRecord lib decls defFn fuel fs false hl hp
  have h1 : mapping lib decls defFn (fuel + 2) false (.struct fs) emptyField =
      some ⟨.struct (fs.leafDefaults defFn), s, none⟩ := by
    rw [mapping_nonPtr _ _ _ _ _ _ _ hig (by simp [Value.Kind]) _ rfl]
    have hA : emptyField.Anonymous = false := rfl
    simp [hA, tryToSetValue_noDefault _ _ _ _ _ hd, hs]
  simp only [mapFormByTag, checkNonNilPointer, Value.Addr, Value.Type, PtrElem.ptrType,
    GoType.Kind, Value.IsNil, findCoreType, mappingByPtr]
  rw [mapping_ptrTo _ _ _ _ _ _ _ _ hig, h1]
  simp [leafDefaults_Types]

end FiberImpl

namespace FiberImpl

theorem hasDefault_congr (d1 d2 : DefFunc) (sf : StructField) (h : d1 sf = d2 sf) :
    d1.hasDefault sf = d2.hasDefault sf := by
  simp [DefFunc.hasDefault, h]

theorem sameDefaults_leafDefaults (d1 d2 : DefFunc) :
    ∀ fs : Fields, fs.sameDefaults d1 d2 = true →
      fs.leafDefaults d1 = fs.leafDefaults d2 ∧
      fs.intDefaultsParse d1 = fs.intDefaultsParse d2 := by
  intro fs
  induction fs using Fields_induct with
  | hnil => intro _; exact ⟨rfl, rfl⟩
  | hcons sf v rest ih =>
    intro h
    simp only [Fields.sameDefaults, Bool.and_eq_true, decide_eq_true_eq] at h
    obtain ⟨e1, e2⟩ := ih h.2
    have hd := hasDefault_congr d1 d2 sf h.1
    constructor
    · simp only [Fields.leafDefaults, e1, leafDefault, hd, h.1]
    · simp only [Fields.intDefaultsParse, e2, hd, h.1]

/-- C1 (amended): for every record whose visited fields are exported text,
integer and sequence-of-text leaves, and in which every declared integer
default is a base-10 numeral within the width of its field, `MapDefault`
returns a nil error and leaves each field with a declared non-empty, non-`-`
default holding the conversion of that text (text verbatim, integer parsed in
base 10, sequence as the one-element sequence of the text) and every other
field unchanged; `MapFormDefault` gives the same record and a nil error when the
`default=` sub-key of the `form` tag resolves to the same text on every
field. -/
theorem leaf_record_defaults (lib : Lib) (decls : Decls) (fuel : Nat) (fs : Fields)
    (hl : fs.leafRecord = true)
    (hp : fs.intDefaultsParse (GetTagDefFunc "default") = true) :
    MapDefault lib decls (fuel + 3) (.iface (Value.struct fs).Addr) =
        some ⟨.iface (Value.struct (fs.leafDefaults (GetTagDefFunc "default"))).Addr, none⟩ ∧
    (fs.sameDefaults (GetSubTagDefFunc "form" "default") (GetTagDefFunc "default") = true →
      MapFormDefault lib decls (fuel + 3) (.iface (Value.struct fs).Addr) =
        some ⟨.iface (Value.struct (fs.leafDefaults (GetTagDefFunc "default"))).Addr,
          none⟩) := by
  refine ⟨mapFormByTag_leafRecord lib decls _ fuel fs rfl hl hp, ?_⟩
  intro hsame
  obtain ⟨e1, e2⟩ := sameDefaults_leafDefaults _ _ fs hsame
  have := mapFormByTag_leafRecord lib decls (GetSubTagDefFunc "form" "default") fuel fs
    (by decide) hl (by rw [e2]; exact hp)
  rw [e1] at this
  exact this

/-- The zero `User` of `main.go` becomes `Id = ""`, `Name = "Rohit"`,
`Email = "rohit@example.com"`, `Age = 18`, `Items = ["initiated"]` under both
entry points. -/
theorem leaf_record_defaults_witness :
    (zeroFields userFields).leafRecord = true ∧
    (zeroFields userFields).leafDefaults (GetTagDefFunc "default") =
      (.cons ⟨"Id", "", [("params", "id"), ("json", "id")], false⟩ (.string "") <|
       .cons ⟨"Name", "", [("form", "name,default=Rohit"), ("default", "Rohit"),
          ("validate", "required"), ("json", "name")], false⟩ (.string "Rohit") <|
       .cons ⟨"Email", "", [("form", "email,default=rohit@example.com"),
          ("default", "rohit@example.com"), ("validate", "required"), ("json", "email")],
          false⟩ (.string "rohit@example.com") <|
       .cons ⟨"Age", "", [("form", "age,default=18"), ("default", "18"),
          ("validate", "max=100"), ("json", "age")], false⟩ (.int .Int 18) <|
       .cons ⟨"Items", "", [("form", "items,default=initiated"), ("default", "initiated"),
          ("validate", "omitempty,dive,oneofarray=initiated ringing answered completed"),
          ("json", "items")], false⟩ (.slice .string (.cons (.string "initiated") .nil))
          .nil) ∧
    MapDefault Lib.rejecting Decls.empty 3 (.iface (Zero User).Addr) =
      some ⟨.iface (Value.struct
        ((zeroFields userFields).leafDefaults (GetTagDefFunc "default"))).Addr, none⟩ ∧
    MapFormDefault Lib.rejecting Decls.empty 3 (.iface (Zero User).Addr) =
      some ⟨.iface (Value.struct
        ((zeroFields userFields).leafDefaults (GetTagDefFunc "default"))).Addr, none⟩ :=
  ⟨by decide, by decide,
    (leaf_record_defaults Lib.rejecting Decls.empty 0 (zeroFields userFields)
      (by decide) (by decide)).1,
    (leaf_record_defaults Lib.rejecting Decls.empty 0 (zeroFields userFields)
      (by decide) (by decide)).2 (by decide)⟩

/-- C1 as stated fails: a record whose only field is an integer with the
declared default `abc` is a record of text, integer and sequence leaves, and
`MapDefault` returns a conversion error on it, not nil. -/
theorem leaf_record_error_counterexample :
    (Fields.cons ⟨"Age", "", [("default", "abc")], false⟩ (.int .Int 0) .nil).leafRecord = true ∧
    MapDefault Lib.rejecting Decls.empty 3
      (.iface (Value.struct
        (.cons ⟨"Age", "", [("default", "abc")], false⟩ (.int .Int 0) .nil)).Addr) =
      some ⟨.iface (Value.struct
        (.cons ⟨"Age", "", [("default", "abc")], false⟩ (.int .Int 0) .nil)).Addr,
        some (.error (.numError "ParseInt" "abc" .ErrSyntax))⟩ := by
  decide

end FiberImpl


namespace FiberImpl

/-! ## The argument check (C2) -/

/-- C2: at the nil interface the entry points do not return the invalid-target
error.  `checkNonNilPointer` calls `Kind` on `reflect.TypeOf(nil)`, the nil
`reflect.Type`, so both `MapDefault(nil)` and `MapFormDefault(nil)` panic with a
nil dereference. -/
theorem nil_argument_panics (lib : Lib) (decls : Decls) (fuel : Nat) :
    MapDefault lib decls fuel .nil = some ⟨.nil, some panicNilType⟩ ∧
    MapFormDefault lib decls fuel .nil = some ⟨.nil, some panicNilType⟩ :=
  ⟨rfl, rfl⟩

/-- Every typed argument that is not a non-nil pointer, and every non-nil
pointer whose fully dereferenced type is not a struct, gets the invalid-target
error and is left as it was; a non-nil pointer to a struct is handed to the
walker. -/
theorem mapFormByTag_typed_argument (lib : Lib) (decls : Decls) (fuel : Nat) (val : Value)
    (defFn : DefFunc) :
    mapFormByTag lib decls fuel (.iface val) defFn =
      if val.Type.Kind = .Ptr ∧ val.IsNil = false ∧ findCoreType val.Type = .Struct then
        (mappingByPtr lib decls fuel val defFn).map (fun r => ⟨.iface r.1, r.2⟩)
      else some ⟨.iface val, some (.error errUnknownType)⟩ := by
  unfold mapFormByTag checkNonNilPointer
  by_cases h1 : val.Type.Kind = .Ptr <;> by_cases h2 : val.IsNil = true <;>
    by_cases h3 : findCoreType val.Type = .Struct <;> simp [h1, h2, h3]
  cases mappingByPtr lib decls fuel val defFn <;> rfl

/-! ## The sentinel (C4) -/

/-- C4: a field whose resolved default is the sentinel `-` is returned by the
walk exactly as it was, with nothing set and no error, whatever its value and
the defaults declared inside it; and the field loop of the enclosing record
passes over it, keeping it unchanged, and goes on with the remaining fields. -/
theorem sentinel_field_untouched (lib : Lib) (decls : Decls) (defFn : DefFunc) (fuel : Nat)
    (ro : Bool) (v : Value) (sf : StructField) (h : defFn sf = "-") :
    mapping lib decls defFn (fuel + 1) ro v sf = some ⟨v, false, none⟩ ∧
    ∀ (rest : Fields) (b : Bool),
      fieldLoop (mapping lib decls defFn (fuel + 1)) (.cons sf v rest) b =
        (fieldLoop (mapping lib decls defFn (fuel + 1)) rest b).map
          (fun r => ⟨.cons sf v r.fields, r.isSet, r.err⟩) := by
  have hig : defFn.ignore sf = true := by simp [DefFunc.ignore, h]
  refine ⟨mapping_ignore _ _ _ _ _ _ _ hig, ?_⟩
  intro rest b
  cases hskip : (sf.unexported && !sf.Anonymous) with
  | true => exact fieldLoop_cons_skip _ _ _ _ _ hskip
  | false =>
    rw [fieldLoop_cons_visit _ _ _ _ _ hskip, mapping_ignore _ _ _ _ _ _ _ hig]
    simp

/-- A nil `*User` field tagged `default:"-"` stays nil although the fields of
`User` declare defaults. -/
theorem sentinel_field_untouched_witness :
    GetTagDefFunc "default" ⟨"Owner", "", [("default", "-")], false⟩ = "-" ∧
    mapping Lib.rejecting Decls.empty (GetTagDefFunc "default") (2 + 1) false
        (.ptrNil (.inline User)) ⟨"Owner", "", [("default", "-")], false⟩ =
      some ⟨.ptrNil (.inline User), false, none⟩ :=
  ⟨by decide,
    (sentinel_field_untouched Lib.rejecting Decls.empty (GetTagDefFunc "default") 2 false
      (.ptrNil (.inline User)) ⟨"Owner", "", [("default", "-")], false⟩ (by decide)).1⟩

end FiberImpl


namespace FiberImpl

/-! ## Records without defaults -/

mutual
theorem Zero_noDefault (df : DefFunc) :
    ∀ t : GoType, t.noDefault df = true → (Zero t).noDefault df = true
  | .bool, _ => rfl
  | .int _, _ => rfl
  | .uint _, _ => rfl
  | .float _, _ => rfl
  | .string, _ => rfl
  | .duration, _ => rfl
  | .time, _ => rfl
  | .map, _ => rfl
  | .other _, _ => rfl
  | .ptr elem, h => by
    simp only [GoType.noDefault] at h
    simp [Zero, Value.noDefault, h]
  | .ptrNamed _, _ => rfl
  | .slice _, _ => rfl
  | .array _ _, _ => rfl
  | .struct fields, h => by
    simp only [GoType.noDefault] at h
    simp only [Zero, Value.noDefault]
    exact zeroFields_noDefault df fields h
theorem zeroFields_noDefault (df : DefFunc) :
    ∀ fs : TypeFields, fs.noDefault df = true → (zeroFields fs).noDefault df = true
  | .nil, _ => rfl
  | .cons sf t rest, h => by
    simp only [TypeFields.noDefault, Bool.and_eq_true, Bool.or_eq_true] at h
    simp only [zeroFields, Fields.noDefault, Bool.and_eq_true, Bool.or_eq_true]
    refine ⟨?_, zeroFields_noDefault df rest h.2⟩
    rcases h.1 with h1 | h1
    · exact Or.inl h1
    · exact Or.inr ⟨h1.1, Zero_noDefault df t h1.2⟩
end

theorem New_noDefault (df : DefFunc) (decls : Decls)
    (hd : ∀ name, (decls name).noDefault df = true) (elem : PtrElem)
    (h : (Value.ptrNil elem).noDefault df = true) : (New decls elem).noDefault df = true := by
  cases elem with
  | inline t =>
    simp only [Value.noDefault] at h
    exact Zero_noDefault df t h
  | declared name =>
    simp only [New, Value.noDefault]
    exact zeroFields_noDefault df _ (hd name)

theorem fieldLoop_noDefault (df : DefFunc)
    (visit : Bool → Value → StructField → Option Visit) (hv : VisitNoop df visit) :
    ∀ (fs : Fields) (b : Bool), fs.noDefault df = true →
      fieldLoop visit fs b = none ∨ fieldLoop visit fs b = some ⟨fs, b, none⟩ := by
  intro fs
  induction fs using Fields_induct with
  | hnil => intro b _; exact Or.inr rfl
  | hcons sf v rest ih =>
    intro b h
    simp only [Fields.noDefault, Bool.and_eq_true, Bool.or_eq_true] at h
    cases hskip : (sf.unexported && !sf.Anonymous) with
    | true =>
      rw [fieldLoop_cons_skip _ _ _ _ _ hskip]
      rcases ih b h.2 with h1 | h1 <;> simp [h1]
    | false =>
      rw [fieldLoop_cons_visit _ _ _ _ _ hskip]
      have h1 : df.hasDefault sf = false ∧ v.noDefault df = true := by
        rcases h.1 with ⟨a, b⟩ | h1
        · simp [a, b] at hskip
        · simpa using h1
      rcases hv sf.unexported v sf h1.1 h1.2 with h2 | h2
      · simp [h2]
      · simp only [h2, Bool.or_false]
        rcases ih b h.2 with h3 | h3 <;> simp [h3]

theorem mapping_noDefault (lib : Lib) (decls : Decls) (df : DefFunc)
    (hd : ∀ name, (decls name).noDefault df = true) :
    ∀ fuel, VisitNoop df (mapping lib decls df fuel) := by
  intro fuel
  induction fuel with
  | zero => intro ro v f _ _; exact Or.inl (mapping_zero _ _ _ _ _ _)
  | succ fuel ih =>
    intro ro v f hf hv
    cases hig : df.ignore f with
    | true => exact Or.inr (mapping_ignore _ _ _ _ _ _ _ hig)
    | false =>
      rcases v.ptr_cases with ⟨elem, rfl⟩ | ⟨elem, p, rfl⟩ | hk
      · rw [mapping_ptrNil _ _ _ _ _ _ _ hig]
        rcases ih false _ f hf (New_noDefault df decls hd elem hv) with h | h <;> simp [h]
      · rw [mapping_ptrTo _ _ _ _ _ _ _ _ hig]
        simp only [Value.noDefault] at hv
        rcases ih ro _ f hf hv with h | h <;> simp [h]
      · rw [mapping_nonPtr _ _ _ _ _ _ _ hig hk ⟨v, false, none⟩
          (by simp [tryToSetValue_noDefault _ _ _ _ _ hf])]
        simp only [Bool.false_eq_true, if_false]
        cases v with
        | struct fields =>
          simp only [Value.noDefault] at hv
          rcases fieldLoop_noDefault df _ ih fields false hv with h | h <;> simp [h]
        | _ => exact Or.inr rfl

end FiberImpl

namespace FiberImpl

/-! ## Termination on types that do not refer to themselves -/

mutual
theorem Zero_closed :
    ∀ t : GoType, t.closed = true → (Zero t).closed = true ∧ (Zero t).depth ≤ t.depth
  | .bool, _ => ⟨rfl, Nat.le_refl _⟩
  | .int _, _ => ⟨rfl, Nat.le_refl _⟩
  | .uint _, _ => ⟨rfl, Nat.le_refl _⟩
  | .float _, _ => ⟨rfl, Nat.le_refl _⟩
  | .string, _ => ⟨rfl, Nat.le_refl _⟩
  | .duration, _ => ⟨rfl, Nat.le_refl _⟩
  | .time, _ => ⟨rfl, Nat.le_refl _⟩
  | .map, _ => ⟨rfl, Nat.le_refl _⟩
  | .other _, _ => ⟨rfl, Nat.le_refl _⟩
  | .ptr elem, h => by
    simp only [GoType.closed] at h
    simp [Zero, Value.closed, Value.depth, GoType.depth, h]
  | .ptrNamed _, h => by simp [GoType.closed] at h
  | .slice _, _ => ⟨rfl, Nat.zero_le _⟩
  | .array _ _, _ => ⟨rfl, Nat.zero_le _⟩
  | .struct fields, h => by
    simp only [GoType.closed] at h
    have := zeroFields_closed fields h
    simp only [Zero, Value.closed, Value.depth, GoType.depth]
    exact ⟨this.1, Nat.succ_le_succ this.2⟩
theorem zeroFields_closed :
    ∀ fs : TypeFields, fs.closed = true →
      (zeroFields fs).closed = true ∧ (zeroFields fs).depth ≤ fs.depth
  | .nil, _ => ⟨rfl, Nat.le_refl _⟩
  | .cons sf t rest, h => by
    simp only [TypeFields.closed, Bool.and_eq_true] at h
    have h1 := Zero_closed t h.1
    have h2 := zeroFields_closed rest h.2
    simp only [zeroFields, Fields.closed, Fields.depth, TypeFields.depth, Bool.and_eq_true]
    exact ⟨⟨h1.1, h2.1⟩, max_le_max h1.2 h2.2⟩
end

theorem fieldLoop_total (n : Nat) (visit : Bool → Value → StructField → Option Visit)
    (hv : VisitTotal n visit) :
    ∀ (fs : Fields) (b : Bool), fs.closed = true → fs.depth < n →
      ∃ r, fieldLoop visit fs b = some r := by
  intro fs
  induction fs using Fields_induct with
  | hnil => intro b _ _; exact ⟨_, rfl⟩
  | hcons sf v rest ih =>
    intro b hc hd
    simp only [Fields.closed, Bool.and_eq_true] at hc
    simp only [Fields.depth] at hd
    have hd1 : v.depth < n := lt_of_le_of_lt (le_max_left _ _) hd
    have hd2 : rest.depth < n := lt_of_le_of_lt (le_max_right _ _) hd
    cases hskip : (sf.unexported && !sf.Anonymous) with
    | true =>
      rw [fieldLoop_cons_skip _ _ _ _ _ hskip]
      obtain ⟨r, hr⟩ := ih b hc.2 hd2
      exact ⟨_, by rw [hr]; rfl⟩
    | false =>
      rw [fieldLoop_cons_visit _ _ _ _ _ hskip]
      obtain ⟨⟨v1, ok, e⟩, hr⟩ := hv sf.unexported v sf hc.1 hd1
      rw [hr]
      cases e with
      | some err => exact ⟨_, rfl⟩
      | none =>
        obtain ⟨r2, hr2⟩ := ih (b || ok) hc.2 hd2
        exact ⟨_, by simp only [hr2]; rfl⟩

/-- On a value that mentions no declared struct type the walk returns as soon
as the fuel exceeds the depth of the value. -/
theorem mapping_total (lib : Lib) (decls : Decls) (defFn : DefFunc) :
    ∀ fuel, VisitTotal fuel (mapping lib decls defFn fuel) := by
  intro fuel
  induction fuel with
  | zero => intro ro v f _ h; exact absurd h (Nat.not_lt_zero _)
  | succ fuel ih =>
    intro ro v f hc hd
    cases hig : defFn.ignore f with
    | true => exact ⟨_, mapping_ignore _ _ _ _ _ _ _ hig⟩
    | false =>
      rcases v.ptr_cases with ⟨elem, rfl⟩ | ⟨elem, p, rfl⟩ | hk
      · rw [mapping_ptrNil _ _ _ _ _ _ _ hig]
        cases elem with
        | declared name => simp [Value.closed] at hc
        | inline t =>
          simp only [Value.closed] at hc
          simp only [Value.depth] at hd
          have hz := Zero_closed t hc
          obtain ⟨⟨z, s, e⟩, hr⟩ := ih false (Zero t) f hz.1 (by omega)
          simp only [New, hr]
          cases e <;> cases s <;> cases ro <;> simp
      · rw [mapping_ptrTo _ _ _ _ _ _ _ _ hig]
        simp only [Value.closed] at hc
        simp only [Value.depth] at hd
        obtain ⟨⟨z, s, e⟩, hr⟩ := ih ro p f hc (by omega)
        rw [hr]
        cases e <;> simp
      · rw [mapping_nonPtr _ _ _ _ _ _ _ hig hk _ rfl]
        generalize hr : (if v.Kind ≠ .Struct ∨ !f.Anonymous then
          tryToSetValue lib ro v f defFn else ⟨v, false, none⟩ : Visit) = r
        have hrv : r.err = none → r.isSet = false → r = ⟨v, false, none⟩ := by
          intro he hs
          subst hr
          split
          · rename_i hcnd
            simp only [hcnd, if_true] at he hs
            exact tryToSetValue_notSet _ _ _ _ _ hs he
          · rfl
        obtain ⟨rv, rs, re⟩ := r
        cases re with
        | some err => exact ⟨_, rfl⟩
        | none =>
          cases rs with
          | true => exact ⟨_, rfl⟩
          | false =>
            have := hrv rfl rfl
            simp only [Visit.mk.injEq, and_true] at this
            subst this
            simp only [Bool.false_eq_true, if_false]
            cases rv with
            | struct fields =>
              simp only [Value.closed] at hc
              simp only [Value.depth] at hd
              obtain ⟨⟨lf, ls, le⟩, hl⟩ := fieldLoop_total fuel _ ih fields false hc (by omega)
              simp only [hl]
              cases le <;> exact ⟨_, rfl⟩
            | _ => exact ⟨_, rfl⟩

end FiberImpl

namespace FiberImpl

theorem mapFormByTag_addr (lib : Lib) (decls : Decls) (fuel : Nat) (v : Value)
    (defFn : DefFunc) (hs : findCoreType v.Type = .Struct) :
    mapFormByTag lib decls fuel (.iface v.Addr) defFn =
      (mapping lib decls defFn fuel false v.Addr emptyField).map
        (fun r => ⟨.iface r.value, r.err⟩) := by
  rw [mapFormByTag_typed_argument]
  have h1 : v.Addr.Type.Kind = .Ptr := rfl
  have h2 : v.Addr.IsNil = false := rfl
  have h3 : findCoreType v.Addr.Type = .Struct := by
    simpa [Value.Addr, Value.Type, PtrElem.ptrType, findCoreType] using hs
  simp only [h1, h2, h3, and_self, if_true, mappingByPtr]
  cases mapping lib decls defFn fuel false v.Addr emptyField <;> rfl

theorem mapFormByTag_noDefault (lib : Lib) (decls : Decls) (df : DefFunc) (v : Value)
    (hroot : df emptyField = "") (hs : findCoreType v.Type = .Struct)
    (hd : ∀ name, (decls name).noDefault df = true) (hv : v.noDefault df = true) :
    (∀ fuel, mapFormByTag lib decls fuel (.iface v.Addr) df = none ∨
      mapFormByTag lib decls fuel (.iface v.Addr) df = some ⟨.iface v.Addr, none⟩) ∧
    (v.closed = true → ∀ fuel, v.depth + 1 < fuel →
      mapFormByTag lib decls fuel (.iface v.Addr) df = some ⟨.iface v.Addr, none⟩) := by
  have hf : df.hasDefault emptyField = false := by simp [DefFunc.hasDefault, hroot]
  have hva : v.Addr.noDefault df = true := by simpa [Value.Addr, Value.noDefault] using hv
  have key : ∀ fuel, mapFormByTag lib decls fuel (.iface v.Addr) df = none ∨
      mapFormByTag lib decls fuel (.iface v.Addr) df = some ⟨.iface v.Addr, none⟩ := by
    intro fuel
    rw [mapFormByTag_addr _ _ _ _ _ hs]
    rcases mapping_noDefault lib decls df hd fuel false v.Addr emptyField hf hva with h | h <;>
      simp [h]
  refine ⟨key, ?_⟩
  intro hc fuel hfuel
  rcases key fuel with h | h
  · exfalso
    rw [mapFormByTag_addr _ _ _ _ _ hs] at h
    obtain ⟨r, hr⟩ := mapping_total lib decls df fuel false v.Addr emptyField
      (by simpa [Value.Addr, Value.closed] using hc)
      (by simpa [Value.Addr, Value.depth] using hfuel)
    simp [hr] at h
  · exact h

/-- Records without defaults.  When no visited field of the record declares a
default, under the `default` tag and under the `default=` sub-key of the `form`
tag, at any depth (the declared struct types included), `MapDefault` and
`MapFormDefault` change nothing and return nil whenever they return: the
argument is as it was and the error is nil.  On a record that mentions no
declared (possibly self-referential) struct type they do return, as soon as the
fuel exceeds the depth of the record by two. -/
theorem no_defaults_noop (lib : Lib) (decls : Decls) (v : Value)
    (hs : findCoreType v.Type = .Struct)
    (hd1 : ∀ name, (decls name).noDefault (GetTagDefFunc "default") = true)
    (hd2 : ∀ name, (decls name).noDefault (GetSubTagDefFunc "form" "default") = true)
    (hv1 : v.noDefault (GetTagDefFunc "default") = true)
    (hv2 : v.noDefault (GetSubTagDefFunc "form" "default") = true) :
    ((∀ fuel, MapDefault lib decls fuel (.iface v.Addr) = none ∨
        MapDefault lib decls fuel (.iface v.Addr) = some ⟨.iface v.Addr, none⟩) ∧
      (∀ fuel, MapFormDefault lib decls fuel (.iface v.Addr) = none ∨
        MapFormDefault lib decls fuel (.iface v.Addr) = some ⟨.iface v.Addr, none⟩)) ∧
    (v.closed = true → ∀ fuel, v.depth + 1 < fuel →
      MapDefault lib decls fuel (.iface v.Addr) = some ⟨.iface v.Addr, none⟩ ∧
      MapFormDefault lib decls fuel (.iface v.Addr) = some ⟨.iface v.Addr, none⟩) := by
  have h1 := mapFormByTag_noDefault lib decls (GetTagDefFunc "default") v rfl hs hd1 hv1
  have h2 := mapFormByTag_noDefault lib decls (GetSubTagDefFunc "form" "default") v
    (by decide) hs hd2 hv2
  exact ⟨⟨h1.1, h2.1⟩, fun hc fuel hf => ⟨h1.2 hc fuel hf, h2.2 hc fuel hf⟩⟩

/-- The zero `MyRequest` of `main.go`, whose only field is a nil `*bool` with no
default, comes back unchanged with a nil error from both entry points. -/
theorem no_defaults_noop_witness :
    findCoreType (Zero MyRequest).Type = .Struct ∧
    (Zero MyRequest).noDefault (GetTagDefFunc "default") = true ∧
    (Zero MyRequest).noDefault (GetSubTagDefFunc "form" "default") = true ∧
    (Zero MyRequest).closed = true ∧ (Zero MyRequest).depth + 1 < 4 ∧
    MapDefault Lib.rejecting Decls.empty 4 (.iface (Zero MyRequest).Addr) =
      some ⟨.iface (Zero MyRequest).Addr, none⟩ ∧
    MapFormDefault Lib.rejecting Decls.empty 4 (.iface (Zero MyRequest).Addr) =
      some ⟨.iface (Zero MyRequest).Addr, none⟩ :=
  ⟨by decide, by decide, by decide, by decide, by decide,
    (no_defaults_noop Lib.rejecting Decls.empty (Zero MyRequest) (by decide)
      (fun _ => rfl) (fun _ => rfl) (by decide) (by decide)).2 (by decide) 4 (by decide)⟩

end FiberImpl


namespace FiberImpl

/-! ## Nil pointers (C3) -/

/-- C3: a pointer that is nil when the walk visits it, in a binding that reports
no error, is non-nil afterwards exactly when the walk reports a default set in
its pointee (`isSet`).  When it is non-nil the pointee is the result of binding
a zero value of the pointee type; when it is still nil, either the field is the
sentinel or binding the zero pointee set nothing and left it zero.  In
particular it is still nil when no visited field of its pointee type declares a
default. -/
theorem nil_pointer_lifecycle (lib : Lib) (decls : Decls) (defFn : DefFunc) (fuel : Nat)
    (ro : Bool) (elem : PtrElem) (field : StructField) (v1 : Value) (isSet : Bool)
    (h : mapping lib decls defFn fuel ro (.ptrNil elem) field = some ⟨v1, isSet, none⟩) :
    ((isSet = true ∧ ∃ z, v1 = .ptrTo elem z ∧
        mapping lib decls defFn (fuel - 1) false (New decls elem) field =
          some ⟨z, true, none⟩) ∨
      (isSet = false ∧ v1 = .ptrNil elem ∧
        (defFn.ignore field = true ∨
          mapping lib decls defFn (fuel - 1) false (New decls elem) field =
            some ⟨New decls elem, false, none⟩))) ∧
    (defFn.hasDefault field = false → (Value.ptrNil elem).noDefault defFn = true →
      (∀ name, (decls name).noDefault defFn = true) → v1 = .ptrNil elem) := by
  refine ⟨?_, ?_⟩
  case refine_2 =>
    intro hf hv hd
    rcases mapping_noDefault lib decls defFn hd fuel ro _ field hf hv with h1 | h1
    · rw [h1] at h; exact absurd h (by simp)
    · rw [h1] at h
      simp only [Option.some.injEq, Visit.mk.injEq] at h
      exact h.1.symm
  cases fuel with
  | zero => simp [mapping_zero] at h
  | succ fuel =>
    simp only [Nat.add_sub_cancel]
    cases hig : defFn.ignore field with
    | true =>
      rw [mapping_ignore _ _ _ _ _ _ _ hig] at h
      simp at h
      exact Or.inr ⟨h.2, h.1.symm, Or.inl rfl⟩
    | false =>
      rw [mapping_ptrNil _ _ _ _ _ _ _ hig] at h
      cases hm : mapping lib decls defFn fuel false (New decls elem) field with
      | none => simp [hm] at h
      | some r =>
        obtain ⟨z, s, e⟩ := r
        cases e with
        | some err => simp [hm] at h
        | none =>
          cases s with
          | true =>
            cases ro with
            | true => simp [hm] at h
            | false =>
              simp [hm] at h
              exact Or.inl ⟨h.2, z, h.1.symm, rfl⟩
          | false =>
            simp [hm] at h
            have hz := mapping_frame lib decls defFn fuel _ _ _ _ hm
            subst hz
            exact Or.inr ⟨h.2, h.1.symm, Or.inr rfl⟩

/-- The nil `*User` of `TestMapDefault1` is visited with no error and a set
default, so it ends up pointing to the bound zero `User`. -/
theorem nil_pointer_lifecycle_witness :
    mapping Lib.rejecting Decls.empty (GetTagDefFunc "default") 3 false
        (.ptrNil (.inline User)) emptyField =
      some ⟨.ptrTo (.inline User)
        (.struct ((zeroFields userFields).leafDefaults (GetTagDefFunc "default"))),
        true, none⟩ ∧
    ((true = true ∧ ∃ z,
        Value.ptrTo (.inline User)
          (.struct ((zeroFields userFields).leafDefaults (GetTagDefFunc "default"))) =
          .ptrTo (.inline User) z ∧
        mapping Lib.rejecting Decls.empty (GetTagDefFunc "default") (3 - 1) false
          (New Decls.empty (.inline User)) emptyField = some ⟨z, true, none⟩) ∨
     (true = false ∧
        Value.ptrTo (.inline User)
          (.struct ((zeroFields userFields).leafDefaults (GetTagDefFunc "default"))) =
          .ptrNil (.inline User) ∧
        ((GetTagDefFunc "default").ignore emptyField = true ∨
          mapping Lib.rejecting Decls.empty (GetTagDefFunc "default") (3 - 1) false
            (New Decls.empty (.inline User)) emptyField =
            some ⟨New Decls.empty (.inline User), false, none⟩))) :=
  ⟨by decide,
    (nil_pointer_lifecycle Lib.rejecting Decls.empty (GetTagDefFunc "default") 3 false
      (.inline User) emptyField _ true (by decide)).1⟩

/-! ## A self-referential record (C9) -/

theorem mapping_node_diverges (lib : Lib) (df : DefFunc)
    (hnext : df ⟨"Next", "", [], false⟩ = "") :
    ∀ fuel,
      (∀ ro f, df.ignore f = false → df.hasDefault f = false →
        mapping lib nodeDecls df fuel ro nodeValue f = none) ∧
      (∀ ro, mapping lib nodeDecls df fuel ro (.ptrNil (.declared "Node"))
        ⟨"Next", "", [], false⟩ = none) := by
  have hig : df.ignore ⟨"Next", "", [], false⟩ = false := by simp [DefFunc.ignore, hnext]
  have hnd : df.hasDefault ⟨"Next", "", [], false⟩ = false := by
    simp [DefFunc.hasDefault, hnext]
  intro fuel
  induction fuel with
  | zero => exact ⟨fun _ _ _ _ => mapping_zero _ _ _ _ _ _, fun _ => mapping_zero _ _ _ _ _ _⟩
  | succ fuel ih =>
    constructor
    · intro ro f hif hdf
      rw [mapping_nonPtr _ _ _ _ _ _ _ hif (by simp [nodeValue, Value.Kind]) ⟨nodeValue, false, none⟩
        (by simp [tryToSetValue_noDefault _ _ _ _ _ hdf])]
      have hskip : ((⟨"Next", "", [], false⟩ : StructField).unexported &&
          !(⟨"Next", "", [], false⟩ : StructField).Anonymous) = false := by decide
      simp only [Bool.false_eq_true, if_false, nodeValue]
      rw [fieldLoop_cons_visit _ _ _ _ _ hskip, ih.2]
    · intro ro
      rw [mapping_ptrNil _ _ _ _ _ _ _ hig]
      have hnew : New nodeDecls (.declared "Node") = nodeValue := by
        simp [New, nodeDecls, zeroFields, Zero, nodeValue]
      rw [hnew, ih.1 false _ hig hnd]

/-- C9: on the list node `type Node struct { Next *Node }` with `Next` nil,
neither `MapDefault(&node)` nor `MapFormDefault(&node)` returns, whatever the
fuel: each visit of the nil `Next` allocates a fresh `Node` and visits its
`Next` again. -/
theorem self_referential_record_diverges (lib : Lib) (fuel : Nat) :
    MapDefault lib nodeDecls fuel (.iface (.ptrTo (.declared "Node") nodeValue)) = none ∧
    MapFormDefault lib nodeDecls fuel (.iface (.ptrTo (.declared "Node") nodeValue)) = none := by
  have key : ∀ df : DefFunc, df ⟨"Next", "", [], false⟩ = "" → df emptyField = "" →
      mapFormByTag lib nodeDecls fuel (.iface (.ptrTo (.declared "Node") nodeValue)) df
        = none := by
    intro df hnext hroot
    have hig : df.ignore emptyField = false := by simp [DefFunc.ignore, hroot]
    have hnd : df.hasDefault emptyField = false := by simp [DefFunc.hasDefault, hroot]
    rw [mapFormByTag_typed_argument]
    simp only [Value.Type, PtrElem.ptrType, GoType.Kind, Value.IsNil, findCoreType, and_self,
      if_true, mappingByPtr]
    cases fuel with
    | zero => simp [mapping_zero]
    | succ n =>
      rw [mapping_ptrTo _ _ _ _ _ _ _ _ hig,
        (mapping_node_diverges lib df hnext n).1 false emptyField hig hnd]
      rfl
  exact ⟨key _ rfl rfl, key _ (by decide) (by decide)⟩

/-- On a record that mentions no declared struct type both entry points return
once the fuel exceeds the static depth of the record by two. -/
theorem closed_record_terminates (lib : Lib) (decls : Decls) (v : Value)
    (hs : findCoreType v.Type = .Struct) (hc : v.closed = true) (fuel : Nat)
    (hf : v.depth + 1 < fuel) :
    (∃ r, MapDefault lib decls fuel (.iface v.Addr) = some r) ∧
    (∃ r, MapFormDefault lib decls fuel (.iface v.Addr) = some r) := by
  have key : ∀ df : DefFunc,
      ∃ r, mapFormByTag lib decls fuel (.iface v.Addr) df = some r := by
    intro df
    rw [mapFormByTag_addr _ _ _ _ _ hs]
    obtain ⟨r, hr⟩ := mapping_total lib decls df fuel false v.Addr emptyField
      (by simpa [Value.Addr, Value.closed] using hc)
      (by simpa [Value.Addr, Value.depth] using hf)
    exact ⟨_, by rw [hr]; rfl⟩
  exact ⟨key _, key _⟩

end FiberImpl


namespace FiberImpl

/-! ## Fixed-length arrays (C10) -/

theorem Value.array_kind (elem : GoType) (xs : Values) :
    (Value.array elem xs).Kind = .Array := rfl

/-- C10: a visited fixed-length array whose field declares a default that is
neither empty nor the sentinel gets the arity error `notValid` whenever its
length is not 1 (length 0 included), and the array is left as it was; the field
loop of the enclosing record returns that error with the record unchanged.
When the length is 1 the single element is converted from the whole default
text by `setWithProperType`, whose error, if any, is the result. -/
theorem array_default_arity (lib : Lib) (decls : Decls) (df : DefFunc) (fuel : Nat)
    (ro : Bool) (elem : GoType) (xs : Values) (f : StructField)
    (hd : df.hasDefault f = true) :
    (xs.length ≠ 1 →
      mapping lib decls df (fuel + 1) ro (.array elem xs) f =
        some ⟨.array elem xs, false,
          some (.error (.notValid [df f] (.array xs.length elem)))⟩ ∧
      ∀ (rest : Fields) (b : Bool), (f.unexported && !f.Anonymous) = false →
        fieldLoop (mapping lib decls df (fuel + 1)) (.cons f (.array elem xs) rest) b =
          some ⟨.cons f (.array elem xs) rest, false,
            some (.error (.notValid [df f] (.array xs.length elem)))⟩) ∧
    (∀ x, xs = .cons x .nil →
      mapping lib decls df (fuel + 1) ro (.array elem xs) f =
        some ⟨.array elem (.cons (setWithProperType lib (df f) ro x f).1 .nil),
          (setWithProperType lib (df f) ro x f).2.isNone,
          (setWithProperType lib (df f) ro x f).2⟩) := by
  have hig : df.ignore f = false := by
    cases h : df.ignore f with
    | false => rfl
    | true => rw [ignore_hasDefault _ _ h] at hd; exact absurd hd (by simp)
  have hk : (Value.array elem xs).Kind ≠ .Ptr := by simp [Value.Kind]
  have hm : ∀ ro1, mapping lib decls df (fuel + 1) ro1 (.array elem xs) f = _ :=
    fun ro1 => mapping_nonPtr lib decls df fuel ro1 (.array elem xs) f hig hk _ rfl
  simp only [Value.array_kind, ne_eq, reduceCtorEq, not_false_eq_true, true_or, if_true,
    tryToSetValue, hd, setDefault, Bool.not_true, Bool.false_eq_true, if_false,
    List.length_singleton, Value.Len, Value.Type] at hm
  refine ⟨?_, ?_⟩
  · intro hlen
    have hlen1 : ¬ (1 = xs.length) := fun h => hlen h.symm
    have hmap : ∀ ro1, mapping lib decls df (fuel + 1) ro1 (.array elem xs) f =
        some ⟨.array elem xs, false,
          some (.error (.notValid [df f] (.array xs.length elem)))⟩ := by
      intro ro1; rw [hm]; simp [hlen1]
    refine ⟨hmap ro, ?_⟩
    intro rest b hskip
    rw [fieldLoop_cons_visit _ _ _ _ _ hskip, hmap]
  · intro x hx
    subst hx
    rw [hm]
    simp only [Values.length, zero_add, not_true_eq_false, if_false, setArray, setArrayLoop]
    cases hsw : setWithProperType lib (df f) ro x f with
    | mk x1 e =>
      cases e <;> simp

/-- A `[2]int` field with the default `5` gets the arity error and keeps its
elements. -/
theorem array_default_arity_witness :
    (GetTagDefFunc "default").hasDefault ⟨"Pair", "", [("default", "5")], false⟩ = true ∧
    mapping Lib.rejecting Decls.empty (GetTagDefFunc "default") (0 + 1) false
        (.array (.int .Int) (.cons (.int .Int 7) (.cons (.int .Int 9) .nil)))
        ⟨"Pair", "", [("default", "5")], false⟩ =
      some ⟨.array (.int .Int) (.cons (.int .Int 7) (.cons (.int .Int 9) .nil)), false,
        some (.error (.notValid ["5"] (.array 2 (.int .Int))))⟩ :=
  ⟨by decide,
    ((array_default_arity Lib.rejecting Decls.empty (GetTagDefFunc "default") 0 false
      (.int .Int) (.cons (.int .Int 7) (.cons (.int .Int 9) .nil))
      ⟨"Pair", "", [("default", "5")], false⟩ (by decide)).1 (by decide)).1⟩

end FiberImpl

namespace FiberImpl

/-! ## Conversion failures (C8) -/

/-- C8 (amended): a conversion failure aborts the walk and reaches the caller
unchanged, no field after the failing one is modified, and the fields bound
before it keep their values: the field loop returns the error of the failing
field with the later fields as they were, and prepends the fields already
bound; a struct and a non-nil pointer pass the error on around the partly bound
value.  A pointer that was nil is the exception: the error is passed on and the
pointer stays nil, so what was bound inside the fresh pointee is dropped. -/
theorem failure_aborts_without_rollback (lib : Lib) (decls : Decls) (df : DefFunc)
    (fuel : Nat) :
    (∀ sf v rest b v1 ok err, (sf.unexported && !sf.Anonymous) = false →
      mapping lib decls df fuel sf.unexported v sf = some ⟨v1, ok, some err⟩ →
      fieldLoop (mapping lib decls df fuel) (.cons sf v rest) b =
        some ⟨.cons sf v1 rest, false, some err⟩) ∧
    (∀ sf v rest b v1 ok rest1 s err, (sf.unexported && !sf.Anonymous) = false →
      mapping lib decls df fuel sf.unexported v sf = some ⟨v1, ok, none⟩ →
      fieldLoop (mapping lib decls df fuel) rest (b || ok) = some ⟨rest1, s, some err⟩ →
      fieldLoop (mapping lib decls df fuel) (.cons sf v rest) b =
        some ⟨.cons sf v1 rest1, s, some err⟩) ∧
    (∀ sf v rest b rest1 s err, (sf.unexported && !sf.Anonymous) = true →
      fieldLoop (mapping lib decls df fuel) rest b = some ⟨rest1, s, some err⟩ →
      fieldLoop (mapping lib decls df fuel) (.cons sf v rest) b =
        some ⟨.cons sf v rest1, s, some err⟩) ∧
    (∀ ro fs f fs1 s err, df.ignore f = false → df.hasDefault f = false →
      fieldLoop (mapping lib decls df fuel) fs false = some ⟨fs1, s, some err⟩ →
      mapping lib decls df (fuel + 1) ro (.struct fs) f =
        some ⟨.struct fs1, false, some err⟩) ∧
    (∀ ro elem p f p1 s err, df.ignore f = false →
      mapping lib decls df fuel ro p f = some ⟨p1, s, some err⟩ →
      mapping lib decls df (fuel + 1) ro (.ptrTo elem p) f =
        some ⟨.ptrTo elem p1, false, some err⟩) ∧
    (∀ ro elem f z s err, df.ignore f = false →
      mapping lib decls df fuel false (New decls elem) f = some ⟨z, s, some err⟩ →
      mapping lib decls df (fuel + 1) ro (.ptrNil elem) f =
        some ⟨.ptrNil elem, false, some err⟩) := by
  refine ⟨?_, ?_, ?_, ?_, ?_, ?_⟩
  · intro sf v rest b v1 ok err hskip h
    rw [fieldLoop_cons_visit _ _ _ _ _ hskip, h]
  · intro sf v rest b v1 ok rest1 s err hskip h hr
    rw [fieldLoop_cons_visit _ _ _ _ _ hskip, h]
    simp only [hr]
    rfl
  · intro sf v rest b rest1 s err hskip hr
    rw [fieldLoop_cons_skip _ _ _ _ _ hskip, hr]
    rfl
  · intro ro fs f fs1 s err hig hd hl
    rw [mapping_nonPtr _ _ _ _ _ _ _ hig (by simp [Value.Kind]) ⟨.struct fs, false, none⟩
      (by simp [tryToSetValue_noDefault _ _ _ _ _ hd])]
    simp [hl]
  · intro ro elem p f p1 s err hig h
    rw [mapping_ptrTo _ _ _ _ _ _ _ _ hig, h]
  · intro ro elem f z s err hig h
    rw [mapping_ptrNil _ _ _ _ _ _ _ hig, h]

/-- In a non-nil `halfBound` the default of `A` stays after the default of `B`
has failed. -/
theorem failure_aborts_without_rollback_witness :
    mapping Lib.rejecting Decls.empty (GetTagDefFunc "default") (2 + 1) false
        (.ptrTo (.inline halfBound) (Zero halfBound)) emptyField =
      some ⟨.ptrTo (.inline halfBound)
        (.struct (.cons ⟨"A", "", [("default", "x")], false⟩ (.string "x")
          (.cons ⟨"B", "", [("default", "bad")], false⟩ (.int .Int 0) .nil))),
        false, some (.error (.numError "ParseInt" "bad" .ErrSyntax))⟩ :=
  (failure_aborts_without_rollback Lib.rejecting Decls.empty (GetTagDefFunc "default")
    2).2.2.2.2.1 false (.inline halfBound) (Zero halfBound) emptyField _ false _
    (by decide) (by decide)

/-- C8 as stated fails inside a nil pointer sub-record: binding a fresh
`halfBound` assigns `x` to `A` before the default of `B` fails, yet after
`MapDefault` has returned that error on a `halfBoundOwner` whose `P` was nil,
`P` is still nil and the record holds no `A` with its default. -/
theorem nil_subrecord_rollback_counterexample :
    mapping Lib.rejecting Decls.empty (GetTagDefFunc "default") 2 false (Zero halfBound)
        ⟨"P", "", [], false⟩ =
      some ⟨.struct (.cons ⟨"A", "", [("default", "x")], false⟩ (.string "x")
          (.cons ⟨"B", "", [("default", "bad")], false⟩ (.int .Int 0) .nil)),
        false, some (.error (.numError "ParseInt" "bad" .ErrSyntax))⟩ ∧
    MapDefault Lib.rejecting Decls.empty 5 (.iface (Zero halfBoundOwner).Addr) =
      some ⟨.iface (Value.struct
          (.cons ⟨"P", "", [], false⟩ (.ptrNil (.inline halfBound)) .nil)).Addr,
        some (.error (.numError "ParseInt" "bad" .ErrSyntax))⟩ := by
  decide

end FiberImpl


namespace FiberImpl

/-! ## Overwriting (C7) -/

theorem setIntField_overwrites (val : String) (b : Nat) (ro : Bool) (k : IntKind) (x y : Int)
    (he : (setIntField val b ro (.int k x)).2 = none) :
    setIntField val b ro (.int k y) = setIntField val b ro (.int k x) := by
  unfold setIntField at he ⊢
  cases hp : ParseInt (if val = "" then "0" else val) b with
  | mk n e =>
    simp only [hp] at he ⊢
    cases e <;> cases ro <;> simp_all [Value.SetInt]

theorem setUintField_overwrites (val : String) (b : Nat) (ro : Bool) (k : UintKind) (x y : Nat)
    (he : (setUintField val b ro (.uint k x)).2 = none) :
    setUintField val b ro (.uint k y) = setUintField val b ro (.uint k x) := by
  unfold setUintField at he ⊢
  cases hp : ParseUint (if val = "" then "0" else val) b with
  | mk n e =>
    simp only [hp] at he ⊢
    cases e <;> cases ro <;> simp_all [Value.SetUint]

theorem setBoolField_overwrites (val : String) (ro : Bool) (x y : Bool)
    (he : (setBoolField val ro (.bool x)).2 = none) :
    setBoolField val ro (.bool y) = setBoolField val ro (.bool x) := by
  unfold setBoolField at he ⊢
  cases hp : ParseBool (if val = "" then "false" else val) with
  | mk n e =>
    simp only [hp] at he ⊢
    cases e <;> cases ro <;> simp_all [Value.SetBool]

theorem setFloatField_overwrites (lib : Lib) (val : String) (b : Nat) (ro : Bool)
    (k : FloatKind) (x y : Nat)
    (he : (setFloatField lib val b ro (.float k x)).2 = none) :
    setFloatField lib val b ro (.float k y) = setFloatField lib val b ro (.float k x) := by
  unfold setFloatField at he ⊢
  cases hp : lib.parseFloat (if val = "" then "0.0" else val) b with
  | error e => simp [hp] at he
  | ok n =>
    simp only [hp] at he ⊢
    cases k <;> cases ro <;> simp_all [Value.SetFloat]

theorem setTimeDuration_overwrites (lib : Lib) (val : String) (ro : Bool) (x y : Int)
    (he : (setTimeDuration lib val ro (.duration x)).2 = none) :
    setTimeDuration lib val ro (.duration y) = setTimeDuration lib val ro (.duration x) := by
  unfold setTimeDuration at he ⊢
  cases hp : lib.parseDuration val with
  | error e => simp [hp] at he
  | ok n =>
    simp only [hp] at he ⊢
    cases ro <;> simp_all [Value.Set]

theorem setTimeField_overwrites (lib : Lib) (val : String) (f : StructField) (ro : Bool)
    (x y : Time) (he : (setTimeField lib val f ro (.time x)).2 = none) :
    setTimeField lib val f ro (.time y) = setTimeField lib val f ro (.time x) := by
  unfold setTimeField at he ⊢
  simp only at he ⊢
  generalize (if f.Tag.Get "time_format" = "" then RFC3339
    else f.Tag.Get "time_format") = tfmt at he ⊢
  by_cases h1 : lib.toLower tfmt = "unix" ∨ lib.toLower tfmt = "unixnano"
  · simp only [h1, if_true] at he ⊢
    cases hp : ParseInt val 64 with
    | mk n e =>
      simp only [hp] at he ⊢
      cases e <;> cases ro <;> simp_all [Value.Set]
  · simp only [h1, if_false] at he ⊢
    by_cases h2 : val = ""
    · simp only [h2, if_true] at he ⊢
      cases ro <;> simp_all [Value.Set]
    · simp only [h2, if_false] at he ⊢
      generalize (if f.Tag.Get "time_location" ≠ "" then
        lib.loadLocation (f.Tag.Get "time_location")
        else Except.ok (if (ParseBool (f.Tag.Get "time_utc")).1 = true then Location.UTC
          else Location.Local)) = ll at he ⊢
      cases ll with
      | error e => simp at he
      | ok l =>
        simp only at he ⊢
        cases hp : lib.parseInLocation tfmt val l with
        | error e => simp [hp] at he
        | ok t =>
          simp only [hp] at he ⊢
          cases ro <;> simp_all [Value.Set]

end FiberImpl

namespace FiberImpl

/-- Two values of the same leaf type are built by the same constructor. -/
theorem leaf_same_type (v w : Value) (hleaf : v.isLeaf = true) (hty : v.Type = w.Type) :
    (∃ x y, v = .bool x ∧ w = .bool y) ∨ (∃ k x y, v = .int k x ∧ w = .int k y) ∨
    (∃ k x y, v = .uint k x ∧ w = .uint k y) ∨ (∃ k x y, v = .float k x ∧ w = .float k y) ∨
    (∃ x y, v = .string x ∧ w = .string y) ∨ (∃ x y, v = .duration x ∧ w = .duration y) ∨
    (∃ x y, v = .time x ∧ w = .time y) ∨ (∃ e xs ys, v = .slice e xs ∧ w = .slice e ys) := by
  have hne : ∀ e : PtrElem, v.Type ≠ e.ptrType := by
    intro e
    cases e <;> cases v <;> simp [Value.isLeaf] at hleaf <;>
      simp [Value.Type, PtrElem.ptrType]
  cases w with
  | ptrNil e => exact absurd hty (hne e)
  | ptrTo e p => exact absurd hty (hne e)
  | _ =>
    cases v <;> simp [Value.isLeaf] at hleaf <;> simp [Value.Type] at hty <;>
      first
        | (subst hty; simp)
        | simp

theorem leaf_kind (v : Value) (hleaf : v.isLeaf = true) :
    v.Kind ≠ .Array ∧ v.Kind ≠ .Ptr ∧ (v.Kind = .Slice → ∃ e xs, v = .slice e xs) ∧
      (v.Kind = .Struct → ∃ t, v = .time t) := by
  cases v <;> simp [Value.isLeaf] at hleaf <;> simp [Value.Kind]
  · rename_i k _; cases k <;> simp [IntKind.toKind]
  · rename_i k _; cases k <;> simp [UintKind.toKind]
  · rename_i k _; cases k <;> simp [FloatKind.toKind]

theorem setWithProperType_overwrites (lib : Lib) (val : String) (ro : Bool) (v w : Value)
    (f : StructField) (hleaf : v.isLeaf = true) (hk : v.Kind ≠ .Slice)
    (hty : v.Type = w.Type)
    (he : (setWithProperType lib val ro v f).2 = none) :
    setWithProperType lib val ro w f = setWithProperType lib val ro v f := by
  rcases leaf_same_type v w hleaf hty with ⟨x, y, rfl, rfl⟩ | ⟨k, x, y, rfl, rfl⟩ |
    ⟨k, x, y, rfl, rfl⟩ | ⟨k, x, y, rfl, rfl⟩ | ⟨x, y, rfl, rfl⟩ | ⟨x, y, rfl, rfl⟩ |
    ⟨x, y, rfl, rfl⟩ | ⟨e, xs, ys, rfl, rfl⟩
  · simp only [setWithProperType, Value.Kind] at he ⊢
    exact setBoolField_overwrites _ _ _ _ he
  · cases k <;> simp only [setWithProperType, Value.Kind, IntKind.toKind] at he ⊢ <;>
      first
        | exact setIntField_overwrites _ _ _ _ _ _ he
        | (cases ro <;> simp at he ⊢; exact setIntField_overwrites _ _ _ _ _ _ he)
  · cases k <;> simp only [setWithProperType, Value.Kind, UintKind.toKind] at he ⊢ <;>
      exact setUintField_overwrites _ _ _ _ _ _ he
  · cases k <;> simp only [setWithProperType, Value.Kind, FloatKind.toKind] at he ⊢ <;>
      exact setFloatField_overwrites _ _ _ _ _ _ _ he
  · simp only [setWithProperType, Value.Kind, Value.SetString] at he ⊢
    cases ro <;> simp at he ⊢
  · simp only [setWithProperType, Value.Kind] at he ⊢
    cases ro <;> simp at he ⊢
    exact setTimeDuration_overwrites _ _ _ _ _ he
  · simp only [setWithProperType, Value.Kind] at he ⊢
    cases ro <;> simp at he ⊢
    exact setTimeField_overwrites _ _ _ _ _ _ he
  · simp [Value.Kind] at hk

/-- The direct assignment to a leaf does not look at the value the leaf holds:
two leaves of the same type get the same result when the assignment succeeds. -/
theorem tryToSetValue_overwrites (lib : Lib) (df : DefFunc) (ro : Bool) (v w : Value)
    (f : StructField) (hleaf : v.isLeaf = true) (hty : v.Type = w.Type)
    (hd : df.hasDefault f = true)
    (he : (tryToSetValue lib ro v f df).err = none) :
    tryToSetValue lib ro w f df = tryToSetValue lib ro v f df ∧
      (tryToSetValue lib ro v f df).isSet = true := by
  have hlk := leaf_kind v hleaf
  by_cases hs : v.Kind = .Slice
  · obtain ⟨e, xs, rfl⟩ := hlk.2.2.1 hs
    rcases leaf_same_type _ w hleaf hty with ⟨x, y, h, _⟩ | ⟨k, x, y, h, _⟩ |
      ⟨k, x, y, h, _⟩ | ⟨k, x, y, h, _⟩ | ⟨x, y, h, _⟩ | ⟨x, y, h, _⟩ |
      ⟨x, y, h, _⟩ | ⟨e2, xs2, ys, h, rfl⟩ <;> simp at h
    obtain ⟨rfl, rfl⟩ := h
    simp only [tryToSetValue, hd, if_true, setDefault, Bool.not_true, Bool.false_eq_true,
      if_false, Value.Kind, setSlice, Value.Type] at he ⊢
    generalize setArray lib [df f] false (MakeSlice (.slice e) [df f].length) f = r at he ⊢
    obtain ⟨r1, r2⟩ := r
    cases r2 <;> cases ro <;> simp_all [Value.Set]
  · have hkw : w.Kind = v.Kind := by
      rcases leaf_same_type v w hleaf hty with ⟨x, y, rfl, rfl⟩ | ⟨k, x, y, rfl, rfl⟩ |
        ⟨k, x, y, rfl, rfl⟩ | ⟨k, x, y, rfl, rfl⟩ | ⟨x, y, rfl, rfl⟩ | ⟨x, y, rfl, rfl⟩ |
        ⟨x, y, rfl, rfl⟩ | ⟨e, xs, ys, rfl, rfl⟩ <;> rfl
    have hka : v.Kind ≠ .Array := hlk.1
    have hv : tryToSetValue lib ro v f df =
        ⟨(setWithProperType lib (df f) ro v f).1, true,
          (setWithProperType lib (df f) ro v f).2⟩ := by
      unfold tryToSetValue setDefault
      simp only [hd, if_true, Bool.not_true, Bool.false_eq_true, if_false]
    have hw : tryToSetValue lib ro w f df =
        ⟨(setWithProperType lib (df f) ro w f).1, true,
          (setWithProperType lib (df f) ro w f).2⟩ := by
      unfold tryToSetValue setDefault
      simp only [hd, if_true, Bool.not_true, Bool.false_eq_true, if_false]
      split
      · rename_i h; rw [hkw] at h; exact absurd h hs
      · rename_i h; rw [hkw] at h; exact absurd h hka
      · rfl
    rw [hv] at he
    simp only at he
    rw [hw, hv, setWithProperType_overwrites lib _ ro v w f hleaf hs hty he]
    exact ⟨rfl, rfl⟩

end FiberImpl

namespace FiberImpl

theorem hasDefault_not_ignore (df : DefFunc) (f : StructField)
    (hd : df.hasDefault f = true) : df.ignore f = false := by
  cases h : df.ignore f with
  | false => rfl
  | true => rw [ignore_hasDefault _ _ h] at hd; exact absurd hd (by simp)

theorem setSlice_shape (lib : Lib) (val : String) (ro : Bool) (e : GoType) (xs : Values)
    (f : StructField) (he : (setSlice lib [val] ro (.slice e xs) f).2 = none) :
    (setSlice lib [val] ro (.slice e xs) f).1 =
      .slice e (.cons (setWithProperType lib val false (Zero e) f).1 .nil) := by
  simp only [setSlice, Value.Type, MakeSlice, List.length_singleton, Values.replicate, setArray,
    setArrayLoop] at he ⊢
  cases hsw : setWithProperType lib val false (Zero e) f with
  | mk x1 e1 =>
    simp only [hsw] at he ⊢
    cases e1 <;> cases ro <;> simp_all [Value.Set]

/-- C7: binding overwrites.  When the walk visits a leaf (a scalar, a duration,
an instant that is not embedded, or a sequence) whose field declares a default
and binds it without error, the result is the converted default whatever the
leaf held: a leaf of the same type holding any other value is bound to the very
same value, and a sequence of any length becomes a sequence of one element, the
conversion of the default into a fresh element. -/
theorem default_overwrites (lib : Lib) (decls : Decls) (df : DefFunc) (fuel : Nat)
    (ro : Bool) (v w : Value) (f : StructField) (v1 : Value) (isSet : Bool)
    (hleaf : v.isLeaf = true) (hty : v.Type = w.Type)
    (hemb : v.Kind = .Struct → f.Anonymous = false)
    (hd : df.hasDefault f = true)
    (h : mapping lib decls df (fuel + 1) ro v f = some ⟨v1, isSet, none⟩) :
    isSet = true ∧
    mapping lib decls df (fuel + 1) ro w f = some ⟨v1, true, none⟩ ∧
    (∀ e xs, v = .slice e xs →
      v1 = .slice e (.cons (setWithProperType lib (df f) false (Zero e) f).1 .nil)) := by
  have hig := hasDefault_not_ignore df f hd
  have hlk := leaf_kind v hleaf
  have hkw : w.Kind = v.Kind := by
    rcases leaf_same_type v w hleaf hty with ⟨x, y, rfl, rfl⟩ | ⟨k, x, y, rfl, rfl⟩ |
      ⟨k, x, y, rfl, rfl⟩ | ⟨k, x, y, rfl, rfl⟩ | ⟨x, y, rfl, rfl⟩ | ⟨x, y, rfl, rfl⟩ |
      ⟨x, y, rfl, rfl⟩ | ⟨e, xs, ys, rfl, rfl⟩ <;> rfl
  have hcond : v.Kind ≠ .Struct ∨ (!f.Anonymous) = true := by
    by_cases hk : v.Kind = .Struct
    · exact Or.inr (by simp [hemb hk])
    · exact Or.inl hk
  have hcondw : w.Kind ≠ .Struct ∨ (!f.Anonymous) = true := by rw [hkw]; exact hcond
  have hmv := mapping_nonPtr lib decls df fuel ro v f hig hlk.2.1 _ rfl
  have hmw := mapping_nonPtr lib decls df fuel ro w f hig (by rw [hkw]; exact hlk.2.1) _ rfl
  simp only [hcond, if_true] at hmv
  simp only [hcondw, if_true] at hmw
  rw [hmv] at h
  have herr : (tryToSetValue lib ro v f df).err = none := by
    cases he : (tryToSetValue lib ro v f df).err with
    | none => rfl
    | some err => simp [he] at h
  obtain ⟨heq, hset⟩ := tryToSetValue_overwrites lib df ro v w f hleaf hty hd herr
  simp only [herr, hset, if_true, Option.some.injEq, Visit.mk.injEq, and_true] at h
  obtain ⟨h1, h2⟩ := h
  refine ⟨h2.symm, ?_, ?_⟩
  · rw [hmw, heq]
    simp only [herr, hset, if_true, h1]
  · intro e xs hv
    subst hv
    rw [← h1]
    simp only [tryToSetValue, hd, if_true, setDefault, Bool.not_true, Bool.false_eq_true,
      if_false, Value.Kind] at herr ⊢
    exact setSlice_shape lib _ ro e xs f herr

/-- A `[]string` holding three elements and tagged `default:"initiated"` is
bound to the one-element sequence, as the empty one is. -/
theorem default_overwrites_witness :
    mapping Lib.rejecting Decls.empty (GetTagDefFunc "default") (0 + 1) false
        (.slice .string (.cons (.string "a") (.cons (.string "b") (.cons (.string "c") .nil))))
        ⟨"Items", "", [("default", "initiated")], false⟩ =
      some ⟨.slice .string (.cons (.string "initiated") .nil), true, none⟩ ∧
    mapping Lib.rejecting Decls.empty (GetTagDefFunc "default") (0 + 1) false
        (.slice .string .nil) ⟨"Items", "", [("default", "initiated")], false⟩ =
      some ⟨.slice .string (.cons (.string "initiated") .nil), true, none⟩ :=
  ⟨by decide,
    (default_overwrites Lib.rejecting Decls.empty (GetTagDefFunc "default") 0 false
      (.slice .string (.cons (.string "a") (.cons (.string "b") (.cons (.string "c") .nil))))
      (.slice .string .nil) ⟨"Items", "", [("default", "initiated")], false⟩
      (.slice .string (.cons (.string "initiated") .nil)) true
      (by decide) (by decide) (by decide) (by decide) (by decide)).2.1⟩

end FiberImpl


namespace FiberImpl

/-! ## Idempotence (C6) -/

theorem setIntField_idem (val : String) (b : Nat) (ro : Bool) (v : Value) :
    setIntField val b ro (setIntField val b ro v).1 = setIntField val b ro v := by
  unfold setIntField
  cases hp : ParseInt (if val = "" then "0" else val) b with
  | mk n e =>
    simp only [hp]
    cases e with
    | some err => simp [hp]
    | none => cases ro <;> cases v <;> simp [Value.SetInt, hp]

theorem setUintField_idem (val : String) (b : Nat) (ro : Bool) (v : Value) :
    setUintField val b ro (setUintField val b ro v).1 = setUintField val b ro v := by
  unfold setUintField
  cases hp : ParseUint (if val = "" then "0" else val) b with
  | mk n e =>
    simp only [hp]
    cases e with
    | some err => simp [hp]
    | none => cases ro <;> cases v <;> simp [Value.SetUint, hp]

theorem setBoolField_idem (val : String) (ro : Bool) (v : Value) :
    setBoolField val ro (setBoolField val ro v).1 = setBoolField val ro v := by
  unfold setBoolField
  cases hp : ParseBool (if val = "" then "false" else val) with
  | mk n e =>
    simp only [hp]
    cases e with
    | some err => simp [hp]
    | none => cases ro <;> cases v <;> simp [Value.SetBool, hp]

theorem setFloatField_idem (lib : Lib) (val : String) (b : Nat) (ro : Bool) (v : Value) :
    setFloatField lib val b ro (setFloatField lib val b ro v).1 =
      setFloatField lib val b ro v := by
  unfold setFloatField
  cases hp : lib.parseFloat (if val = "" then "0.0" else val) b with
  | error e => simp [hp]
  | ok n =>
    simp only [hp]
    cases ro <;> cases v <;> simp [Value.SetFloat, hp]
    rename_i k _
    cases k <;> simp [hp]

theorem setTimeDuration_idem (lib : Lib) (val : String) (ro : Bool) (v : Value) :
    setTimeDuration lib val ro (setTimeDuration lib val ro v).1 =
      setTimeDuration lib val ro v := by
  unfold setTimeDuration
  cases hp : lib.parseDuration val with
  | error e => simp [hp]
  | ok n => cases ro <;> simp [Value.Set, hp]

theorem setTimeField_idem (lib : Lib) (val : String) (f : StructField) (ro : Bool)
    (v : Value) :
    setTimeField lib val f ro (setTimeField lib val f ro v).1 =
      setTimeField lib val f ro v := by
  unfold setTimeField
  simp only
  generalize (if f.Tag.Get "time_format" = "" then RFC3339
    else f.Tag.Get "time_format") = tfmt
  by_cases h1 : lib.toLower tfmt = "unix" ∨ lib.toLower tfmt = "unixnano"
  · simp only [h1, if_true]
    cases hp : ParseInt val 64 with
    | mk n e => cases e <;> cases ro <;> simp [Value.Set, hp, h1]
  · simp only [h1, if_false]
    by_cases h2 : val = ""
    · simp only [h2, if_true]
      cases ro <;> simp [Value.Set]
    · simp only [h2, if_false]
      generalize (if f.Tag.Get "time_location" ≠ "" then
        lib.loadLocation (f.Tag.Get "time_location")
        else Except.ok (if (ParseBool (f.Tag.Get "time_utc")).1 = true then Location.UTC
          else Location.Local)) = ll
      cases ll with
      | error e => simp
      | ok l =>
        simp only
        cases hp : lib.parseInLocation tfmt val l with
        | error e => simp [hp, h1, h2]
        | ok t => cases ro <;> simp [Value.Set, hp, h1, h2]

theorem jsonUnmarshal_idem (lib : Lib) (hlib : lib.decodeIdempotent) (val : String)
    (ro : Bool) (v : Value) :
    jsonUnmarshal lib val ro (jsonUnmarshal lib val ro v).1 = jsonUnmarshal lib val ro v := by
  unfold jsonUnmarshal
  cases ro with
  | true => simp
  | false =>
    cases v <;> simp [hlib.1, hlib.2]

end FiberImpl

namespace FiberImpl

theorem setIntField_shape (val : String) (b : Nat) (ro : Bool) (k : IntKind) (x : Int) :
    ∃ y, (setIntField val b ro (.int k x)).1 = .int k y := by
  unfold setIntField
  cases hp : ParseInt (if val = "" then "0" else val) b with
  | mk n e => cases e <;> cases ro <;> simp [Value.SetInt, hp]

theorem setUintField_shape (val : String) (b : Nat) (ro : Bool) (k : UintKind) (x : Nat) :
    ∃ y, (setUintField val b ro (.uint k x)).1 = .uint k y := by
  unfold setUintField
  cases hp : ParseUint (if val = "" then "0" else val) b with
  | mk n e => cases e <;> cases ro <;> simp [Value.SetUint, hp]

theorem setBoolField_shape (val : String) (ro : Bool) (x : Bool) :
    ∃ y, (setBoolField val ro (.bool x)).1 = .bool y := by
  unfold setBoolField
  cases hp : ParseBool (if val = "" then "false" else val) with
  | mk n e => cases e <;> cases ro <;> simp [Value.SetBool, hp]

theorem setFloatField_shape (lib : Lib) (val : String) (b : Nat) (ro : Bool) (k : FloatKind)
    (x : Nat) : ∃ y, (setFloatField lib val b ro (.float k x)).1 = .float k y := by
  unfold setFloatField
  cases hp : lib.parseFloat (if val = "" then "0.0" else val) b with
  | error e => simp [hp]
  | ok n => cases ro <;> cases k <;> simp [Value.SetFloat, hp]

theorem setTimeDuration_shape (lib : Lib) (val : String) (ro : Bool) (x : Int) :
    ∃ y, (setTimeDuration lib val ro (.duration x)).1 = .duration y := by
  unfold setTimeDuration
  cases hp : lib.parseDuration val with
  | error e => simp [hp]
  | ok n => cases ro <;> simp [Value.Set, hp]

theorem setTimeField_shape (lib : Lib) (val : String) (f : StructField) (ro : Bool)
    (x : Time) : ∃ y, (setTimeField lib val f ro (.time x)).1 = .time y := by
  unfold setTimeField
  simp only
  generalize (if f.Tag.Get "time_format" = "" then RFC3339
    else f.Tag.Get "time_format") = tfmt
  by_cases h1 : lib.toLower tfmt = "unix" ∨ lib.toLower tfmt = "unixnano"
  · simp only [h1, if_true]
    cases hp : ParseInt val 64 with
    | mk n e => cases e <;> cases ro <;> simp [Value.Set, hp]
  · simp only [h1, if_false]
    by_cases h2 : val = ""
    · simp only [h2, if_true]
      cases ro <;> simp [Value.Set]
    · simp only [h2, if_false]
      generalize (if f.Tag.Get "time_location" ≠ "" then
        lib.loadLocation (f.Tag.Get "time_location")
        else Except.ok (if (ParseBool (f.Tag.Get "time_utc")).1 = true then Location.UTC
          else Location.Local)) = ll
      cases ll with
      | error e => simp
      | ok l =>
        simp only
        cases hp : lib.parseInLocation tfmt val l with
        | error e => simp [hp]
        | ok t => cases ro <;> simp [Value.Set, hp]

/-- The converter keeps the constructor of the value, and converting once more
gives the same value and the same error. -/
theorem setWithProperType_idem (lib : Lib) (hlib : lib.decodeIdempotent) (val : String)
    (ro : Bool) (v : Value) (f : StructField) :
    setWithProperType lib val ro (setWithProperType lib val ro v f).1 f =
        setWithProperType lib val ro v f ∧
      (setWithProperType lib val ro v f).1.Kind = v.Kind := by
  cases v with
  | bool x =>
    obtain ⟨y, hy⟩ := setBoolField_shape val ro x
    have hi := setBoolField_idem val ro (.bool x)
    simp only [setWithProperType, Value.Kind] at hy hi ⊢
    rw [hy] at hi ⊢
    exact ⟨hi, rfl⟩
  | int k x =>
    have key : ∀ b, setWithProperType lib val ro (.int k x) f =
        setIntField val b ro (.int k x) →
        (∀ y, setWithProperType lib val ro (.int k y) f =
          setIntField val b ro (.int k y)) →
        setWithProperType lib val ro (setWithProperType lib val ro (.int k x) f).1 f =
          setWithProperType lib val ro (.int k x) f ∧
        (setWithProperType lib val ro (.int k x) f).1.Kind = (Value.int k x).Kind := by
      intro b h1 h2
      obtain ⟨y, hy⟩ := setIntField_shape val b ro k x
      have hi := setIntField_idem val b ro (.int k x)
      rw [h1, hy, h2 y]
      rw [hy] at hi
      exact ⟨hi, rfl⟩
    cases k
    · exact key 0 (by simp [setWithProperType, Value.Kind, IntKind.toKind])
        (fun _ => by simp [setWithProperType, Value.Kind, IntKind.toKind])
    · exact key 8 (by simp [setWithProperType, Value.Kind, IntKind.toKind])
        (fun _ => by simp [setWithProperType, Value.Kind, IntKind.toKind])
    · exact key 16 (by simp [setWithProperType, Value.Kind, IntKind.toKind])
        (fun _ => by simp [setWithProperType, Value.Kind, IntKind.toKind])
    · exact key 32 (by simp [setWithProperType, Value.Kind, IntKind.toKind])
        (fun _ => by simp [setWithProperType, Value.Kind, IntKind.toKind])
    · cases ro with
      | true => simp [setWithProperType, Value.Kind, IntKind.toKind]
      | false =>
        exact key 64 (by simp [setWithProperType, Value.Kind, IntKind.toKind])
          (fun _ => by simp [setWithProperType, Value.Kind, IntKind.toKind])
  | uint k x =>
    have key : ∀ b, setWithProperType lib val ro (.uint k x) f =
        setUintField val b ro (.uint k x) →
        (∀ y, setWithProperType lib val ro (.uint k y) f =
          setUintField val b ro (.uint k y)) →
        setWithProperType lib val ro (setWithProperType lib val ro (.uint k x) f).1 f =
          setWithProperType lib val ro (.uint k x) f ∧
        (setWithProperType lib val ro (.uint k x) f).1.Kind = (Value.uint k x).Kind := by
      intro b h1 h2
      obtain ⟨y, hy⟩ := setUintField_shape val b ro k x
      have hi := setUintField_idem val b ro (.uint k x)
      rw [h1, hy, h2 y]
      rw [hy] at hi
      exact ⟨hi, rfl⟩
    cases k
    · exact key 0 (by simp [setWithProperType, Value.Kind, UintKind.toKind])
        (fun _ => by simp [setWithProperType, Value.Kind, UintKind.toKind])
    · exact key 8 (by simp [setWithProperType, Value.Kind, UintKind.toKind])
        (fun _ => by simp [setWithProperType, Value.Kind, UintKind.toKind])
    · exact key 16 (by simp [setWithProperType, Value.Kind, UintKind.toKind])
        (fun _ => by simp [setWithProperType, Value.Kind, UintKind.toKind])
    · exact key 32 (by simp [setWithProperType, Value.Kind, UintKind.toKind])
        (fun _ => by simp [setWithProperType, Value.Kind, UintKind.toKind])
    · exact key 64 (by simp [setWithProperType, Value.Kind, UintKind.toKind])
        (fun _ => by simp [setWithProperType, Value.Kind, UintKind.toKind])
  | float k x =>
    have key : ∀ b, setWithProperType lib val ro (.float k x) f =
        setFloatField lib val b ro (.float k x) →
        (∀ y, setWithProperType lib val ro (.float k y) f =
          setFloatField lib val b ro (.float k y)) →
        setWithProperType lib val ro (setWithProperType lib val ro (.float k x) f).1 f =
          setWithProperType lib val ro (.float k x) f ∧
        (setWithProperType lib val ro (.float k x) f).1.Kind = (Value.float k x).Kind := by
      intro b h1 h2
      obtain ⟨y, hy⟩ := setFloatField_shape lib val b ro k x
      have hi := setFloatField_idem lib val b ro (.float k x)
      rw [h1, hy, h2 y]
      rw [hy] at hi
      exact ⟨hi, rfl⟩
    cases k
    · exact key 32 (by simp [setWithProperType, Value.Kind, FloatKind.toKind])
        (fun _ => by simp [setWithProperType, Value.Kind, FloatKind.toKind])
    · exact key 64 (by simp [setWithProperType, Value.Kind, FloatKind.toKind])
        (fun _ => by simp [setWithProperType, Value.Kind, FloatKind.toKind])
  | string x =>
    cases ro <;> simp [setWithProperType, Value.Kind, Value.SetString]
  | duration x =>
    cases ro with
    | true => simp [setWithProperType, Value.Kind]
    | false =>
      obtain ⟨y, hy⟩ := setTimeDuration_shape lib val false x
      have hi := setTimeDuration_idem lib val false (.duration x)
      simp only [setWithProperType, Value.Kind, Bool.false_eq_true, if_false] at hy hi ⊢
      rw [hy] at hi ⊢
      exact ⟨hi, rfl⟩
  | time x =>
    cases ro with
    | true => simp [setWithProperType, Value.Kind]
    | false =>
      obtain ⟨y, hy⟩ := setTimeField_shape lib val f false x
      have hi := setTimeField_idem lib val f false (.time x)
      simp only [setWithProperType, Value.Kind, Bool.false_eq_true, if_false] at hy hi ⊢
      rw [hy] at hi ⊢
      exact ⟨hi, rfl⟩
  | map m =>
    have hi := jsonUnmarshal_idem lib hlib val ro (.map m)
    cases ro with
    | true => simp [setWithProperType, Value.Kind, jsonUnmarshal]
    | false =>
      simp only [setWithProperType, Value.Kind, jsonUnmarshal, Bool.false_eq_true,
        if_false] at hi ⊢
      exact ⟨hi, trivial⟩
  | other k p => cases k <;> simp [setWithProperType, Value.Kind, OtherKind.toKind]
  | ptrNil e => simp [setWithProperType, Value.Kind]
  | ptrTo e p => simp [setWithProperType, Value.Kind]
  | slice e xs => simp [setWithProperType, Value.Kind]
  | array e xs => simp [setWithProperType, Value.Kind]
  | struct fs =>
    have hi := jsonUnmarshal_idem lib hlib val ro (.struct fs)
    cases ro with
    | true => simp [setWithProperType, Value.Kind]
    | false =>
      simp only [setWithProperType, Value.Kind, jsonUnmarshal, Bool.false_eq_true,
        if_false] at hi ⊢
      exact ⟨hi, trivial⟩

end FiberImpl

namespace FiberImpl

theorem setArrayLoop_idem (lib : Lib) (hlib : lib.decodeIdempotent) (f : StructField)
    (ro : Bool) :
    ∀ (vals : List String) (xs : Values),
      setArrayLoop lib f ro vals (setArrayLoop lib f ro vals xs).1 =
          setArrayLoop lib f ro vals xs ∧
        (setArrayLoop lib f ro vals xs).1.length = xs.length := by
  intro vals
  induction vals with
  | nil => intro xs; simp [setArrayLoop]
  | cons s rest ih =>
    intro xs
    cases xs with
    | nil => simp [setArrayLoop]
    | cons x xs1 =>
      have hsw := setWithProperType_idem lib hlib s ro x f
      cases hr : setWithProperType lib s ro x f with
      | mk x1 e =>
        rw [hr] at hsw
        simp only at hsw
        cases e with
        | some err => simp [setArrayLoop, hr, hsw.1, Values.length]
        | none =>
          obtain ⟨h1, h2⟩ := ih xs1
          simp [setArrayLoop, hr, hsw.1, h1, h2, Values.length]

theorem setArray_idem (lib : Lib) (hlib : lib.decodeIdempotent) (vals : List String)
    (ro : Bool) (v : Value) (f : StructField) :
    setArray lib vals ro (setArray lib vals ro v f).1 f = setArray lib vals ro v f ∧
      (setArray lib vals ro v f).1.Kind = v.Kind ∧
      (setArray lib vals ro v f).1.Len = v.Len := by
  cases v <;> simp [setArray, Value.Kind, Value.Len, setArrayLoop_idem lib hlib f ro]

theorem setSlice_idem (lib : Lib) (_hlib : lib.decodeIdempotent) (vals : List String)
    (ro : Bool) (e : GoType) (xs : Values) (f : StructField) :
    setSlice lib vals ro (setSlice lib vals ro (.slice e xs) f).1 f =
        setSlice lib vals ro (.slice e xs) f ∧
      (setSlice lib vals ro (.slice e xs) f).1.Kind = .Slice := by
  simp only [setSlice, Value.Type, MakeSlice, setArray]
  cases hr : setArrayLoop lib f false vals (Values.replicate vals.length (Zero e)) with
  | mk ys err =>
    cases err with
    | some p => simp [Value.Type, MakeSlice, setArray, hr, Value.Kind]
    | none =>
      cases ro <;> simp [Value.Set, Value.Type, MakeSlice, setArray, hr, Value.Kind]

theorem setDefault_slice (lib : Lib) (ro : Bool) (v : Value) (f : StructField) (d : String)
    (hk : v.Kind = .Slice) :
    setDefault lib ro v f ⟨true, d⟩ =
      ⟨(setSlice lib [d] ro v f).1, true, (setSlice lib [d] ro v f).2⟩ := by
  unfold setDefault
  simp only [Bool.not_true, Bool.false_eq_true, if_false, hk]

theorem setDefault_array (lib : Lib) (ro : Bool) (v : Value) (f : StructField) (d : String)
    (hk : v.Kind = .Array) :
    setDefault lib ro v f ⟨true, d⟩ =
      if [d].length ≠ v.Len then ⟨v, false, some (.error (.notValid [d] v.Type))⟩
      else ⟨(setArray lib [d] ro v f).1, true, (setArray lib [d] ro v f).2⟩ := by
  unfold setDefault
  simp only [Bool.not_true, Bool.false_eq_true, if_false, hk]

theorem setDefault_scalar (lib : Lib) (ro : Bool) (v : Value) (f : StructField) (d : String)
    (hs : v.Kind ≠ .Slice) (ha : v.Kind ≠ .Array) :
    setDefault lib ro v f ⟨true, d⟩ =
      ⟨(setWithProperType lib d ro v f).1, true, (setWithProperType lib d ro v f).2⟩ := by
  unfold setDefault
  simp only [Bool.not_true, Bool.false_eq_true, if_false]

theorem kind_slice (v : Value) (hs : v.Kind = .Slice) : ∃ e xs, v = .slice e xs := by
  cases v <;> simp [Value.Kind] at hs
  · rename_i k _; cases k <;> simp [IntKind.toKind] at hs
  · rename_i k _; cases k <;> simp [UintKind.toKind] at hs
  · rename_i k _; cases k <;> simp [FloatKind.toKind] at hs
  · rename_i k _; cases k <;> simp [OtherKind.toKind] at hs
  · exact ⟨_, _, rfl⟩

theorem setDefault_idem (lib : Lib) (hlib : lib.decodeIdempotent) (ro : Bool) (v : Value)
    (f : StructField) (opt : setOptions) :
    setDefault lib ro (setDefault lib ro v f opt).value f opt = setDefault lib ro v f opt ∧
      (setDefault lib ro v f opt).value.Kind = v.Kind := by
  obtain ⟨ex, d⟩ := opt
  cases ex with
  | false => simp [setDefault]
  | true =>
    by_cases hs : v.Kind = .Slice
    · obtain ⟨e, xs, rfl⟩ := kind_slice v hs
      obtain ⟨h1, h2⟩ := setSlice_idem lib hlib [d] ro e xs f
      rw [setDefault_slice _ _ _ _ _ hs]
      simp only
      rw [setDefault_slice _ _ _ _ _ h2, h1]
      exact ⟨rfl, h2.trans hs.symm⟩
    · by_cases ha : v.Kind = .Array
      · obtain ⟨h1, h2, h3⟩ := setArray_idem lib hlib [d] ro v f
        rw [setDefault_array _ _ _ _ _ ha]
        by_cases hl : [d].length ≠ v.Len
        · rw [if_pos hl]
          simp only
          rw [setDefault_array _ _ _ _ _ ha, if_pos hl]
          exact ⟨rfl, trivial⟩
        · rw [if_neg hl]
          simp only
          rw [setDefault_array _ _ _ _ _ (h2.trans ha), h3, if_neg hl, h1]
          exact ⟨rfl, h2⟩
      · obtain ⟨h1, h2⟩ := setWithProperType_idem lib hlib d ro v f
        rw [setDefault_scalar _ _ _ _ _ hs ha]
        simp only
        rw [setDefault_scalar _ _ _ _ _ (by rw [h2]; exact hs) (by rw [h2]; exact ha), h1]
        exact ⟨rfl, h2⟩

theorem tryToSetValue_idem (lib : Lib) (hlib : lib.decodeIdempotent) (ro : Bool) (v : Value)
    (f : StructField) (df : DefFunc) :
    tryToSetValue lib ro (tryToSetValue lib ro v f df).value f df =
        tryToSetValue lib ro v f df ∧
      (tryToSetValue lib ro v f df).value.Kind = v.Kind :=
  setDefault_idem lib hlib ro v f _

end FiberImpl

namespace FiberImpl

theorem setDefault_notSet_noDefault (lib : Lib) (ro : Bool) (v : Value) (f : StructField)
    (opt : setOptions) (hs : (setDefault lib ro v f opt).isSet = false)
    (he : (setDefault lib ro v f opt).err = none) : opt.isDefaultExists = false := by
  obtain ⟨ex, d⟩ := opt
  cases ex with
  | false => rfl
  | true =>
    exfalso
    by_cases hk : v.Kind = .Slice
    · rw [setDefault_slice _ _ _ _ _ hk] at hs
      simp at hs
    · by_cases ha : v.Kind = .Array
      · rw [setDefault_array _ _ _ _ _ ha] at hs he
        by_cases hl : [d].length ≠ v.Len
        · rw [if_pos hl] at he; simp at he
        · rw [if_neg hl] at hs; simp at hs
      · rw [setDefault_scalar _ _ _ _ _ hk ha] at hs
        simp at hs

theorem tryToSetValue_notSet_any (lib : Lib) (ro : Bool) (v w : Value) (f : StructField)
    (df : DefFunc) (h : tryToSetValue lib ro v f df = ⟨v, false, none⟩) :
    tryToSetValue lib ro w f df = ⟨w, false, none⟩ := by
  have hs : (tryToSetValue lib ro v f df).isSet = false := by rw [h]
  have he : (tryToSetValue lib ro v f df).err = none := by rw [h]
  have := setDefault_notSet_noDefault lib ro v f _ hs he
  unfold tryToSetValue
  cases hd : df.hasDefault f with
  | true => simp [hd] at this
  | false => simp [setDefault]

theorem fieldLoop_idem (visit : Bool → Value → StructField → Option Visit)
    (hv : VisitIdem visit) :
    ∀ (fs : Fields) (b : Bool) (R : FieldsVisit),
      fieldLoop visit fs b = some R → fieldLoop visit R.fields b = some R := by
  intro fs
  induction fs using Fields_induct with
  | hnil =>
    intro b R h
    rw [fieldLoop_nil] at h
    cases h
    rfl
  | hcons sf v rest ih =>
    intro b R h
    cases hskip : (sf.unexported && !sf.Anonymous) with
    | true =>
      rw [fieldLoop_cons_skip _ _ _ _ _ hskip] at h
      cases hr : fieldLoop visit rest b with
      | none => simp [hr] at h
      | some r =>
        simp only [hr, Option.map_some', Option.some.injEq] at h
        subst h
        simp only
        rw [fieldLoop_cons_skip _ _ _ _ _ hskip, ih b r hr]
        rfl
    | false =>
      rw [fieldLoop_cons_visit _ _ _ _ _ hskip] at h
      cases hvis : visit sf.unexported v sf with
      | none => simp [hvis] at h
      | some r0 =>
        have hidem := hv _ _ _ _ hvis
        obtain ⟨v1, ok, e⟩ := r0
        simp only at hidem
        cases e with
        | some err =>
          simp only [hvis, Option.some.injEq] at h
          subst h
          simp only
          rw [fieldLoop_cons_visit _ _ _ _ _ hskip, hidem]
        | none =>
          simp only [hvis] at h
          cases hr : fieldLoop visit rest (b || ok) with
          | none => simp [hr] at h
          | some r =>
            simp only [hr, Option.map_some', Option.some.injEq] at h
            subst h
            simp only
            rw [fieldLoop_cons_visit _ _ _ _ _ hskip, hidem]
            simp only
            rw [ih (b || ok) r hr]
            rfl

end FiberImpl

namespace FiberImpl

theorem mapping_idem (lib : Lib) (hlib : lib.decodeIdempotent) (decls : Decls)
    (df : DefFunc) : ∀ fuel, VisitIdem (mapping lib decls df fuel) := by
  intro fuel
  induction fuel with
  | zero => intro ro v f r h; simp [mapping_zero] at h
  | succ fuel ih =>
    intro ro v f r h
    cases hig : df.ignore f with
    | true =>
      rw [mapping_ignore _ _ _ _ _ _ _ hig] at h
      cases h
      exact mapping_ignore _ _ _ _ _ _ _ hig
    | false =>
      rcases v.ptr_cases with ⟨elem, rfl⟩ | ⟨elem, p, rfl⟩ | hk
      · have h0 := h
        rw [mapping_ptrNil _ _ _ _ _ _ _ hig] at h
        cases hm : mapping lib decls df fuel false (New decls elem) f with
        | none => simp [hm] at h
        | some r0 =>
          have hidem := ih _ _ _ _ hm
          obtain ⟨z, s, e⟩ := r0
          simp only at hidem
          cases e with
          | some err =>
            simp only [hm, Option.some.injEq] at h
            subst h
            exact h0
          | none =>
            cases s with
            | false =>
              simp only [hm, Bool.false_eq_true, if_false, Option.some.injEq] at h
              subst h
              exact h0
            | true =>
              cases ro with
              | true =>
                simp only [hm, if_true, Option.some.injEq] at h
                subst h
                exact h0
              | false =>
                simp only [hm, if_true, Bool.false_eq_true, if_false,
                  Option.some.injEq] at h
                subst h
                simp only
                rw [mapping_ptrTo _ _ _ _ _ _ _ _ hig, hidem]
      · rw [mapping_ptrTo _ _ _ _ _ _ _ _ hig] at h
        cases hm : mapping lib decls df fuel ro p f with
        | none => simp [hm] at h
        | some r0 =>
          have hidem := ih _ _ _ _ hm
          obtain ⟨p1, s, e⟩ := r0
          simp only at hidem
          cases e with
          | some err =>
            simp only [hm, Option.some.injEq] at h
            subst h
            simp only
            rw [mapping_ptrTo _ _ _ _ _ _ _ _ hig, hidem]
          | none =>
            simp only [hm, Option.some.injEq] at h
            subst h
            simp only
            rw [mapping_ptrTo _ _ _ _ _ _ _ _ hig, hidem]
      · have h0 := h
        rw [mapping_nonPtr _ _ _ _ _ _ _ hig hk _ rfl] at h
        generalize ht : (if v.Kind ≠ .Struct ∨ !f.Anonymous then
          tryToSetValue lib ro v f df else ⟨v, false, none⟩ : Visit) = t at h
        -- the direct assignment on the value it produced
        have hkind : t.value.Kind = v.Kind := by
          subst ht
          split
          · exact (tryToSetValue_idem lib hlib ro v f df).2
          · rfl
        have ht2 : (if t.value.Kind ≠ .Struct ∨ !f.Anonymous then
            tryToSetValue lib ro t.value f df else ⟨t.value, false, none⟩ : Visit) = t := by
          rw [hkind]
          subst ht
          split
          · exact (tryToSetValue_idem lib hlib ro v f df).1
          · rfl
        have hnotset : t.err = none → t.isSet = false → t = ⟨v, false, none⟩ := by
          intro he hs
          subst ht
          split
          · rename_i hc
            simp only [hc, if_true] at he hs
            exact tryToSetValue_notSet _ _ _ _ _ hs he
          · rfl
        have hm2 := mapping_nonPtr lib decls df fuel ro t.value f hig (by rw [hkind]; exact hk)
          t ht2
        obtain ⟨tv, ts, te⟩ := t
        cases te with
        | some err =>
          simp only [Option.some.injEq] at h
          subst h
          simp only at hm2 ⊢
          exact hm2
        | none =>
          cases ts with
          | true =>
            simp only [if_true, Option.some.injEq] at h
            subst h
            simp only at hm2 ⊢
            exact hm2
          | false =>
            have hv := hnotset rfl rfl
            simp only [Visit.mk.injEq, and_true] at hv
            subst hv
            simp only [Bool.false_eq_true, if_false] at h
            cases tv with
            | struct fields =>
              simp only at h
              cases hl : fieldLoop (mapping lib decls df fuel) fields false with
              | none => simp [hl] at h
              | some l =>
                have hli := fieldLoop_idem _ ih _ _ _ hl
                -- the direct assignment finds no default on the bound record either
                have ht3 : (if (Value.struct l.fields).Kind ≠ .Struct ∨ !f.Anonymous then
                    tryToSetValue lib ro (.struct l.fields) f df
                    else ⟨.struct l.fields, false, none⟩ : Visit) =
                    ⟨.struct l.fields, false, none⟩ := by
                  split
                  · rename_i hc
                    have hc2 : (Value.struct fields).Kind ≠ .Struct ∨ (!f.Anonymous) = true := hc
                    simp only [hc2, if_true] at ht
                    exact tryToSetValue_notSet_any lib ro _ _ f df ht
                  · rfl
                have hm3 := mapping_nonPtr lib decls df fuel ro (.struct l.fields) f hig
                  (by simp [Value.Kind]) _ ht3
                simp only [Bool.false_eq_true, if_false, hli] at hm3
                obtain ⟨lf, ls, le⟩ := l
                cases le with
                | some err =>
                  simp only [hl, Option.some.injEq] at h
                  subst h
                  simp only at hm3 ⊢
                  exact hm3
                | none =>
                  simp only [hl, Option.some.injEq] at h
                  subst h
                  simp only at hm3 ⊢
                  exact hm3
            | _ =>
              simp only [Option.some.injEq] at h
              subst h
              exact h0

end FiberImpl

namespace FiberImpl

theorem mapping_ptrTo_value (lib : Lib) (decls : Decls) (df : DefFunc) (fuel : Nat)
    (ro : Bool) (elem : PtrElem) (p : Value) (f : StructField) (r : Visit)
    (h : mapping lib decls df fuel ro (.ptrTo elem p) f = some r) :
    ∃ p1, r.value = .ptrTo elem p1 := by
  cases fuel with
  | zero => simp [mapping_zero] at h
  | succ fuel =>
    cases hig : df.ignore f with
    | true =>
      rw [mapping_ignore _ _ _ _ _ _ _ hig] at h
      cases h
      exact ⟨p, rfl⟩
    | false =>
      rw [mapping_ptrTo _ _ _ _ _ _ _ _ hig] at h
      cases hm : mapping lib decls df fuel ro p f with
      | none => simp [hm] at h
      | some r0 =>
        obtain ⟨p1, s, e⟩ := r0
        cases e <;> simp only [hm, Option.some.injEq] at h <;> subst h <;> exact ⟨p1, rfl⟩

theorem mapFormByTag_idem (lib : Lib) (hlib : lib.decodeIdempotent) (decls : Decls)
    (fuel : Nat) (df : DefFunc) (arg : AnyValue) (o : Outcome)
    (h : mapFormByTag lib decls fuel arg df = some o) :
    mapFormByTag lib decls fuel o.arg df = some o := by
  cases arg with
  | nil =>
    have : mapFormByTag lib decls fuel .nil df = some ⟨.nil, some panicNilType⟩ := rfl
    rw [this] at h
    cases h
    exact this
  | iface val =>
    have h0 := h
    rw [mapFormByTag_typed_argument] at h
    by_cases hc : val.Type.Kind = .Ptr ∧ val.IsNil = false ∧ findCoreType val.Type = .Struct
    · rw [if_pos hc] at h
      obtain ⟨elem, p, rfl⟩ : ∃ elem p, val = .ptrTo elem p := by
        rcases val.ptr_cases with ⟨elem, rfl⟩ | ⟨elem, p, rfl⟩ | hk
        · simp [Value.IsNil] at hc
        · exact ⟨_, _, rfl⟩
        · exfalso
          apply hk
          have := hc.1
          cases val <;> simp_all [Value.Type, Value.Kind, GoType.Kind]
      unfold mappingByPtr at h
      cases hm : mapping lib decls df fuel false (.ptrTo elem p) emptyField with
      | none => simp [hm] at h
      | some r =>
        simp only [hm, Option.map_some', Option.some.injEq] at h
        subst h
        obtain ⟨p1, hp1⟩ := mapping_ptrTo_value _ _ _ _ _ _ _ _ _ hm
        have hidem := mapping_idem lib hlib decls df fuel _ _ _ _ hm
        simp only
        rw [mapFormByTag_typed_argument]
        have hc2 : r.value.Type.Kind = .Ptr ∧ r.value.IsNil = false ∧
            findCoreType r.value.Type = .Struct := by
          rw [hp1]
          exact hc
        rw [if_pos hc2]
        unfold mappingByPtr
        rw [hidem]
        rfl
    · rw [if_neg hc] at h
      cases h
      exact h0

/-- C6: binding is idempotent at both entry points, for every argument and
every amount of fuel: when `MapDefault` (or `MapFormDefault`) returns, calling it
again on the argument it left returns the very same outcome, that is the same
state of the record and the same error.  The document decoder, which the
binder calls on structs and maps that declare a default of their own, is taken
to decode a document into its own result without change. -/
theorem binding_idempotent (lib : Lib) (hlib : lib.decodeIdempotent) (decls : Decls)
    (fuel : Nat) (arg : AnyValue) (o : Outcome) :
    (MapDefault lib decls fuel arg = some o → MapDefault lib decls fuel o.arg = some o) ∧
    (MapFormDefault lib decls fuel arg = some o →
      MapFormDefault lib decls fuel o.arg = some o) :=
  ⟨mapFormByTag_idem lib hlib decls fuel _ arg o, mapFormByTag_idem lib hlib decls fuel _ arg o⟩

/-- Binding the bound `User` again leaves it as the first binding of the zero
`User` left it. -/
theorem binding_idempotent_witness :
    Lib.rejecting.decodeIdempotent ∧
    MapDefault Lib.rejecting Decls.empty 3 (.iface (Zero User).Addr) =
      some ⟨.iface (Value.struct
        ((zeroFields userFields).leafDefaults (GetTagDefFunc "default"))).Addr, none⟩ ∧
    MapDefault Lib.rejecting Decls.empty 3 (.iface (Value.struct
        ((zeroFields userFields).leafDefaults (GetTagDefFunc "default"))).Addr) =
      some ⟨.iface (Value.struct
        ((zeroFields userFields).leafDefaults (GetTagDefFunc "default"))).Addr, none⟩ :=
  ⟨⟨fun _ _ => rfl, fun _ _ => rfl⟩, by decide,
    (binding_idempotent Lib.rejecting ⟨fun _ _ => rfl, fun _ _ => rfl⟩ Decls.empty 3
      (.iface (Zero User).Addr)
      ⟨.iface (Value.struct
        ((zeroFields userFields).leafDefaults (GetTagDefFunc "default"))).Addr, none⟩).1
      (by decide)⟩

end FiberImpl


namespace FiberImpl

/-! ## The embedded sub-key resolver (C11) -/

theorem stringsIndex_single (c : Char) (l : List Char) :
    match stringsIndex l [c] with
    | none => textBefore c l = l ∧ textAfter c l = []
    | some i => l.take i = textBefore c l ∧ l.drop (i + 1) = textAfter c l := by
  induction l with
  | nil => simp [stringsIndex, textBefore, textAfter]
  | cons a l ih =>
    by_cases h : a = c
    · subst h
      simp [stringsIndex, textBefore, textAfter, List.isPrefixOf]
    · have h2 : ¬ c = a := fun e => h e.symm
      simp only [stringsIndex, List.isPrefixOf, textBefore, textAfter, h]
      cases hi : stringsIndex l [c] with
      | none => simp [hi] at ih; simp [h2, ih]
      | some i => simp [hi] at ih; simp [h2, ih]

theorem head_single (s : String) (c : Char) :
    head s (String.mk [c]) = (String.mk (textBefore c s.data), String.mk (textAfter c s.data)) := by
  have h := stringsIndex_single c s.data
  unfold head
  cases hi : stringsIndex s.data [c] with
  | none => simp [hi] at h; simp [hi, h]
  | some i => simp [hi] at h; simp [hi, h]

theorem textAfter_length (c : Char) (l : List Char) : (textAfter c l).length ≤ l.length := by
  induction l with
  | nil => simp [textAfter]
  | cons a l ih =>
    by_cases h : a = c
    · simp [textAfter, h]
    · simp [textAfter, h]; omega

theorem commaSegments_eq (l : List Char) :
    commaSegments l = textBefore ',' l ::
      (if ',' ∈ l then commaSegments (textAfter ',' l) else []) := by
  induction l with
  | nil => simp [commaSegments, textBefore]
  | cons a l ih =>
    by_cases h : a = ','
    · subst h; simp [commaSegments, textBefore, textAfter]
    · have h2 : ¬ ',' = a := fun e => h e.symm
      simp [commaSegments, textBefore, textAfter, h, h2, ih]

theorem head_comma (s : String) :
    head s "," = (String.mk (textBefore ',' s.data), String.mk (textAfter ',' s.data)) :=
  head_single s ','

theorem head_equals (s : String) :
    head s "=" = (String.mk (textBefore '=' s.data), String.mk (textAfter '=' s.data)) :=
  head_single s '='

theorem textAfter_not_mem (c : Char) (l : List Char) (h : c ∉ l) : textAfter c l = [] := by
  induction l with
  | nil => rfl
  | cons a l ih =>
    simp only [List.mem_cons, not_or] at h
    have h2 : ¬ a = c := fun e => h.1 e.symm
    simp [textAfter, h2, ih h.2]

/-- The value the scan of the later segments finds. -/
theorem subTagLoop_segments (defKey : String) :
    ∀ (fuel : Nat) (opts : List Char), opts.length ≤ fuel →
      subTagLoop defKey fuel (String.mk opts) =
        match (commaSegments opts).find? (fun seg => textBefore '=' seg = defKey.data) with
        | some seg => String.mk (textAfter '=' seg)
        | none => "" := by
  intro fuel
  induction fuel with
  | zero =>
    intro opts h
    have : opts = [] := List.length_eq_zero.mp (Nat.le_zero.mp h)
    subst this
    by_cases hk : defKey.data = []
    · simp [subTagLoop, commaSegments, textBefore, textAfter, hk, eq_comm]
    · have hk2 : ¬ [] = defKey.data := fun e => hk e.symm
      simp [subTagLoop, commaSegments, textBefore, hk2]
  | succ n ih =>
    intro opts h
    cases opts with
    | nil =>
      by_cases hk : defKey.data = []
      · simp [subTagLoop, commaSegments, textBefore, textAfter, hk, eq_comm]
      · have hk2 : ¬ [] = defKey.data := fun e => hk e.symm
        simp [subTagLoop, commaSegments, textBefore, hk2]
    | cons a l =>
      rw [commaSegments_eq]
      simp only [subTagLoop, List.length_cons, Nat.zero_lt_succ, if_true, head_comma,
        head_equals, List.find?_cons]
      by_cases hk : textBefore '=' (textBefore ',' (a :: l)) = defKey.data
      · have hk2 : String.mk (textBefore '=' (textBefore ',' (a :: l))) = defKey := by
          rw [hk]
        simp [hk, hk2]
      · have hk2 : ¬ String.mk (textBefore '=' (textBefore ',' (a :: l))) = defKey := by
          intro e; apply hk; rw [← e]
        simp only [hk2, if_false, hk, decide_False]
        by_cases hc : ',' ∈ a :: l
        · simp only [hc, if_true]
          apply ih
          have := textAfter_length ',' l
          by_cases ha : a = ','
          · simp [textAfter, ha]; simpa using h
          · simp [textAfter, ha]
            simp at h; omega
        · simp only [hc, if_false, List.find?_nil]
          rw [textAfter_not_mem _ _ hc]
          cases n <;> simp [subTagLoop]

theorem subTagLoop_fuel (defKey : String) (fuel : Nat) (opts : String)
    (h : opts.data.length ≤ fuel) :
    subTagLoop defKey fuel opts = subTagLoop defKey opts.data.length opts := by
  have h1 := subTagLoop_segments defKey fuel opts.data h
  have h2 := subTagLoop_segments defKey opts.data.length opts.data (Nat.le_refl _)
  exact h1.trans h2.symm

theorem GetSubTagDefFunc_spec (tag defKey : String) (sf : StructField) :
    GetSubTagDefFunc tag defKey sf = subKeySpec (sf.Tag.Get tag) defKey := by
  unfold GetSubTagDefFunc subKeySpec
  rw [commaSegments_eq]
  simp only [head_comma]
  by_cases hl : textBefore ',' (sf.Tag.Get tag).data = []
  · simp [hl]
  · have hl2 : ¬ String.mk (textBefore ',' (sf.Tag.Get tag).data) = "" := by
      intro e; apply hl
      have := congrArg String.data e
      simpa using this
    simp only [hl2, if_false, hl]
    by_cases hc : ',' ∈ (sf.Tag.Get tag).data
    · simp only [hc, if_true]
      exact subTagLoop_segments defKey _ _ (Nat.le_refl _)
    · simp only [hc, if_false, List.find?_nil]
      rw [textAfter_not_mem _ _ hc]
      rfl

theorem commaSegments_no_comma (l : List Char) :
    ∀ seg ∈ commaSegments l, ',' ∉ seg := by
  induction l with
  | nil => simp [commaSegments]
  | cons a l ih =>
    by_cases h : a = ','
    · subst h
      simp only [commaSegments, if_true, List.mem_cons]
      rintro seg (rfl | hs)
      · simp
      · exact ih seg hs
    · simp only [commaSegments, h, if_false]
      cases hcs : commaSegments l with
      | nil => 
        have h2 : ¬ ',' = a := fun e => h e.symm
        simp [h2]
      | cons s ss =>
        rw [hcs] at ih
        simp only [List.mem_cons]
        rintro seg (rfl | hs)
        · have := ih s (by simp)
          have h2 : ¬ ',' = a := fun e => h e.symm
          simp [h2, this]
        · exact ih seg (by simp [hs])

theorem textAfter_subset (c x : Char) (l : List Char) (h : x ∈ textAfter c l) : x ∈ l := by
  induction l with
  | nil => simp [textAfter] at h
  | cons a l ih =>
    by_cases hc : a = c
    · simp [textAfter, hc] at h; simp [h]
    · simp [textAfter, hc] at h; simp [ih h]

theorem subKeySpec_no_comma (tagText key : String) : ',' ∉ (subKeySpec tagText key).data := by
  unfold subKeySpec
  cases hcs : commaSegments tagText.data with
  | nil => simp
  | cons lead later =>
    simp only
    by_cases hl : lead = []
    · simp [hl]
    · simp only [hl, if_false]
      cases hf : later.find? (fun seg => textBefore '=' seg = key.data) with
      | none => simp
      | some seg =>
        simp only
        intro hmem
        have hin : seg ∈ commaSegments tagText.data := by
          rw [hcs]; exact List.mem_cons_of_mem _ (List.mem_of_find?_eq_some hf)
        exact commaSegments_no_comma _ seg hin (textAfter_subset _ _ _ hmem)

/-- C11: the embedded sub-key resolver is the function the specification
describes, on every tag text and every key: empty when the leading comma
segment is empty, otherwise the text after the first `=` of the first later
segment whose text before its first `=` is the key, and empty when no later
segment is such or the segment has no `=`.  The rounds the loop is given are
enough (more rounds give the same result), the result never holds a comma, and
`name,default=X,omitempty` gives `X`, `name,default=a=b,omitempty` gives `a=b`,
`name,default` gives the empty text, as do `name,omitempty` and `,default=X`. -/
theorem subkey_resolver_spec :
    (∀ (tag defKey : String) (sf : StructField),
      GetSubTagDefFunc tag defKey sf = subKeySpec (sf.Tag.Get tag) defKey ∧
      ',' ∉ (GetSubTagDefFunc tag defKey sf).data) ∧
    (∀ (defKey opts : String) (fuel : Nat), opts.data.length ≤ fuel →
      subTagLoop defKey fuel opts = subTagLoop defKey opts.data.length opts) ∧
    GetSubTagDefFunc "form" "default" ⟨"F", "", [("form", "name,default=X,omitempty")], false⟩
      = "X" ∧
    GetSubTagDefFunc "form" "default" ⟨"F", "", [("form", "name,default=a=b,omitempty")], false⟩
      = "a=b" ∧
    GetSubTagDefFunc "form" "default" ⟨"F", "", [("form", "name,default")], false⟩ = "" ∧
    GetSubTagDefFunc "form" "default" ⟨"F", "", [("form", "name,omitempty")], false⟩ = "" ∧
    GetSubTagDefFunc "form" "default" ⟨"F", "", [("form", ",default=X")], false⟩ = "" := by
  refine ⟨fun tag defKey sf => ⟨GetSubTagDefFunc_spec tag defKey sf, ?_⟩,
    fun defKey opts fuel h => subTagLoop_fuel defKey fuel opts h, ?_, ?_, ?_, ?_, ?_⟩
  · rw [GetSubTagDefFunc_spec]; exact subKeySpec_no_comma _ _
  all_goals decide

end FiberImpl


namespace FiberImpl

/-! ## Integer conversion (C12) -/

theorem foldl_digits_ge (cs : List Char) :
    ∀ n : Nat, n ≤ cs.foldl (fun n c => 10 * n + (c.toNat - '0'.toNat)) n := by
  induction cs with
  | nil => intro n; simp
  | cons c cs ih =>
    intro n
    simp only [List.foldl_cons]
    exact Nat.le_trans (by omega) (ih _)

theorem parseUintLoop_spec (s0 : String) (maxVal : Nat) (hmax : maxVal < 2 ^ 64) :
    ∀ (cs : List Char) (n : Nat), n ≤ maxVal →
      ((parseUintLoop s0 ((2 ^ 64 - 1) / 10 + 1) maxVal cs n).2 = none ↔
        (cs.all isDigit = true ∧
          cs.foldl (fun n c => 10 * n + (c.toNat - '0'.toNat)) n ≤ maxVal)) ∧
      ((parseUintLoop s0 ((2 ^ 64 - 1) / 10 + 1) maxVal cs n).2 = none →
        (parseUintLoop s0 ((2 ^ 64 - 1) / 10 + 1) maxVal cs n).1 =
          cs.foldl (fun n c => 10 * n + (c.toNat - '0'.toNat)) n) ∧
      (∀ e, (parseUintLoop s0 ((2 ^ 64 - 1) / 10 + 1) maxVal cs n).2 = some e →
        e = syntaxError "ParseUint" s0 ∨
        (e = rangeError "ParseUint" s0 ∧
          (parseUintLoop s0 ((2 ^ 64 - 1) / 10 + 1) maxVal cs n).1 = maxVal)) := by
  intro cs
  induction cs with
  | nil =>
    intro n hn
    simp [parseUintLoop, hn]
  | cons c cs ih =>
    intro n hn
    have hcut : (2 ^ 64 - 1) / 10 + 1 = 1844674407370955162 := by norm_num
    have h64 : (2 : Nat) ^ 64 = 18446744073709551616 := by norm_num
    rw [hcut] at ih ⊢
    rw [h64] at hmax
    by_cases hd : '0' ≤ c ∧ c ≤ '9'
    · have hdig : isDigit c = true := by simp [isDigit, hd]
      by_cases h1 : n ≥ 1844674407370955162
      · have hge := foldl_digits_ge cs (10 * n + (c.toNat - '0'.toNat))
        have hnot : ¬ (cs.foldl (fun n c => 10 * n + (c.toNat - '0'.toNat))
            (10 * n + (c.toNat - '0'.toNat)) ≤ maxVal) := by omega
        simp [parseUintLoop, hd, h1]
        intro _ _
        simpa using hnot
      · by_cases h2 : n * 10 + (c.toNat - '0'.toNat) ≥ 2 ^ 64 ∨
            n * 10 + (c.toNat - '0'.toNat) > maxVal
        · have hge := foldl_digits_ge cs (10 * n + (c.toNat - '0'.toNat))
          have hnot : ¬ (cs.foldl (fun n c => 10 * n + (c.toNat - '0'.toNat))
              (10 * n + (c.toNat - '0'.toNat)) ≤ maxVal) := by
            rw [h64] at h2; omega
          simp only [parseUintLoop, hd, h1, h2, if_true, if_false, and_self]
          simp
          intro _ _
          simpa using hnot
        · have hle : n * 10 + (c.toNat - '0'.toNat) ≤ maxVal := by
            rw [h64] at h2; omega
          have := ih (n * 10 + (c.toNat - '0'.toNat)) hle
          have hcomm : 10 * n + (c.toNat - '0'.toNat) = n * 10 + (c.toNat - '0'.toNat) := by
            omega
          simp only [parseUintLoop, hd, h1, h2, if_true, if_false, and_self, List.all_cons,
            hdig, Bool.true_and, List.foldl_cons, hcomm]
          exact this
    · have hdig : isDigit c = false := by simp [isDigit, hd]
      simp [parseUintLoop, hd, hdig]

theorem ParseUint_spec (s : String) (bitSize : Nat)
    (hB : (if bitSize = 0 then IntSize else bitSize) ≤ 64) :
    ((ParseUint s bitSize).2 = none ↔
      (isUnsignedNumeral s = true ∧
        unsignedValue s ≤ 2 ^ (if bitSize = 0 then IntSize else bitSize) - 1)) ∧
    ((ParseUint s bitSize).2 = none → (ParseUint s bitSize).1 = unsignedValue s) ∧
    (∀ e, (ParseUint s bitSize).2 = some e →
      e = syntaxError "ParseUint" s ∨
      (e = rangeError "ParseUint" s ∧
        (ParseUint s bitSize).1 = 2 ^ (if bitSize = 0 then IntSize else bitSize) - 1)) := by
  generalize hBdef : (if bitSize = 0 then IntSize else bitSize) = B at hB
  have hmax : 2 ^ B - 1 < 2 ^ 64 := by
    have h1 : 2 ^ B ≤ 2 ^ 64 := Nat.pow_le_pow_right (by norm_num) hB
    have h2 : 0 < 2 ^ B := Nat.pow_pos (by norm_num)
    omega
  by_cases hs : s = ""
  · subst hs
    simp [ParseUint, isUnsignedNumeral, isDigits]
  · have hne : s.data ≠ [] := by
      intro e; apply hs
      cases s; simp_all
    have hsp := parseUintLoop_spec s (2 ^ B - 1) hmax s.data 0 (Nat.zero_le _)
    have hemp : s.data.isEmpty = false := by
      cases h : s.data with
      | nil => exact absurd h hne
      | cons _ _ => rfl
    simp only [ParseUint, hs, if_false, hBdef, isUnsignedNumeral, isDigits, hemp, Bool.not_false,
      Bool.true_and, unsignedValue, digitsValue]
    exact hsp

theorem ParseInt_of_ParseUint (s : String) (bitSize : Nat) (c : Char) (cs : List Char)
    (hs : s.data = c :: cs) (un : Nat) (e : Option GoError)
    (hu : ParseUint (String.mk (if c = '+' ∨ c = '-' then cs else c :: cs)) bitSize = (un, e)) :
    ParseInt s bitSize =
      match e with
      | some (.numError _ _ .ErrSyntax) => (0, some (syntaxError "ParseInt" s))
      | _ =>
        if ¬ c = '-' ∧ un ≥ 2 ^ ((if bitSize = 0 then IntSize else bitSize) - 1) then
          (((2 ^ ((if bitSize = 0 then IntSize else bitSize) - 1) : Nat) : Int) - 1,
            some (rangeError "ParseInt" s))
        else if c = '-' ∧ un > 2 ^ ((if bitSize = 0 then IntSize else bitSize) - 1) then
          (-((2 ^ ((if bitSize = 0 then IntSize else bitSize) - 1) : Nat) : Int),
            some (rangeError "ParseInt" s))
        else (if c = '-' then -(un : Int) else (un : Int), none) := by
  unfold ParseInt
  simp only [hs, hu]
  cases e with
  | none => simp
  | some err =>
    cases err with
    | numError fn num k => cases k <;> simp
    | _ => simp

theorem ParseInt_spec (s : String) (bitSize : Nat)
    (hB2 : 2 ≤ (if bitSize = 0 then IntSize else bitSize))
    (hB : (if bitSize = 0 then IntSize else bitSize) ≤ 64) :
    ((ParseInt s bitSize).2 = none ↔
      (isSignedNumeral s = true ∧
        -(2 ^ ((if bitSize = 0 then IntSize else bitSize) - 1) : Int) ≤ signedValue s ∧
        signedValue s ≤ 2 ^ ((if bitSize = 0 then IntSize else bitSize) - 1) - 1)) ∧
    ((ParseInt s bitSize).2 = none → (ParseInt s bitSize).1 = signedValue s) := by
  cases hs : s.data with
  | nil =>
    simp [ParseInt, hs, isSignedNumeral]
  | cons c cs =>
    have hsp := ParseUint_spec (String.mk (if c = '+' ∨ c = '-' then cs else c :: cs)) bitSize hB
    cases hu : ParseUint (String.mk (if c = '+' ∨ c = '-' then cs else c :: cs)) bitSize with
    | mk un e =>
      rw [ParseInt_of_ParseUint s bitSize c cs hs un e hu]
      rw [hu] at hsp
      generalize hBdef : (if bitSize = 0 then IntSize else bitSize) = B at hB hB2 hsp ⊢
      have hcast : ((2 : Int) ^ (B - 1)) = ((2 ^ (B - 1) : Nat) : Int) := by simp
      rw [hcast]
      have hpow : 2 ^ B = 2 * 2 ^ (B - 1) := by
        obtain ⟨k, rfl⟩ : ∃ k, B = k + 1 := ⟨B - 1, by omega⟩
        simp [pow_succ, mul_comm]
      have hP : 2 ≤ 2 ^ (B - 1) := by
        obtain ⟨k, rfl⟩ : ∃ k, B = k + 2 := ⟨B - 2, by omega⟩
        have : 0 < 2 ^ k := Nat.pow_pos (by norm_num)
        simp [pow_succ]; omega
      rw [hpow] at hsp
      generalize (2 ^ (B - 1) : Nat) = P at hsp hP ⊢
      have hnum : isSignedNumeral s = isDigits (if c = '+' ∨ c = '-' then cs else c :: cs) := by
        simp only [isSignedNumeral, hs]
        split <;> rfl
      have hval : signedValue s =
          if c = '-' then -(digitsValue (if c = '+' ∨ c = '-' then cs else c :: cs) : Int)
          else (digitsValue (if c = '+' ∨ c = '-' then cs else c :: cs) : Int) := by
        simp only [signedValue, hs]
        by_cases h1 : c = '-'
        · simp [h1]
        · by_cases h2 : c = '+'
          · simp [h2]
          · simp [h1, h2]
      rw [hnum, hval]
      simp only [isUnsignedNumeral, unsignedValue] at hsp
      generalize digitsValue (if c = '+' ∨ c = '-' then cs else c :: cs) = V at hsp ⊢
      generalize isDigits (if c = '+' ∨ c = '-' then cs else c :: cs) = D at hsp ⊢
      obtain ⟨h1, h2, h3⟩ := hsp
      cases e with
      | none =>
        simp only [true_iff] at h1
        have hv := h2 rfl
        simp only at hv
        subst hv
        obtain ⟨hD, hV⟩ := h1
        by_cases hneg : c = '-'
        · by_cases hc : un > P
          · simp [hneg, hc, hD]; try omega
          · simp [hneg, hc, hD]; try omega
        · by_cases hc : un ≥ P
          · simp [hneg, hc, hD]; try omega
          · simp [hneg, hc, hD]; try omega
      | some err =>
        have hno : ¬ (D = true ∧ V ≤ 2 * P - 1) := by
          intro h; have := h1.mpr h; simp at this
        have hfalse : ¬ (D = true ∧ (-(P : Int) ≤ if c = '-' then -(V : Int) else (V : Int)) ∧
            (if c = '-' then -(V : Int) else (V : Int)) ≤ (P : Int) - 1) := by
          rintro ⟨hD, hl, hr⟩
          apply hno
          refine ⟨hD, ?_⟩
          by_cases hneg : c = '-'
          · simp only [hneg, if_true] at hl hr; omega
          · simp only [hneg, if_false] at hl hr; omega
        rcases h3 err rfl with he | ⟨he, hun⟩
        · subst he
          try simp only [syntaxError]
          exact ⟨⟨fun h => by simp at h, fun h => absurd h hfalse⟩, fun h => by simp at h⟩
        · subst he
          subst hun
          try simp only [rangeError]
          by_cases hneg : c = '-'
          · have hc : 2 * P - 1 > P := by omega
            simp only [hneg, hc, not_true_eq_false, false_and, if_false, and_self, if_true]
              at hfalse ⊢
            exact ⟨⟨fun h => by simp at h, fun h => absurd h hfalse⟩, fun h => by simp at h⟩
          · have hc : 2 * P - 1 ≥ P := by omega
            simp only [hneg, hc, not_false_eq_true, and_self, if_true, if_false] at hfalse ⊢
            exact ⟨⟨fun h => by simp at h, fun h => absurd h hfalse⟩, fun h => by simp at h⟩

theorem setWithProperType_int_any (lib : Lib) (val : String) (k : IntKind) (i : Int)
    (field : StructField) :
    setWithProperType lib val false (.int k i) field =
      match ParseInt (if val = "" then "0" else val) k.bitSize with
      | (n, none) => (.int k (wrapInt k.bits n), none)
      | (_, some err) => (.int k i, some (.error err)) := by
  cases k <;> simp only [setWithProperType, Value.Kind, IntKind.toKind, setIntField,
    IntKind.bitSize, Value.SetInt, Bool.false_eq_true, if_false] <;> split <;> simp_all

theorem setWithProperType_uint_any (lib : Lib) (val : String) (k : UintKind) (i : Nat)
    (field : StructField) :
    setWithProperType lib val false (.uint k i) field =
      match ParseUint (if val = "" then "0" else val) k.bitSize with
      | (n, none) => (.uint k (n % 2 ^ k.bits), none)
      | (_, some err) => (.uint k i, some (.error err)) := by
  cases k <;> simp only [setWithProperType, Value.Kind, UintKind.toKind, setUintField,
    UintKind.bitSize, Value.SetUint, Bool.false_eq_true, if_false] <;> split <;> simp_all

theorem IntKind_bits_bounds (k : IntKind) : 2 ≤ k.bits ∧ k.bits ≤ 64 := by
  cases k <;> simp [IntKind.bits, IntSize]

theorem UintKind_bits_bounds (k : UintKind) : 2 ≤ k.bits ∧ k.bits ≤ 64 := by
  cases k <;> simp [UintKind.bits, IntSize]

theorem signed_conversion (lib : Lib) (s : String) (field : StructField) (k : IntKind)
    (old : Int) :
    ((setWithProperType lib s false (.int k old) field).2 = none ↔
      (s = "" ∨ (isSignedNumeral s = true ∧ -(2 ^ (k.bits - 1) : Int) ≤ signedValue s ∧
        signedValue s ≤ 2 ^ (k.bits - 1) - 1))) ∧
    ((setWithProperType lib s false (.int k old) field).2 = none →
      (setWithProperType lib s false (.int k old) field).1 = .int k (signedValue s)) ∧
    ((setWithProperType lib s false (.int k old) field).2 ≠ none →
      (setWithProperType lib s false (.int k old) field).1 = .int k old ∧
      ∃ e, (setWithProperType lib s false (.int k old) field).2 = some (.error e)) := by
  rw [setWithProperType_int_any]
  have hb := IntKind_bits_bounds k
  by_cases hs : s = ""
  · subst hs
    have h0 : ParseInt "0" k.bitSize = (0, none) := by cases k <;> decide
    have hw : wrapInt k.bits 0 = 0 := by cases k <;> decide
    simp only [if_true, h0, hw, true_or, iff_true, ne_eq, not_true_eq_false, false_imp_iff,
      and_true, true_and]
    intro _; rfl
  · have hsp := ParseInt_spec s k.bitSize (by rw [← IntKind_bits_eq]; exact hb.1)
      (by rw [← IntKind_bits_eq]; exact hb.2)
    rw [← IntKind_bits_eq] at hsp
    simp only [hs, if_false, false_or]
    cases hp : ParseInt s k.bitSize with
    | mk n e =>
      rw [hp] at hsp
      cases e with
      | none =>
        obtain ⟨h1, h2⟩ := hsp
        have hr := h1.mp rfl
        have hn : n = signedValue s := h2 rfl
        subst hn
        have hw : wrapInt k.bits (signedValue s) = signedValue s := by
          apply wrapInt_id _ (by omega)
          · exact hr.2.1
          · have := hr.2.2; omega
        simp only [hw, true_iff, ne_eq, not_true_eq_false, false_imp_iff, and_true,
          forall_const]
        exact hr
      | some err =>
        obtain ⟨h1, _⟩ := hsp
        simp only [reduceCtorEq, false_iff, false_imp_iff, ne_eq, not_false_eq_true, true_imp_iff,
          true_and, Option.some.injEq, Fault.error.injEq, exists_eq', and_true]
        intro h
        have := h1.mpr h
        simp at this

theorem unsigned_conversion (lib : Lib) (s : String) (field : StructField) (k : UintKind)
    (old : Nat) :
    ((setWithProperType lib s false (.uint k old) field).2 = none ↔
      (s = "" ∨ (isUnsignedNumeral s = true ∧ unsignedValue s ≤ 2 ^ k.bits - 1))) ∧
    ((setWithProperType lib s false (.uint k old) field).2 = none →
      (setWithProperType lib s false (.uint k old) field).1 = .uint k (unsignedValue s)) ∧
    ((setWithProperType lib s false (.uint k old) field).2 ≠ none →
      (setWithProperType lib s false (.uint k old) field).1 = .uint k old ∧
      ∃ e, (setWithProperType lib s false (.uint k old) field).2 = some (.error e)) := by
  rw [setWithProperType_uint_any]
  have hb := UintKind_bits_bounds k
  by_cases hs : s = ""
  · subst hs
    have h0 : ParseUint "0" k.bitSize = (0, none) := by cases k <;> decide
    simp only [if_true, h0, Nat.zero_mod, true_or, iff_true, ne_eq, not_true_eq_false,
      false_imp_iff, and_true, true_and]
    intro _; rfl
  · have hsp := ParseUint_spec s k.bitSize (by rw [← UintKind_bits_eq]; exact hb.2)
    rw [← UintKind_bits_eq] at hsp
    simp only [hs, if_false, false_or]
    cases hp : ParseUint s k.bitSize with
    | mk n e =>
      rw [hp] at hsp
      cases e with
      | none =>
        obtain ⟨h1, h2, _⟩ := hsp
        have hr := h1.mp rfl
        have hn : n = unsignedValue s := h2 rfl
        subst hn
        have hpos : 0 < 2 ^ k.bits := Nat.pow_pos (by norm_num)
        have hw : unsignedValue s % 2 ^ k.bits = unsignedValue s :=
          Nat.mod_eq_of_lt (by have := hr.2; omega)
        simp only [hw, true_iff, ne_eq, not_true_eq_false, false_imp_iff, and_true,
          forall_const]
        exact hr
      | some err =>
        obtain ⟨h1, _⟩ := hsp
        simp only [reduceCtorEq, false_iff, false_imp_iff, ne_eq, not_false_eq_true, true_imp_iff,
          true_and, Option.some.injEq, Fault.error.injEq, exists_eq', and_true]
        intro h
        have := h1.mpr h
        simp at this

/-- C12: integer conversion is bit-width aware.  For a settable signed field of
width `N` (8, 16, 32, 64, and `int`, which is 64 bits wide here) and every text,
the converter succeeds exactly when the text is empty or an optionally signed
base-10 numeral whose value lies in `[-2^(N-1), 2^(N-1)-1]`, and the field then
holds that value, `0` for the empty text; for an unsigned field of width `N`,
exactly when the text is empty or an unsigned base-10 numeral whose value lies
in `[0, 2^N-1]`.  On every failure the result is an error, not a panic, and the
field keeps its previous value. -/
theorem integer_conversion_width_aware (lib : Lib) (s : String) (field : StructField) :
    (∀ (k : IntKind) (old : Int),
      ((setWithProperType lib s false (.int k old) field).2 = none ↔
        (s = "" ∨ (isSignedNumeral s = true ∧ -(2 ^ (k.bits - 1) : Int) ≤ signedValue s ∧
          signedValue s ≤ 2 ^ (k.bits - 1) - 1))) ∧
      ((setWithProperType lib s false (.int k old) field).2 = none →
        (setWithProperType lib s false (.int k old) field).1 = .int k (signedValue s)) ∧
      ((setWithProperType lib s false (.int k old) field).2 ≠ none →
        (setWithProperType lib s false (.int k old) field).1 = .int k old ∧
        ∃ e, (setWithProperType lib s false (.int k old) field).2 = some (.error e))) ∧
    (∀ (k : UintKind) (old : Nat),
      ((setWithProperType lib s false (.uint k old) field).2 = none ↔
        (s = "" ∨ (isUnsignedNumeral s = true ∧ unsignedValue s ≤ 2 ^ k.bits - 1))) ∧
      ((setWithProperType lib s false (.uint k old) field).2 = none →
        (setWithProperType lib s false (.uint k old) field).1 = .uint k (unsignedValue s)) ∧
      ((setWithProperType lib s false (.uint k old) field).2 ≠ none →
        (setWithProperType lib s false (.uint k old) field).1 = .uint k old ∧
        ∃ e, (setWithProperType lib s false (.uint k old) field).2 = some (.error e))) ∧
    signedValue "" = 0 ∧ unsignedValue "" = 0 ∧
    signedValue "-128" = -128 ∧ isSignedNumeral "-128" = true ∧
    setWithProperType lib "-128" false (.int .Int8 5) field = (.int .Int8 (-128), none) ∧
    (setWithProperType lib "128" false (.int .Int8 5) field).1 = .int .Int8 5 ∧
    setWithProperType lib "255" false (.uint .Uint8 5) field = (.uint .Uint8 255, none) ∧
    (setWithProperType lib "256" false (.uint .Uint8 5) field).1 = .uint .Uint8 5 :=
  ⟨fun k old => signed_conversion lib s field k old,
    fun k old => unsigned_conversion lib s field k old,
    by decide, by decide, by decide, by decide, by rfl, by rfl, by rfl, by rfl⟩

end FiberImpl


namespace FiberImpl

/-! ## Epoch defaults (C13) -/

theorem setWithProperType_time (lib : Lib) (s : String) (old : Time) (field : StructField) :
    setWithProperType lib s false (.time old) field = setTimeField lib s field false (.time old) := by
  simp [setWithProperType, Value.Kind]

theorem tmod_facts (a d : Int) (hd : 0 < d) :
    d * a.tdiv d + a.tmod d = a ∧ -d < a.tmod d ∧ a.tmod d < d ∧
    (0 ≤ a → 0 ≤ a.tmod d) ∧ (a ≤ 0 → a.tmod d ≤ 0) := by
  refine ⟨Int.tdiv_add_tmod a d, ?_, Int.tmod_lt_of_pos a hd, fun h => Int.tmod_nonneg d h, ?_⟩
  · rcases Int.le_total 0 a with h | h
    · have := Int.tmod_nonneg d h; omega
    · have h1 : (-a).tmod d < d := Int.tmod_lt_of_pos (-a) hd
      have h2 : (-a).tmod d = -(a.tmod d) := by
        rw [Int.tmod_def, Int.tmod_def, Int.neg_tdiv]; ring
      omega
  · intro h
    have h1 : 0 ≤ (-a).tmod d := Int.tmod_nonneg d (by omega)
    have h2 : (-a).tmod d = -(a.tmod d) := by
      rw [Int.tmod_def, Int.tmod_def, Int.neg_tdiv]; ring
    omega

theorem Time_Unix_nano (n : Int) :
    Time.Unix (n.tdiv Second) (n.tmod Second) =
      ⟨n / 1000000000, n % 1000000000, .Local⟩ := by
  obtain ⟨h1, h2, h3, h4, h5⟩ := tmod_facts n 1000000000 (by norm_num)
  unfold Time.Unix Second
  by_cases hneg : n.tmod 1000000000 < 0
  · obtain ⟨g1, g2, g3, g4, g5⟩ := tmod_facts (n.tmod 1000000000) 1000000000 (by norm_num)
    have hq : (n.tmod 1000000000).tdiv 1000000000 = 0 := by
      have := g5 (by omega); omega
    simp only [hneg, true_or, if_true, hq, add_zero, zero_mul, sub_zero]
    congr 1 <;> omega
  · have h6 : ¬ (n.tmod 1000000000 < 0 ∨ n.tmod 1000000000 ≥ 1000000000) := by omega
    simp only [h6, if_false]
    congr 1 <;> omega

theorem setTimeField_epoch (lib : Lib) (s : String) (field : StructField) (old : Time)
    (hfmt : lib.toLower (field.Tag.Get "time_format") = "unix" ∨
      lib.toLower (field.Tag.Get "time_format") = "unixnano")
    (hne : field.Tag.Get "time_format" ≠ "") :
    setTimeField lib s field false (.time old) =
      match ParseInt s 64 with
      | (_, some err) => (.time old, some (.error err))
      | (tv, none) =>
        (.time (Time.Unix
          (tv.tdiv (if lib.toLower (field.Tag.Get "time_format") = "unixnano" then Second else 1))
          (tv.tmod (if lib.toLower (field.Tag.Get "time_format") = "unixnano" then Second
            else 1))), none) := by
  unfold setTimeField
  simp only [hne, if_false, hfmt, if_true, Value.Set, Bool.false_eq_true]
  try (cases hp : ParseInt s 64 with
    | mk n e => cases e <;> rfl)

/-- C13: epoch defaults are converted exactly.  For a settable calendar-time
field and a default that is an optionally signed base-10 numeral of a 64-bit
value `n`: with `time_format` `unix` the field is bound to second `n` after
the epoch with zero nanoseconds; with `unixnano` to second `n / 10^9`
(rounded down) and nanosecond `n mod 10^9` (in `[0, 10^9)`), which recombine
to `n`, for negative `n` too.  Whatever the default text, two fields with the
same epoch `time_format` get the same result, so the annotations `time_utc`
and `time_location` play no part. -/
theorem epoch_defaults_exact (lib : Lib) (s : String) (field : StructField) (old : Time)
    (hunix : lib.toLower "unix" = "unix") (hnano : lib.toLower "unixnano" = "unixnano")
    (hnum : isSignedNumeral s = true) (hlo : -(2 ^ 63 : Int) ≤ signedValue s)
    (hhi : signedValue s ≤ 2 ^ 63 - 1) :
    (field.Tag.Get "time_format" = "unix" →
      setWithProperType lib s false (.time old) field =
        (.time ⟨signedValue s, 0, .Local⟩, none)) ∧
    (field.Tag.Get "time_format" = "unixnano" →
      setWithProperType lib s false (.time old) field =
        (.time ⟨signedValue s / 1000000000, signedValue s % 1000000000, .Local⟩, none) ∧
      (signedValue s / 1000000000) * 1000000000 + signedValue s % 1000000000 = signedValue s ∧
      0 ≤ signedValue s % 1000000000 ∧ signedValue s % 1000000000 < 1000000000) ∧
    (∀ (text : String) (other : StructField),
      other.Tag.Get "time_format" = field.Tag.Get "time_format" →
      (field.Tag.Get "time_format" = "unix" ∨ field.Tag.Get "time_format" = "unixnano") →
      setWithProperType lib text false (.time old) other =
        setWithProperType lib text false (.time old) field) := by
  have hp : ParseInt s 64 = (signedValue s, none) := by
    have hsp := ParseInt_spec s 64 (by decide) (by decide)
    have hok : (ParseInt s 64).2 = none := hsp.1.mpr ⟨hnum, by simpa using hlo, by simpa using hhi⟩
    have hv := hsp.2 hok
    cases h : ParseInt s 64 with
    | mk n e =>
      rw [h] at hok hv
      simp only at hok hv
      rw [hok, hv]
  refine ⟨?_, ?_, ?_⟩
  · intro hf
    rw [setWithProperType_time, setTimeField_epoch lib s field old (by rw [hf]; exact Or.inl hunix)
      (by rw [hf]; decide), hp, hf, hunix]
    simp [Time.Unix]
  · intro hf
    refine ⟨?_, ?_, ?_, ?_⟩
    · rw [setWithProperType_time, setTimeField_epoch lib s field old
        (by rw [hf]; exact Or.inr hnano) (by rw [hf]; decide), hp, hf, hnano]
      simp only [if_true, Time_Unix_nano]
    · omega
    · omega
    · omega
  · intro text other hsame hf
    have h1 : lib.toLower (field.Tag.Get "time_format") = "unix" ∨
        lib.toLower (field.Tag.Get "time_format") = "unixnano" := by
      rcases hf with hf | hf
      · rw [hf]; exact Or.inl hunix
      · rw [hf]; exact Or.inr hnano
    have h2 : field.Tag.Get "time_format" ≠ "" := by
      rcases hf with hf | hf <;> rw [hf] <;> decide
    rw [setWithProperType_time, setWithProperType_time,
      setTimeField_epoch lib text field old h1 h2,
      setTimeField_epoch lib text other old (by rw [hsame]; exact h1) (by rw [hsame]; exact h2),
      hsame]

/-- The default `1700000000` with `time_format:"unix"` binds to
2023-11-14T22:13:20Z, and the default `-1` with `time_format:"unixnano"` to the
last nanosecond before the epoch. -/
theorem epoch_defaults_exact_witness :
    civilSeconds 2023 11 14 22 13 20 = 1700000000 ∧
    setWithProperType Lib.rejecting "1700000000" false (.time Time.zero)
        ⟨"At", "", [("default", "1700000000"), ("time_format", "unix")], false⟩ =
      (.time ⟨signedValue "1700000000", 0, .Local⟩, none) ∧
    signedValue "1700000000" = 1700000000 ∧
    setWithProperType Lib.rejecting "-1" false (.time Time.zero)
        ⟨"At", "", [("default", "-1"), ("time_format", "unixnano")], false⟩ =
      (.time ⟨-1, 999999999, .Local⟩, none) :=
  ⟨by decide,
    (epoch_defaults_exact Lib.rejecting "1700000000"
      ⟨"At", "", [("default", "1700000000"), ("time_format", "unix")], false⟩ Time.zero
      (by decide) (by decide) (by decide) (by decide) (by decide)).1 (by decide),
    by decide, by decide⟩

end FiberImpl


namespace FiberImpl

/-! ## Unexported and embedded fields (C14) -/

theorem mapping_struct_descend (lib : Lib) (decls : Decls) (df : DefFunc) (fuel : Nat)
    (ro : Bool) (fs : Fields) (f : StructField) (hig : df.ignore f = false)
    (h : f.Anonymous = true ∨ df.hasDefault f = false) :
    mapping lib decls df (fuel + 1) ro (.struct fs) f =
      (fieldLoop (mapping lib decls df fuel) fs false).map Visit.ofLoop := by
  have hr : (if (Value.struct fs).Kind ≠ .Struct ∨ !f.Anonymous then
      tryToSetValue lib ro (.struct fs) f df else ⟨.struct fs, false, none⟩ : Visit) =
      ⟨.struct fs, false, none⟩ := by
    by_cases ha : f.Anonymous = true
    · simp [Value.Kind, ha]
    · have hd : df.hasDefault f = false := by
        rcases h with h | h
        · exact absurd h ha
        · exact h
      simp [Value.Kind, tryToSetValue_noDefault _ _ _ _ _ hd]
  rw [mapping_nonPtr lib decls df fuel ro (.struct fs) f hig (by simp [Value.Kind]) _ hr]
  simp only [Bool.false_eq_true, if_false]
  cases fieldLoop (mapping lib decls df fuel) fs false with
  | none => rfl
  | some l =>
    obtain ⟨lf, ls, le⟩ := l
    cases le <;> rfl

theorem keepsPrivate_refl : ∀ fs : Fields, fs.keepsPrivate fs = true := by
  intro fs
  induction fs using Fields_induct with
  | hnil => rfl
  | hcons sf v rest ih => simp [Fields.keepsPrivate, ih]

theorem fieldLoop_keepsPrivate (visit : Bool → Value → StructField → Option Visit) :
    ∀ (fs : Fields) (b : Bool) (r : FieldsVisit),
      fieldLoop visit fs b = some r → fs.keepsPrivate r.fields = true := by
  intro fs
  induction fs using Fields_induct with
  | hnil => intro b r h; simp [fieldLoop] at h; subst h; rfl
  | hcons sf v rest ih =>
    intro b r h
    cases hskip : (sf.unexported && !sf.Anonymous) with
    | true =>
      rw [fieldLoop_cons_skip _ _ _ _ _ hskip] at h
      cases hr : fieldLoop visit rest b with
      | none => simp [hr] at h
      | some r1 =>
        simp [hr] at h
        subst h
        simp [Fields.keepsPrivate, ih b r1 hr]
    | false =>
      rw [fieldLoop_cons_visit _ _ _ _ _ hskip] at h
      cases hvis : visit sf.unexported v sf with
      | none => simp [hvis] at h
      | some x =>
        obtain ⟨v1, ok, e⟩ := x
        cases e with
        | some err =>
          simp [hvis] at h
          subst h
          simp [Fields.keepsPrivate, hskip, keepsPrivate_refl]
        | none =>
          simp only [hvis] at h
          cases hr : fieldLoop visit rest (b || ok) with
          | none => simp [hr] at h
          | some r1 =>
            simp [hr] at h
            subst h
            simp [Fields.keepsPrivate, hskip, ih _ r1 hr]

theorem ofLoop_value (l : FieldsVisit) : (Visit.ofLoop l).value = .struct l.fields := by
  obtain ⟨lf, ls, le⟩ := l
  cases le <;> rfl

/-- Binding the record `fs` through its address, for a resolver that finds
nothing on the root descriptor: two calls of `mapping` lead to the field loop. -/
theorem mapFormByTag_root_record (lib : Lib) (decls : Decls) (df : DefFunc) (fuel : Nat)
    (fs : Fields) (hroot : df emptyField = "") :
    mapFormByTag lib decls (fuel + 2) (.iface (Value.struct fs).Addr) df =
      (fieldLoop (mapping lib decls df fuel) fs false).map
        (fun l => ⟨.iface (.ptrTo (.inline (Value.struct fs).Type) (.struct l.fields)),
          (Visit.ofLoop l).err⟩) := by
  have hig : df.ignore emptyField = false := by simp [DefFunc.ignore, hroot]
  have hd : df.hasDefault emptyField = false := by simp [DefFunc.hasDefault, hroot]
  rw [mapFormByTag_addr _ _ _ _ _ (by simp [Value.Type, findCoreType, GoType.Kind])]
  simp only [Value.Addr]
  rw [mapping_ptrTo _ _ _ _ _ _ _ _ hig, mapping_struct_descend _ _ _ _ _ _ _ hig (Or.inr hd)]
  cases fieldLoop (mapping lib decls df fuel) fs false with
  | none => rfl
  | some l =>
    obtain ⟨lf, ls, le⟩ := l
    cases le <;> rfl

theorem mapFormByTag_keepsPrivate (lib : Lib) (decls : Decls) (df : DefFunc)
    (hroot : df emptyField = "") (fs : Fields) (n : Nat) (out : Outcome)
    (h : mapFormByTag lib decls n (.iface (Value.struct fs).Addr) df = some out) :
    ∃ fs1, out.arg = .iface (.ptrTo (.inline (Value.struct fs).Type) (.struct fs1)) ∧
      fs.keepsPrivate fs1 = true := by
  have hig : df.ignore emptyField = false := by simp [DefFunc.ignore, hroot]
  match n, h with
  | 0, h =>
    rw [mapFormByTag_addr _ _ _ _ _ (by simp [Value.Type, findCoreType, GoType.Kind]),
      mapping_zero] at h
    simp at h
  | 1, h =>
    rw [mapFormByTag_addr _ _ _ _ _ (by simp [Value.Type, findCoreType, GoType.Kind])] at h
    simp only [Value.Addr] at h
    rw [mapping_ptrTo _ _ _ _ _ _ _ _ hig, mapping_zero] at h
    simp at h
  | fuel + 2, h =>
    rw [mapFormByTag_root_record _ _ _ _ _ hroot] at h
    cases hl : fieldLoop (mapping lib decls df fuel) fs false with
    | none => simp [hl] at h
    | some l =>
      simp [hl] at h
      subst h
      exact ⟨l.fields, rfl, fieldLoop_keepsPrivate _ _ _ _ hl⟩

/-- C14: a field that is unexported and not embedded is never written.  The
field loop of every record the walk descends into, and so both entry points on
every record, return the record with the same descriptors and with every such
field holding the value it held, whatever default it declares and whether the
binding ends with nil, an error or a panic.  An embedded sub-record (not
suppressed by the sentinel) is walked field by field whether it is reached
through an exported or an unexported embedded field, directly or through a
non-nil pointer: the result does not depend on the read-only flag of the
embedded value, and when its visited fields are exported text, integer and
sequence-of-text leaves with parseable integer defaults, each of them receives
its default and the enclosing field loop goes on with the fields that follow. -/
theorem private_kept_embedded_walked (lib : Lib) (decls : Decls) (df : DefFunc) (fuel : Nat)
    (sf : StructField) (inner : Fields)
    (hanon : sf.Anonymous = true) (hig : df.ignore sf = false) :
    (∀ (fs : Fields) (b : Bool) (r : FieldsVisit),
      fieldLoop (mapping lib decls df fuel) fs b = some r → fs.keepsPrivate r.fields = true) ∧
    (∀ (fs : Fields) (n : Nat) (out : Outcome),
      (MapDefault lib decls n (.iface (Value.struct fs).Addr) = some out ∨
        MapFormDefault lib decls n (.iface (Value.struct fs).Addr) = some out) →
      ∃ fs1, out.arg = .iface (.ptrTo (.inline (Value.struct fs).Type) (.struct fs1)) ∧
        fs.keepsPrivate fs1 = true) ∧
    (∀ ro, mapping lib decls df (fuel + 1) ro (.struct inner) sf =
      (fieldLoop (mapping lib decls df fuel) inner false).map Visit.ofLoop) ∧
    (∀ ro elem, mapping lib decls df (fuel + 2) ro (.ptrTo elem (.struct inner)) sf =
      (fieldLoop (mapping lib decls df fuel) inner false).map
        (fun l => ⟨.ptrTo elem (.struct l.fields), (Visit.ofLoop l).isSet,
          (Visit.ofLoop l).err⟩)) ∧
    (inner.leafRecord = true → inner.intDefaultsParse df = true →
      ∃ s, (∀ ro, mapping lib decls df (fuel + 2) ro (.struct inner) sf =
          some ⟨.struct (inner.leafDefaults df), s, none⟩) ∧
        ∀ (rest : Fields) (b : Bool),
          fieldLoop (mapping lib decls df (fuel + 2)) (.cons sf (.struct inner) rest) b =
            (fieldLoop (mapping lib decls df (fuel + 2)) rest (b || s)).map
              (fun r => ⟨.cons sf (.struct (inner.leafDefaults df)) r.fields, r.isSet,
                r.err⟩)) := by
  refine ⟨fun fs b r h => fieldLoop_keepsPrivate _ fs b r h, ?_,
    fun ro => mapping_struct_descend _ _ _ _ _ _ _ hig (Or.inl hanon), ?_, ?_⟩
  · rintro fs n out (h | h)
    · exact mapFormByTag_keepsPrivate lib decls _ rfl fs n out h
    · exact mapFormByTag_keepsPrivate lib decls _ (by decide) fs n out h
  · intro ro elem
    rw [mapping_ptrTo _ _ _ _ _ _ _ _ hig,
      mapping_struct_descend _ _ _ _ _ _ _ hig (Or.inl hanon)]
    cases fieldLoop (mapping lib decls df fuel) inner false with
    | none => rfl
    | some l =>
      obtain ⟨lf, ls, le⟩ := l
      cases le <;> rfl
  · intro hl hp
    obtain ⟨s, hs⟩ := fieldLoop_leafRecord lib decls df fuel inner false hl hp
    have hm : ∀ ro, mapping lib decls df (fuel + 2) ro (.struct inner) sf =
        some ⟨.struct (inner.leafDefaults df), s, none⟩ := by
      intro ro
      rw [mapping_struct_descend _ _ _ _ _ _ _ hig (Or.inl hanon), hs]
      rfl
    refine ⟨s, hm, ?_⟩
    intro rest b
    have hskip : (sf.unexported && !sf.Anonymous) = false := by simp [hanon]
    rw [fieldLoop_cons_visit _ _ _ _ _ hskip, hm]

/-- The record `struct { inner }` embedding the unexported `inner` by value:
`MapDefault` sets the exported `Name` and `Age` of the embedded record and
leaves its unexported `secret`, default or not. -/
theorem private_kept_embedded_walked_witness :
    innerField.Anonymous = true ∧ innerField.unexported = true ∧
    (GetTagDefFunc "default").ignore innerField = false ∧
    mapping Lib.rejecting Decls.empty (GetTagDefFunc "default") (1 + 1) true
        (.struct innerFields) innerField =
      (fieldLoop (mapping Lib.rejecting Decls.empty (GetTagDefFunc "default") 1)
        innerFields false).map Visit.ofLoop ∧
    fieldLoop (mapping Lib.rejecting Decls.empty (GetTagDefFunc "default") 1)
        innerFields false =
      some ⟨(.cons ⟨"Name", "", [("default", "anon")], false⟩ (.string "anon") <|
        .cons ⟨"Age", "", [("default", "7")], false⟩ (.int .Int 7) <|
        .cons ⟨"secret", "main", [("default", "hidden")], false⟩ (.string "s") .nil),
        true, none⟩ ∧
    MapDefault Lib.rejecting Decls.empty 4
        (.iface (Value.struct (.cons innerField (.struct innerFields) .nil)).Addr) =
      some ⟨.iface (Value.struct (.cons innerField
        (.struct (innerFields.leafDefaults (GetTagDefFunc "default"))) .nil)).Addr, none⟩ :=
  ⟨by decide, by decide, by decide,
    (private_kept_embedded_walked Lib.rejecting Decls.empty (GetTagDefFunc "default") 1
      innerField innerFields (by decide) (by decide)).2.2.1 true,
    by decide, by decide⟩

/-- The record `struct { *inner }` embedding a nil pointer to the unexported
`inner`: the defaults are set in a fresh `inner`, and installing the pointer
through the unexported embedded field panics. -/
theorem embedded_nil_pointer_panics :
    MapDefault Lib.rejecting Decls.empty 5
        (.iface (Value.struct (.cons innerField
          (.ptrNil (.inline (Value.struct innerFields).Type)) .nil)).Addr) =
      some ⟨.iface (Value.struct (.cons innerField
          (.ptrNil (.inline (Value.struct innerFields).Type)) .nil)).Addr,
        some panicRO⟩ := by
  decide

end FiberImpl


namespace FiberImpl

/-! ## Sequence and array elements (C15) -/


theorem mapping_direct (lib : Lib) (decls : Decls) (df : DefFunc) (fuel : Nat) (ro : Bool)
    (v : Value) (f : StructField) (hd : df.hasDefault f = true) (hk : v.Kind ≠ .Ptr)
    (hemb : v.Kind = .Struct → f.Anonymous = false) :
    mapping lib decls df (fuel + 1) ro v f =
      match (setDefault lib ro v f ⟨true, df f⟩).err with
      | some err => some ⟨(setDefault lib ro v f ⟨true, df f⟩).value, false, some err⟩
      | none =>
        if (setDefault lib ro v f ⟨true, df f⟩).isSet then
          some ⟨(setDefault lib ro v f ⟨true, df f⟩).value, true, none⟩
        else some ⟨v, false, none⟩ := by
  have hig := hasDefault_not_ignore df f hd
  have hcond : v.Kind ≠ .Struct ∨ (!f.Anonymous) = true := by
    by_cases h : v.Kind = .Struct
    · exact Or.inr (by simp [hemb h])
    · exact Or.inl h
  have hr : (if v.Kind ≠ .Struct ∨ !f.Anonymous then tryToSetValue lib ro v f df
      else ⟨v, false, none⟩ : Visit) = setDefault lib ro v f ⟨true, df f⟩ := by
    simp only [hcond, if_true, tryToSetValue, hd]
  rw [mapping_nonPtr lib decls df fuel ro v f hig hk _ hr]
  cases he : (setDefault lib ro v f ⟨true, df f⟩).err with
  | some err => rfl
  | none =>
    simp only
    cases hs : (setDefault lib ro v f ⟨true, df f⟩).isSet with
    | true => simp
    | false =>
      have := setDefault_notSet lib ro v f _ hs he
      simp only [this, Bool.false_eq_true, if_false]
      cases v <;> first | rfl | (exfalso; simp [setDefault, Value.Kind] at hs)

theorem mapping_scalar_field (lib : Lib) (decls : Decls) (df : DefFunc) (fuel : Nat)
    (v : Value) (f : StructField) (hd : df.hasDefault f = true)
    (hk : v.Kind ≠ .Ptr ∧ v.Kind ≠ .Slice ∧ v.Kind ≠ .Array)
    (hemb : v.Kind = .Struct → f.Anonymous = false) :
    mapping lib decls df (fuel + 1) false v f =
      some ⟨(setWithProperType lib (df f) false v f).1,
        (setWithProperType lib (df f) false v f).2.isNone,
        (setWithProperType lib (df f) false v f).2⟩ := by
  rw [mapping_direct lib decls df fuel false v f hd hk.1 hemb,
    setDefault_scalar lib false v f (df f) hk.2.1 hk.2.2]
  cases (setWithProperType lib (df f) false v f).2 <;> simp

theorem mapping_slice_field (lib : Lib) (decls : Decls) (df : DefFunc) (fuel : Nat)
    (T : GoType) (xs : Values) (f : StructField) (hd : df.hasDefault f = true) :
    mapping lib decls df (fuel + 1) false (.slice T xs) f =
      match (setWithProperType lib (df f) false (Zero T) f).2 with
      | none =>
        some ⟨.slice T (.cons (setWithProperType lib (df f) false (Zero T) f).1 .nil), true,
          none⟩
      | some err => some ⟨.slice T xs, false, some err⟩ := by
  rw [mapping_direct lib decls df fuel false (.slice T xs) f hd (by simp [Value.Kind])
    (by simp [Value.Kind]), setDefault_slice lib false (.slice T xs) f (df f) rfl]
  simp only [setSlice, Value.Type, MakeSlice, List.length_singleton, Values.replicate, setArray,
    setArrayLoop]
  cases hsw : setWithProperType lib (df f) false (Zero T) f with
  | mk x1 e1 => cases e1 <;> simp [Value.Set]

theorem mapping_array1_field (lib : Lib) (decls : Decls) (df : DefFunc) (fuel : Nat)
    (T : GoType) (x : Value) (f : StructField) (hd : df.hasDefault f = true) :
    mapping lib decls df (fuel + 1) false (.array T (.cons x .nil)) f =
      some ⟨.array T (.cons (setWithProperType lib (df f) false x f).1 .nil),
        (setWithProperType lib (df f) false x f).2.isNone,
        (setWithProperType lib (df f) false x f).2⟩ := by
  rw [mapping_direct lib decls df fuel false (.array T (.cons x .nil)) f hd
    (by simp [Value.Kind]) (by simp [Value.Kind]), setDefault_array lib false (.array T (.cons x .nil)) f (df f) rfl]
  simp only [Value.Len, Values.length, List.length_singleton, zero_add, ne_eq, not_true_eq_false,
    if_false, setArray, setArrayLoop]
  cases hsw : setWithProperType lib (df f) false x f with
  | mk x1 e1 => cases e1 <;> simp

theorem setWithProperType_unsupported (lib : Lib) (s : String) (ro : Bool) (v : Value)
    (f : StructField) (hk : v.Kind = .Ptr ∨ v.Kind = .Slice ∨ v.Kind = .Array) :
    setWithProperType lib s ro v f = (v, some (.error .errUnknownType)) := by
  unfold setWithProperType
  rcases hk with h | h | h <;> simp [h]

/-- C15 (amended): for an element type `T` that is not a pointer, a sequence or
an array, and a settable field that declares a default and is not an embedded
record, binding a `T` field holding the zero value, a sequence-of-`T` field of
any contents and a length-1 array-of-`T` field holding the zero value all turn
on the one call `setWithProperType` of the default text on a zero `T`: the three
succeed together, the sequence and the array then hold exactly one element, the
value the `T` field holds, and on failure the sequence keeps its contents.  For
an element type that is itself a pointer, a sequence or an array, binding the
sequence field fails with `errUnknownType` and leaves it as it was. -/
theorem sequence_elements_direct (lib : Lib) (decls : Decls) (df : DefFunc) (fuel : Nat)
    (T : GoType) (xs : Values) (f : StructField) (hd : df.hasDefault f = true) :
    ((Zero T).Kind ≠ .Ptr ∧ (Zero T).Kind ≠ .Slice ∧ (Zero T).Kind ≠ .Array →
      ((Zero T).Kind = .Struct → f.Anonymous = false) →
      mapping lib decls df (fuel + 1) false (Zero T) f =
        some ⟨(setWithProperType lib (df f) false (Zero T) f).1,
          (setWithProperType lib (df f) false (Zero T) f).2.isNone,
          (setWithProperType lib (df f) false (Zero T) f).2⟩ ∧
      mapping lib decls df (fuel + 1) false (.slice T xs) f =
        (match (setWithProperType lib (df f) false (Zero T) f).2 with
        | none =>
          some ⟨.slice T (.cons (setWithProperType lib (df f) false (Zero T) f).1 .nil), true,
            none⟩
        | some err => some ⟨.slice T xs, false, some err⟩) ∧
      mapping lib decls df (fuel + 1) false (.array T (.cons (Zero T) .nil)) f =
        some ⟨.array T (.cons (setWithProperType lib (df f) false (Zero T) f).1 .nil),
          (setWithProperType lib (df f) false (Zero T) f).2.isNone,
          (setWithProperType lib (df f) false (Zero T) f).2⟩) ∧
    ((Zero T).Kind = .Ptr ∨ (Zero T).Kind = .Slice ∨ (Zero T).Kind = .Array →
      mapping lib decls df (fuel + 1) false (.slice T xs) f =
        some ⟨.slice T xs, false, some (.error .errUnknownType)⟩) := by
  refine ⟨fun hk hemb => ⟨mapping_scalar_field lib decls df fuel _ f hd hk hemb,
    mapping_slice_field lib decls df fuel T xs f hd,
    mapping_array1_field lib decls df fuel T _ f hd⟩, ?_⟩
  intro hk
  rw [mapping_slice_field lib decls df fuel T xs f hd,
    setWithProperType_unsupported lib (df f) false (Zero T) f hk]

/-- An `int` field, a `[]int` field holding two elements and a `[1]int` field,
all with the default `18`, are bound to `18`, `[18]` and `[18]`. -/
theorem sequence_elements_direct_witness :
    (GetTagDefFunc "default").hasDefault ⟨"N", "", [("default", "18")], false⟩ = true ∧
    (mapping Lib.rejecting Decls.empty (GetTagDefFunc "default") (0 + 1) false
        (Zero (.int .Int)) ⟨"N", "", [("default", "18")], false⟩ =
      some ⟨.int .Int 18, true, none⟩ ∧
    mapping Lib.rejecting Decls.empty (GetTagDefFunc "default") (0 + 1) false
        (.slice (.int .Int) (.cons (.int .Int 1) (.cons (.int .Int 2) .nil)))
        ⟨"N", "", [("default", "18")], false⟩ =
      some ⟨.slice (.int .Int) (.cons (.int .Int 18) .nil), true, none⟩ ∧
    mapping Lib.rejecting Decls.empty (GetTagDefFunc "default") (0 + 1) false
        (.array (.int .Int) (.cons (Zero (.int .Int)) .nil))
        ⟨"N", "", [("default", "18")], false⟩ =
      some ⟨.array (.int .Int) (.cons (.int .Int 18) .nil), true, none⟩) :=
  ⟨by decide,
    (sequence_elements_direct Lib.rejecting Decls.empty (GetTagDefFunc "default") 0
      (.int .Int) (.cons (.int .Int 1) (.cons (.int .Int 2) .nil))
      ⟨"N", "", [("default", "18")], false⟩ (by decide)).1 (by decide) (by decide)⟩

/-- C15 as stated fails for an element type that is itself a sequence: with
the default `x`, binding a `[]string` field succeeds and gives `["x"]`, and
binding a `[][]string` field fails with `errUnknownType` and sets nothing. -/
theorem nested_sequence_counterexample :
    mapping Lib.rejecting Decls.empty (GetTagDefFunc "default") 1 false
        (.slice .string .nil) ⟨"Rows", "", [("default", "x")], false⟩ =
      some ⟨.slice .string (.cons (.string "x") .nil), true, none⟩ ∧
    mapping Lib.rejecting Decls.empty (GetTagDefFunc "default") 1 false
        (.slice (.slice .string) .nil) ⟨"Rows", "", [("default", "x")], false⟩ =
      some ⟨.slice (.slice .string) .nil, false, some (.error .errUnknownType)⟩ ∧
    MapDefault Lib.rejecting Decls.empty 3
        (.iface (Value.struct (.cons ⟨"Rows", "", [("default", "x")], false⟩
          (.slice (.slice .string) .nil) .nil)).Addr) =
      some ⟨.iface (Value.struct (.cons ⟨"Rows", "", [("default", "x")], false⟩
          (.slice (.slice .string) .nil) .nil)).Addr, some (.error .errUnknownType)⟩ := by
  decide

end FiberImpl


namespace FiberImpl

/-! ## Kinds without a converter (C16) -/


theorem other_kind (k : OtherKind) (p : Nat) :
    (Value.other k p).Kind ≠ .Ptr ∧ (Value.other k p).Kind ≠ .Slice ∧
    (Value.other k p).Kind ≠ .Array ∧ (Value.other k p).Kind ≠ .Struct := by
  cases k <;> simp [Value.Kind, OtherKind.toKind]

theorem setWithProperType_other (lib : Lib) (s : String) (ro : Bool) (k : OtherKind) (p : Nat)
    (f : StructField) :
    setWithProperType lib s ro (.other k p) f = (.other k p, some (.error .errUnknownType)) := by
  cases k <;> simp [setWithProperType, Value.Kind, OtherKind.toKind]

theorem mapping_other_default (lib : Lib) (decls : Decls) (df : DefFunc) (fuel : Nat) (ro : Bool)
    (k : OtherKind) (p : Nat) (f : StructField) (hd : df.hasDefault f = true) :
    mapping lib decls df (fuel + 1) ro (.other k p) f =
      some ⟨.other k p, false, some (.error .errUnknownType)⟩ := by
  have hk := other_kind k p
  rw [mapping_direct lib decls df fuel ro _ f hd hk.1 (fun h => absurd h hk.2.2.2),
    setDefault_scalar lib ro _ f (df f) hk.2.1 hk.2.2.1, setWithProperType_other]

theorem mapping_other_noDefault (lib : Lib) (decls : Decls) (df : DefFunc) (fuel : Nat)
    (ro : Bool) (k : OtherKind) (p : Nat) (f : StructField) (hd : df.hasDefault f = false) :
    mapping lib decls df (fuel + 1) ro (.other k p) f = some ⟨.other k p, false, none⟩ := by
  cases hig : df.ignore f with
  | true => exact mapping_ignore _ _ _ _ _ _ _ hig
  | false =>
    have hk := other_kind k p
    rw [mapping_nonPtr lib decls df fuel ro _ f hig hk.1 ⟨.other k p, false, none⟩
      (by simp [hk.2.2.2, tryToSetValue_noDefault _ _ _ _ _ hd])]
    rfl

/-- C16: a visited field of a kind with no converter (uintptr, complex64,
complex128, channel, function, interface, unsafe pointer) that declares a
default, neither empty nor the sentinel, gets `errUnknownType` and keeps its
value, and the field loop of the enclosing record returns that error with the
record as it was; when the field declares no default (or the sentinel) the
visit sets nothing, changes nothing and fails with nothing, and the field loop
goes on with the fields that follow. -/
theorem unsupported_kind_default (lib : Lib) (decls : Decls) (df : DefFunc) (fuel : Nat)
    (ro : Bool) (k : OtherKind) (p : Nat) (f : StructField) :
    (df.hasDefault f = true →
      mapping lib decls df (fuel + 1) ro (.other k p) f =
        some ⟨.other k p, false, some (.error .errUnknownType)⟩ ∧
      ∀ (rest : Fields) (b : Bool), (f.unexported && !f.Anonymous) = false →
        fieldLoop (mapping lib decls df (fuel + 1)) (.cons f (.other k p) rest) b =
          some ⟨.cons f (.other k p) rest, false, some (.error .errUnknownType)⟩) ∧
    (df.hasDefault f = false →
      mapping lib decls df (fuel + 1) ro (.other k p) f = some ⟨.other k p, false, none⟩ ∧
      ∀ (rest : Fields) (b : Bool),
        fieldLoop (mapping lib decls df (fuel + 1)) (.cons f (.other k p) rest) b =
          (fieldLoop (mapping lib decls df (fuel + 1)) rest b).map
            (fun r => ⟨.cons f (.other k p) r.fields, r.isSet, r.err⟩)) := by
  refine ⟨fun hd => ⟨mapping_other_default lib decls df fuel ro k p f hd, ?_⟩,
    fun hd => ⟨mapping_other_noDefault lib decls df fuel ro k p f hd, ?_⟩⟩
  · intro rest b hskip
    rw [fieldLoop_cons_visit _ _ _ _ _ hskip, mapping_other_default lib decls df fuel _ k p f hd]
  · intro rest b
    cases hskip : (f.unexported && !f.Anonymous) with
    | true => exact fieldLoop_cons_skip _ _ _ _ _ hskip
    | false =>
      rw [fieldLoop_cons_visit _ _ _ _ _ hskip,
        mapping_other_noDefault lib decls df fuel _ k p f hd]
      simp

/-- A record `struct { Done chan bool; Name string }` with `default:"x"` on
`Done` and `default:"n"` on `Name`: `MapDefault` returns `errUnknownType` and
the record is as it was; without the default on `Done`, `Name` is set. -/
theorem unsupported_kind_default_witness :
    (GetTagDefFunc "default").hasDefault ⟨"Done", "", [("default", "x")], false⟩ = true ∧
    mapping Lib.rejecting Decls.empty (GetTagDefFunc "default") (0 + 1) false
        (.other .Chan 0) ⟨"Done", "", [("default", "x")], false⟩ =
      some ⟨.other .Chan 0, false, some (.error .errUnknownType)⟩ ∧
    MapDefault Lib.rejecting Decls.empty 3
        (.iface (Value.struct (.cons ⟨"Done", "", [("default", "x")], false⟩ (.other .Chan 0)
          (.cons ⟨"Name", "", [("default", "n")], false⟩ (.string "") .nil))).Addr) =
      some ⟨.iface (Value.struct (.cons ⟨"Done", "", [("default", "x")], false⟩ (.other .Chan 0)
          (.cons ⟨"Name", "", [("default", "n")], false⟩ (.string "") .nil))).Addr,
        some (.error .errUnknownType)⟩ ∧
    MapDefault Lib.rejecting Decls.empty 3
        (.iface (Value.struct (.cons ⟨"Done", "", [], false⟩ (.other .Chan 0)
          (.cons ⟨"Name", "", [("default", "n")], false⟩ (.string "") .nil))).Addr) =
      some ⟨.iface (Value.struct (.cons ⟨"Done", "", [], false⟩ (.other .Chan 0)
          (.cons ⟨"Name", "", [("default", "n")], false⟩ (.string "n") .nil))).Addr, none⟩ :=
  ⟨by decide,
    ((unsupported_kind_default Lib.rejecting Decls.empty (GetTagDefFunc "default") 0 false
      .Chan 0 ⟨"Done", "", [("default", "x")], false⟩).1 (by decide)).1,
    by decide, by decide⟩

end FiberImpl


namespace FiberImpl

/-! ## Direct default against descent (C17) -/


theorem setWithProperType_struct (lib : Lib) (s : String) (fs : Fields) (f : StructField) :
    setWithProperType lib s false (.struct fs) f =
      (.struct (lib.jsonStruct s fs).1, (lib.jsonStruct s fs).2.map Fault.error) := by
  simp [setWithProperType, Value.Kind, jsonUnmarshal]

/-- C17 (amended): direct default wins over descent.  A visited record-typed
field that is not embedded and declares a default, neither empty nor the
sentinel, is bound by the one call `setWithProperType` of the default text:
time parsing for an instant, document decoding for any other record.  The
visit makes no nested call (one unit of fuel is enough, and the resolver is
asked about no other descriptor), so no default declared on a nested field is
applied.  It reports set exactly when the conversion succeeds; when it fails
the error is returned and the visit reports not set. -/
theorem direct_default_wins (lib : Lib) (decls : Decls) (df : DefFunc) (fuel : Nat)
    (v : Value) (f : StructField) (hrec : v.Kind = .Struct) (hnamed : f.Anonymous = false)
    (hd : df.hasDefault f = true) :
    mapping lib decls df (fuel + 1) false v f =
      some ⟨(setWithProperType lib (df f) false v f).1,
        (setWithProperType lib (df f) false v f).2.isNone,
        (setWithProperType lib (df f) false v f).2⟩ ∧
    (∀ t, v = .time t →
      setWithProperType lib (df f) false v f = setTimeField lib (df f) f false v) ∧
    (∀ fs, v = .struct fs →
      setWithProperType lib (df f) false v f =
        (.struct (lib.jsonStruct (df f) fs).1, (lib.jsonStruct (df f) fs).2.map Fault.error)) ∧
    (∀ (other : DefFunc) (n : Nat), other f = df f →
      mapping lib decls other (n + 1) false v f = mapping lib decls df (fuel + 1) false v f) := by
  have hk : v.Kind ≠ .Ptr ∧ v.Kind ≠ .Slice ∧ v.Kind ≠ .Array := by simp [hrec]
  have hm := mapping_scalar_field lib decls df fuel v f hd hk (fun _ => hnamed)
  refine ⟨hm, ?_, ?_, ?_⟩
  · intro t ht; subst ht; exact setWithProperType_time lib _ t f
  · intro fs hfs; subst hfs; exact setWithProperType_struct lib _ fs f
  · intro other n ho
    have hd2 : other.hasDefault f = true := by
      rw [hasDefault_congr other df f ho]; exact hd
    rw [hm, mapping_scalar_field lib decls other n v f hd2 hk (fun _ => hnamed), ho]

/-- An instant `At` tagged `default:"1700000000" time_format:"unix"` is bound by
time parsing and reported set. -/
theorem direct_default_wins_witness :
    (GetTagDefFunc "default").hasDefault
      ⟨"At", "", [("default", "1700000000"), ("time_format", "unix")], false⟩ = true ∧
    mapping Lib.rejecting Decls.empty (GetTagDefFunc "default") (0 + 1) false (.time Time.zero)
        ⟨"At", "", [("default", "1700000000"), ("time_format", "unix")], false⟩ =
      some ⟨.time ⟨1700000000, 0, .Local⟩, true, none⟩ :=
  ⟨by decide,
    (direct_default_wins Lib.rejecting Decls.empty (GetTagDefFunc "default") 0 (.time Time.zero)
      ⟨"At", "", [("default", "1700000000"), ("time_format", "unix")], false⟩
      (by decide) (by decide) (by decide)).1.trans (by decide)⟩

/-- C17 as stated fails when the conversion fails: an instant `At` tagged
`default:"abc" time_format:"unix"` is a named record-typed field with a
non-sentinel default, and its visit reports not set, with the parse error;
`MapDefault` returns that error. -/
theorem direct_default_unset_counterexample :
    (GetTagDefFunc "default").hasDefault
      ⟨"At", "", [("default", "abc"), ("time_format", "unix")], false⟩ = true ∧
    mapping Lib.rejecting Decls.empty (GetTagDefFunc "default") 1 false (.time Time.zero)
        ⟨"At", "", [("default", "abc"), ("time_format", "unix")], false⟩ =
      some ⟨.time Time.zero, false, some (.error (.numError "ParseInt" "abc" .ErrSyntax))⟩ ∧
    MapDefault Lib.rejecting Decls.empty 3
        (.iface (Value.struct (.cons
          ⟨"At", "", [("default", "abc"), ("time_format", "unix")], false⟩
          (.time Time.zero) .nil)).Addr) =
      some ⟨.iface (Value.struct (.cons
          ⟨"At", "", [("default", "abc"), ("time_format", "unix")], false⟩
          (.time Time.zero) .nil)).Addr,
        some (.error (.numError "ParseInt" "abc" .ErrSyntax))⟩ := by
  decide

end FiberImpl


namespace FiberImpl

/-! ## Nested records (C18) -/

theorem fieldLoop_eachBound (visit : Bool → Value → StructField → Option Visit) :
    ∀ (fs : Fields) (b : Bool) (fs1 : Fields) (s : Bool),
      fieldLoop visit fs b = some ⟨fs1, s, none⟩ →
      ∃ s0, fs.eachBound visit = some (fs1, s0) ∧ s = (b || s0) := by
  intro fs
  induction fs using Fields_induct with
  | hnil =>
    intro b fs1 s h
    simp [fieldLoop] at h
    exact ⟨false, by simp [Fields.eachBound, h.1], by simp [h.2]⟩
  | hcons sf v rest ih =>
    intro b fs1 s h
    cases hskip : (sf.unexported && !sf.Anonymous) with
    | true =>
      rw [fieldLoop_cons_skip _ _ _ _ _ hskip] at h
      cases hr : fieldLoop visit rest b with
      | none => simp [hr] at h
      | some r1 =>
        obtain ⟨rf, rs, re⟩ := r1
        simp [hr] at h
        obtain ⟨h1, h2, h3⟩ := h
        subst h1 h2 h3
        obtain ⟨s0, e1, e2⟩ := ih b rf rs hr
        exact ⟨s0, by simp [Fields.eachBound, hskip, e1], e2⟩
    | false =>
      rw [fieldLoop_cons_visit _ _ _ _ _ hskip] at h
      cases hvis : visit sf.unexported v sf with
      | none => simp [hvis] at h
      | some x =>
        obtain ⟨v1, ok, e⟩ := x
        cases e with
        | some err => simp [hvis] at h
        | none =>
          simp only [hvis] at h
          cases hr : fieldLoop visit rest (b || ok) with
          | none => simp [hr] at h
          | some r1 =>
            obtain ⟨rf, rs, re⟩ := r1
            simp [hr] at h
            obtain ⟨h1, h2, h3⟩ := h
            subst h1 h2 h3
            obtain ⟨s0, e1, e2⟩ := ih (b || ok) rf rs hr
            refine ⟨ok || s0, by simp [Fields.eachBound, hskip, hvis, e1], ?_⟩
            rw [e2, Bool.or_assoc]

theorem ofLoop_ok (l : FieldsVisit) (fs1 : Fields) (s : Bool)
    (h : Visit.ofLoop l = ⟨.struct fs1, s, none⟩) : l = ⟨fs1, s, none⟩ := by
  obtain ⟨lf, ls, le⟩ := l
  cases le with
  | some err => simp [Visit.ofLoop] at h
  | none =>
    simp [Visit.ofLoop] at h
    simp [h.1, h.2]

/-- C18: binding is compositional over nested records.  When the walk visits a
sub-record, embedded or named, whose field resolves to no default, the visit
is the field loop over the sub-record, and binding the sub-record on its own
through an entry point whose resolver finds nothing on the root descriptor
gives the same record and the same error (and runs out of fuel together with
it).  When the visit ends without an error, the sub-record holds every visited
field bound on its own in declaration order, the visit reports the logical OR
of the results of its fields, and the field loop of the parent goes on with
that result OR-ed into its own. -/
theorem nested_binding_compositional (lib : Lib) (decls : Decls) (df : DefFunc) (fuel : Nat)
    (ro : Bool) (sub : Fields) (sf : StructField)
    (hroot : df emptyField = "") (hsf : df sf = "") :
    mapFormByTag lib decls (fuel + 2) (.iface (Value.struct sub).Addr) df =
      (mapping lib decls df (fuel + 1) ro (.struct sub) sf).map
        (fun r => ⟨.iface (.ptrTo (.inline (Value.struct sub).Type) r.value), r.err⟩) ∧
    mapping lib decls df (fuel + 1) ro (.struct sub) sf =
      (fieldLoop (mapping lib decls df fuel) sub false).map Visit.ofLoop ∧
    (∀ (sub1 : Fields) (s : Bool),
      mapping lib decls df (fuel + 1) ro (.struct sub) sf = some ⟨.struct sub1, s, none⟩ →
      sub.eachBound (mapping lib decls df fuel) = some (sub1, s) ∧
      ∀ (rest : Fields) (b : Bool), (sf.unexported && !sf.Anonymous) = false →
        fieldLoop (mapping lib decls df (fuel + 1)) (.cons sf (.struct sub) rest) b =
          (fieldLoop (mapping lib decls df (fuel + 1)) rest (b || s)).map
            (fun r => ⟨.cons sf (.struct sub1) r.fields, r.isSet, r.err⟩)) := by
  have hig : df.ignore sf = false := by simp [DefFunc.ignore, hsf]
  have hd : df.hasDefault sf = false := by simp [DefFunc.hasDefault, hsf]
  have hm : ∀ ro1, mapping lib decls df (fuel + 1) ro1 (.struct sub) sf =
      (fieldLoop (mapping lib decls df fuel) sub false).map Visit.ofLoop :=
    fun ro1 => mapping_struct_descend lib decls df fuel ro1 sub sf hig (Or.inr hd)
  refine ⟨?_, hm ro, ?_⟩
  · rw [mapFormByTag_root_record lib decls df fuel sub hroot, hm]
    cases fieldLoop (mapping lib decls df fuel) sub false with
    | none => rfl
    | some l => simp [ofLoop_value]
  · intro sub1 s h
    rw [hm] at h
    cases hl : fieldLoop (mapping lib decls df fuel) sub false with
    | none => simp [hl] at h
    | some l =>
      simp only [hl, Option.map_some', Option.some.injEq] at h
      have hl2 := ofLoop_ok l sub1 s h
      subst hl2
      obtain ⟨s0, e1, e2⟩ := fieldLoop_eachBound _ sub false sub1 s hl
      simp only [Bool.false_or] at e2
      subst e2
      refine ⟨e1, ?_⟩
      intro rest b hskip
      rw [fieldLoop_cons_visit _ _ _ _ _ hskip, hm, hl]
      rfl

/-- In `struct { Sub S }` with `S` holding `Name` and `Age` with defaults, the
visit of `Sub` gives what `MapDefault(&sub)` gives: `Name = "anon"`, `Age = 7`,
reported set. -/
theorem nested_binding_compositional_witness :
    GetTagDefFunc "default" emptyField = "" ∧
    GetTagDefFunc "default" ⟨"Sub", "", [("json", "sub")], false⟩ = "" ∧
    MapDefault Lib.rejecting Decls.empty (1 + 2) (.iface (Value.struct subFields).Addr) =
      (mapping Lib.rejecting Decls.empty (GetTagDefFunc "default") (1 + 1) false
        (.struct subFields) ⟨"Sub", "", [("json", "sub")], false⟩).map
        (fun r => ⟨.iface (.ptrTo (.inline (Value.struct subFields).Type) r.value), r.err⟩) ∧
    mapping Lib.rejecting Decls.empty (GetTagDefFunc "default") (1 + 1) false
        (.struct subFields) ⟨"Sub", "", [("json", "sub")], false⟩ =
      some ⟨.struct (.cons ⟨"Name", "", [("default", "anon")], false⟩ (.string "anon") <|
        .cons ⟨"Age", "", [("default", "7")], false⟩ (.int .Int 7) .nil), true, none⟩ :=
  ⟨by decide, by decide,
    (nested_binding_compositional Lib.rejecting Decls.empty (GetTagDefFunc "default") 1 false
      subFields ⟨"Sub", "", [("json", "sub")], false⟩ (by decide) (by decide)).1,
    by decide⟩

end FiberImpl


namespace FiberImpl

/-! ## Empty defaults (C19) -/


theorem mapping_empty_congr (lib : Lib) (decls : Decls) (df : DefFunc) :
    ∀ (n : Nat) (ro : Bool) (v : Value) (f1 f2 : StructField), df f1 = "" → df f2 = "" →
      mapping lib decls df n ro v f1 = mapping lib decls df n ro v f2 := by
  intro n
  induction n with
  | zero => intro ro v f1 f2 _ _; rw [mapping_zero, mapping_zero]
  | succ n ih =>
    intro ro v f1 f2 h1 h2
    have hig1 : df.ignore f1 = false := by simp [DefFunc.ignore, h1]
    have hig2 : df.ignore f2 = false := by simp [DefFunc.ignore, h2]
    have hd1 : df.hasDefault f1 = false := by simp [DefFunc.hasDefault, h1]
    have hd2 : df.hasDefault f2 = false := by simp [DefFunc.hasDefault, h2]
    rcases v.ptr_cases with ⟨elem, rfl⟩ | ⟨elem, p, rfl⟩ | hk
    · rw [mapping_ptrNil _ _ _ _ _ _ _ hig1, mapping_ptrNil _ _ _ _ _ _ _ hig2,
        ih false _ f1 f2 h1 h2]
    · rw [mapping_ptrTo _ _ _ _ _ _ _ _ hig1, mapping_ptrTo _ _ _ _ _ _ _ _ hig2,
        ih ro _ f1 f2 h1 h2]
    · rw [mapping_nonPtr lib decls df n ro v f1 hig1 hk ⟨v, false, none⟩
          (by simp [tryToSetValue_noDefault _ _ _ _ _ hd1]),
        mapping_nonPtr lib decls df n ro v f2 hig2 hk ⟨v, false, none⟩
          (by simp [tryToSetValue_noDefault _ _ _ _ _ hd2])]

theorem mapping_empty_leaf (lib : Lib) (decls : Decls) (df : DefFunc) (fuel : Nat) (ro : Bool)
    (v : Value) (f : StructField) (hempty : df f = "") (hk : v.Kind ≠ .Ptr)
    (hs : ∀ fs, v ≠ .struct fs) :
    mapping lib decls df (fuel + 1) ro v f = some ⟨v, false, none⟩ := by
  have hig : df.ignore f = false := by simp [DefFunc.ignore, hempty]
  have hd : df.hasDefault f = false := by simp [DefFunc.hasDefault, hempty]
  rw [mapping_nonPtr lib decls df fuel ro v f hig hk ⟨v, false, none⟩
    (by simp [tryToSetValue_noDefault _ _ _ _ _ hd])]
  cases v with
  | struct fs => exact absurd rfl (hs fs)
  | _ => rfl

theorem tryToSetValue_text (lib : Lib) (df : DefFunc) (ro : Bool) (w : Value)
    (g : StructField) :
    tryToSetValue lib ro w g df = ⟨w, false, none⟩ ∨
    (df g ≠ "" ∧ tryToSetValue lib ro w g df = setDefault lib ro w g ⟨true, df g⟩) := by
  cases hd : df.hasDefault g with
  | false => exact Or.inl (tryToSetValue_noDefault _ _ _ _ _ hd)
  | true =>
    refine Or.inr ⟨hasDefault_ne_empty df g hd, ?_⟩
    simp [tryToSetValue, hd]

/-- C19 (amended): a default whose text is empty is an absent default.  For a
field whose resolved default is `""`, the visit is the visit under any other
descriptor that resolves to `""`, the same field without the annotation for
one, whatever the value and the fuel.  When the value is neither a pointer nor
a record that the walk descends into, the visit returns it as it was, zero or
not, reported not set and without error, and the field loop of the enclosing
record keeps it and goes on.  A record or a pointer is walked as under an
absent default, so defaults declared inside it are applied.  The direct
assignment never hands an empty text to the converter: it either does nothing
or converts a text that is not empty. -/
theorem empty_default_as_absent (lib : Lib) (decls : Decls) (df : DefFunc) (fuel : Nat)
    (ro : Bool) (v : Value) (f : StructField) (hempty : df f = "") :
    (∀ (f2 : StructField) (n : Nat), df f2 = "" →
      mapping lib decls df n ro v f = mapping lib decls df n ro v f2) ∧
    (v.Kind ≠ .Ptr → (∀ fs, v ≠ .struct fs) →
      mapping lib decls df (fuel + 1) ro v f = some ⟨v, false, none⟩ ∧
      ∀ (rest : Fields) (b : Bool),
        fieldLoop (mapping lib decls df (fuel + 1)) (.cons f v rest) b =
          (fieldLoop (mapping lib decls df (fuel + 1)) rest b).map
            (fun r => ⟨.cons f v r.fields, r.isSet, r.err⟩)) ∧
    (∀ (g : StructField) (w : Value) (ro1 : Bool),
      tryToSetValue lib ro1 w g df = ⟨w, false, none⟩ ∨
      (df g ≠ "" ∧ tryToSetValue lib ro1 w g df = setDefault lib ro1 w g ⟨true, df g⟩)) := by
  refine ⟨fun f2 n h2 => mapping_empty_congr lib decls df n ro v f f2 hempty h2, ?_,
    fun g w ro1 => tryToSetValue_text lib df ro1 w g⟩
  intro hk hs
  refine ⟨mapping_empty_leaf lib decls df fuel ro v f hempty hk hs, ?_⟩
  intro rest b
  cases hskip : (f.unexported && !f.Anonymous) with
  | true => exact fieldLoop_cons_skip _ _ _ _ _ hskip
  | false =>
    rw [fieldLoop_cons_visit _ _ _ _ _ hskip,
      mapping_empty_leaf lib decls df fuel _ v f hempty hk hs]
    simp

/-- An `Age int` holding `5` keeps it under `default:""` with `MapDefault` and
under `form:"age,default="` with `MapFormDefault`. -/
theorem empty_default_as_absent_witness :
    GetTagDefFunc "default" ⟨"Age", "", [("default", "")], false⟩ = "" ∧
    GetSubTagDefFunc "form" "default" ⟨"Age", "", [("form", "age,default=")], false⟩ = "" ∧
    mapping Lib.rejecting Decls.empty (GetTagDefFunc "default") (0 + 1) false (.int .Int 5)
        ⟨"Age", "", [("default", "")], false⟩ = some ⟨.int .Int 5, false, none⟩ ∧
    MapDefault Lib.rejecting Decls.empty 3
        (.iface (Value.struct (.cons ⟨"Age", "", [("default", "")], false⟩
          (.int .Int 5) .nil)).Addr) =
      some ⟨.iface (Value.struct (.cons ⟨"Age", "", [("default", "")], false⟩
          (.int .Int 5) .nil)).Addr, none⟩ ∧
    MapFormDefault Lib.rejecting Decls.empty 3
        (.iface (Value.struct (.cons ⟨"Age", "", [("form", "age,default=")], false⟩
          (.int .Int 5) .nil)).Addr) =
      some ⟨.iface (Value.struct (.cons ⟨"Age", "", [("form", "age,default=")], false⟩
          (.int .Int 5) .nil)).Addr, none⟩ :=
  ⟨by decide, by decide,
    ((empty_default_as_absent Lib.rejecting Decls.empty (GetTagDefFunc "default") 0 false
      (.int .Int 5) ⟨"Age", "", [("default", "")], false⟩ (by decide)).2.1
      (by decide) (fun fs => by simp)).1,
    by decide, by decide⟩

/-- C19 as stated fails for a record-typed field: in `struct { Sub S }` with
the empty default declared on `Sub`, and `S` holding `Name` and `Age` with
defaults, the resolved default of `Sub` is empty, and `MapDefault` changes the
value of `Sub` and its visit reports it set. -/
theorem empty_default_record_counterexample :
    GetTagDefFunc "default" ⟨"Sub", "", [("default", "")], false⟩ = "" ∧
    mapping Lib.rejecting Decls.empty (GetTagDefFunc "default") 2 false
        (.struct subFields) ⟨"Sub", "", [("default", "")], false⟩ =
      some ⟨.struct (.cons ⟨"Name", "", [("default", "anon")], false⟩ (.string "anon") <|
        .cons ⟨"Age", "", [("default", "7")], false⟩ (.int .Int 7) .nil), true, none⟩ ∧
    MapDefault Lib.rejecting Decls.empty 4
        (.iface (Value.struct (.cons ⟨"Sub", "", [("default", "")], false⟩
          (.struct subFields) .nil)).Addr) =
      some ⟨.iface (Value.struct (.cons ⟨"Sub", "", [("default", "")], false⟩
          (.struct (.cons ⟨"Name", "", [("default", "anon")], false⟩ (.string "anon") <|
            .cons ⟨"Age", "", [("default", "7")], false⟩ (.int .Int 7) .nil)) .nil)).Addr,
        none⟩ := by
  decide

end FiberImpl


namespace FiberImpl

/-! ## Defaults on embedded records (C20) -/

theorem Zero_isRecordChain : ∀ t : GoType, t.isRecordChain = true →
    (Zero t).isRecordChain = true := by
  intro t h
  cases t <;> simp_all [GoType.isRecordChain, Zero, Value.isRecordChain]

theorem New_isRecordChain (decls : Decls) (elem : PtrElem)
    (h : (Value.ptrNil elem).isRecordChain = true) : (New decls elem).isRecordChain = true := by
  cases elem with
  | inline t => exact Zero_isRecordChain t (by simpa [Value.isRecordChain] using h)
  | declared name => simp [New, Value.isRecordChain]

theorem mapping_embedded_congr (lib : Lib) (decls : Decls) (df : DefFunc) :
    ∀ (n : Nat) (ro : Bool) (v : Value) (f1 f2 : StructField),
      f1.Anonymous = true → df.ignore f1 = false → df f2 = "" → v.isRecordChain = true →
      mapping lib decls df n ro v f1 = mapping lib decls df n ro v f2 := by
  intro n
  induction n with
  | zero => intro ro v f1 f2 _ _ _ _; rw [mapping_zero, mapping_zero]
  | succ n ih =>
    intro ro v f1 f2 ha hig1 h2 hv
    have hig2 : df.ignore f2 = false := by simp [DefFunc.ignore, h2]
    have hd2 : df.hasDefault f2 = false := by simp [DefFunc.hasDefault, h2]
    cases v with
    | ptrNil elem =>
      rw [mapping_ptrNil _ _ _ _ _ _ _ hig1, mapping_ptrNil _ _ _ _ _ _ _ hig2,
        ih false _ f1 f2 ha hig1 h2 (New_isRecordChain decls elem hv)]
    | ptrTo elem p =>
      rw [mapping_ptrTo _ _ _ _ _ _ _ _ hig1, mapping_ptrTo _ _ _ _ _ _ _ _ hig2,
        ih ro _ f1 f2 ha hig1 h2 (by simpa [Value.isRecordChain] using hv)]
    | struct fs =>
      rw [mapping_struct_descend _ _ _ _ _ _ _ hig1 (Or.inl ha),
        mapping_struct_descend _ _ _ _ _ _ _ hig2 (Or.inr hd2)]
    | time t =>
      rw [mapping_nonPtr lib decls df n ro (.time t) f1 hig1 (by simp [Value.Kind])
          ⟨.time t, false, none⟩ (by simp [Value.Kind, ha]),
        mapping_nonPtr lib decls df n ro (.time t) f2 hig2 (by simp [Value.Kind])
          ⟨.time t, false, none⟩ (by simp [tryToSetValue_noDefault _ _ _ _ _ hd2])]
    | _ => simp [Value.isRecordChain] at hv

/-- C20: a default, other than the sentinel, declared on an embedded record
field is never applied.  The visit of an embedded record (or pointer to a
record) under such a descriptor is the visit under any descriptor that
resolves to no default, the same field with the annotation removed for one, so
only the defaults declared inside the embedded record take effect; and the
field loop of the enclosing record gives the same values, flag and error for
the two records.  With the sentinel `-` on the embedded field the visit
returns the value as it was, nothing set, and the field loop passes on. -/
theorem embedded_default_never_applied (lib : Lib) (decls : Decls) (df : DefFunc)
    (f : StructField) (v : Value) (hanon : f.Anonymous = true)
    (hrec : v.isRecordChain = true) :
    (df.ignore f = false → ∀ (f2 : StructField) (n : Nat) (ro : Bool), df f2 = "" →
      mapping lib decls df n ro v f = mapping lib decls df n ro v f2 ∧
      (f2.Anonymous = true → f2.unexported = f.unexported → ∀ (rest : Fields) (b : Bool),
        fieldLoop (mapping lib decls df n) (.cons f2 v rest) b =
          (fieldLoop (mapping lib decls df n) (.cons f v rest) b).map
            (fun r => ⟨r.fields.withHead f2, r.isSet, r.err⟩))) ∧
    (df f = "-" → ∀ (n : Nat) (ro : Bool),
      mapping lib decls df (n + 1) ro v f = some ⟨v, false, none⟩ ∧
      ∀ (rest : Fields) (b : Bool),
        fieldLoop (mapping lib decls df (n + 1)) (.cons f v rest) b =
          (fieldLoop (mapping lib decls df (n + 1)) rest b).map
            (fun r => ⟨.cons f v r.fields, r.isSet, r.err⟩)) := by
  refine ⟨?_, ?_⟩
  · intro hig f2 n ro h2
    have hc : ∀ ro1, mapping lib decls df n ro1 v f = mapping lib decls df n ro1 v f2 :=
      fun ro1 => mapping_embedded_congr lib decls df n ro1 v f f2 hanon hig h2 hrec
    refine ⟨hc ro, ?_⟩
    intro ha2 hu rest b
    have hs1 : (f.unexported && !f.Anonymous) = false := by simp [hanon]
    have hs2 : (f2.unexported && !f2.Anonymous) = false := by simp [ha2]
    rw [fieldLoop_cons_visit _ _ _ _ _ hs1, fieldLoop_cons_visit _ _ _ _ _ hs2, hu, hc]
    cases mapping lib decls df n f.unexported v f2 with
    | none => rfl
    | some x =>
      obtain ⟨v1, ok, e⟩ := x
      cases e with
      | some err => rfl
      | none =>
        simp only
        cases fieldLoop (mapping lib decls df n) rest (b || ok) <;> rfl
  · intro hs n ro
    have hig : df.ignore f = true := by simp [DefFunc.ignore, hs]
    have hm : ∀ ro1, mapping lib decls df (n + 1) ro1 v f = some ⟨v, false, none⟩ :=
      fun ro1 => mapping_ignore _ _ _ _ _ _ _ hig
    refine ⟨hm ro, ?_⟩
    intro rest b
    have hs1 : (f.unexported && !f.Anonymous) = false := by simp [hanon]
    rw [fieldLoop_cons_visit _ _ _ _ _ hs1, hm]
    simp

/-- In `struct { S }` with a default declared on the embedded `S`, the visit of
`S` sets `Name` and `Age` from their own defaults, as without the annotation;
with the sentinel on `S` nothing is set. -/
theorem embedded_default_never_applied_witness :
    (GetTagDefFunc "default").ignore ⟨"S", "", [("default", "x")], true⟩ = false ∧
    (GetTagDefFunc "default").hasDefault ⟨"S", "", [("default", "x")], true⟩ = true ∧
    mapping Lib.rejecting Decls.empty (GetTagDefFunc "default") 2 false (.struct subFields)
        ⟨"S", "", [("default", "x")], true⟩ =
      mapping Lib.rejecting Decls.empty (GetTagDefFunc "default") 2 false (.struct subFields)
        ⟨"S", "", [], true⟩ ∧
    mapping Lib.rejecting Decls.empty (GetTagDefFunc "default") 2 false (.struct subFields)
        ⟨"S", "", [("default", "x")], true⟩ =
      some ⟨.struct (.cons ⟨"Name", "", [("default", "anon")], false⟩ (.string "anon") <|
        .cons ⟨"Age", "", [("default", "7")], false⟩ (.int .Int 7) .nil), true, none⟩ ∧
    mapping Lib.rejecting Decls.empty (GetTagDefFunc "default") 2 false (.struct subFields)
        ⟨"S", "", [("default", "-")], true⟩ = some ⟨.struct subFields, false, none⟩ :=
  ⟨by decide, by decide,
    ((embedded_default_never_applied Lib.rejecting Decls.empty (GetTagDefFunc "default")
      ⟨"S", "", [("default", "x")], true⟩ (.struct subFields) (by decide) (by decide)).1
      (by decide) ⟨"S", "", [], true⟩ 2 false (by decide)).1,
    by decide, by decide⟩

end FiberImpl


namespace FiberImpl

/-! ## Records without defaults that refer to themselves (C5) -/

/-- C5: on the list node `type Node struct { Next *Node }` with `Next` nil no
field at any depth declares a default, under the `default` tag and under the
`default=` sub-key of the `form` tag, the declared type `Node` included, and
yet neither `MapDefault(&node)` nor `MapFormDefault(&node)` returns nil with
the record unchanged: they do not return at all, whatever the fuel, because
each visit of the nil `Next` allocates a fresh `Node` and visits its `Next`
again. -/
theorem no_defaults_record_diverges (lib : Lib) (fuel : Nat) :
    findCoreType nodeValue.Type = .Struct ∧
    (∀ name, (nodeDecls name).noDefault (GetTagDefFunc "default") = true) ∧
    (∀ name, (nodeDecls name).noDefault (GetSubTagDefFunc "form" "default") = true) ∧
    nodeValue.noDefault (GetTagDefFunc "default") = true ∧
    nodeValue.noDefault (GetSubTagDefFunc "form" "default") = true ∧
    nodeValue.closed = false ∧
    MapDefault lib nodeDecls fuel (.iface nodeValue.Addr) = none ∧
    MapFormDefault lib nodeDecls fuel (.iface nodeValue.Addr) = none := by
  have hs : findCoreType nodeValue.Type = .Struct := by decide
  have hdecl : ∀ (df : DefFunc), df ⟨"Next", "", [], false⟩ = "" →
      ∀ name, (nodeDecls name).noDefault df = true := by
    intro df hnext name
    by_cases hn : name = "Node"
    · simp [nodeDecls, hn, TypeFields.noDefault, GoType.noDefault, DefFunc.hasDefault, hnext]
    · simp [nodeDecls, hn, TypeFields.noDefault]
  have key : ∀ df : DefFunc, df ⟨"Next", "", [], false⟩ = "" → df emptyField = "" →
      mapFormByTag lib nodeDecls fuel (.iface nodeValue.Addr) df = none := by
    intro df hnext hroot
    have hig : df.ignore emptyField = false := by simp [DefFunc.ignore, hroot]
    have hnd : df.hasDefault emptyField = false := by simp [DefFunc.hasDefault, hroot]
    rw [mapFormByTag_addr _ _ _ _ _ hs]
    cases fuel with
    | zero => simp [mapping_zero]
    | succ n =>
      simp only [Value.Addr]
      rw [mapping_ptrTo _ _ _ _ _ _ _ _ hig,
        (mapping_node_diverges lib df hnext n).1 false emptyField hig hnd]
      rfl
  exact ⟨hs, hdecl _ rfl, hdecl _ (by decide), by decide, by decide, by decide,
    key _ rfl rfl, key _ (by decide) (by decide)⟩

end FiberImpl
